import Mathlib

set_option maxRecDepth 8000

/-!
Verification development for the GRC compliance-platform ingestion core:
a shallow embedding in Lean 4 of the text normalizer, column mapper,
structure detector, ZIP adapter safety checks, and the seeder / upsert
engine, together with theorems settling the specification claims.

Text values are modelled as lists of characters; cell values as a small
dynamic-value type distinguishing null, NaN and strings; database tables
as lists of row records.  Unicode NFKC normalization is kept as an explicit
function parameter: theorems about `clean_text` assume only the properties
Unicode NFKC actually enjoys (idempotence, not introducing the replaced
whitespace variants, stability under edge-whitespace removal), and the
concrete instantiation used for closed evaluations is the identity, which
agrees with NFKC on all ASCII inputs appearing in those evaluations.
-/

namespace GRC

/-- Text is modelled as a list of characters. -/
abbrev Str := List Char

/-- Dynamic scalar cell value as seen by the Python code: `None`, a float
NaN (pandas missing value), or a string.  Numbers other than NaN never
occur in the claims settled here; they would behave like their string
rendering after `str(...)`. -/
inductive Val where
| vNull : Val
| vNaN : Val
| vStr : Str → Val
deriving DecidableEq, Repr

open Val

/-- Python whitespace predicate used by `str.strip()` with no argument. -/
def pyIsSpace (c : Char) : Bool :=
  let n := c.toNat
  (9 ≤ n && n ≤ 13) || (28 ≤ n && n ≤ 31) || n == 32 || n == 133 || n == 160 ||
    n == 0x1680 || (0x2000 ≤ n && n ≤ 0x200A) || n == 0x2028 || n == 0x2029 ||
    n == 0x202F || n == 0x205F || n == 0x3000

/-- Python `s.replace(a, b)` for single characters. -/
def replaceChar (a b : Char) (s : Str) : Str :=
  s.map (fun c => if c = a then b else c)

/-- Python `s.replace(a, '')` for a single character. -/
def removeChar (a : Char) (s : Str) : Str :=
  s.filter (fun c => c ≠ a)

/-- The sequence of whitespace-variant replacements performed by
`clean_text` in `utils/adapters.py` before line-ending normalization:
non-breaking space to space, zero-width space removed, em space, en
space and thin space to space (the second non-breaking-space replace in
the source is a repeat of the first and is a no-op). -/
def normSpecialSpaces (s : Str) : Str :=
  replaceChar (Char.ofNat 0x2009) ' '
    (replaceChar (Char.ofNat 0x2002) ' '
      (replaceChar (Char.ofNat 0x2003) ' '
        (replaceChar (Char.ofNat 0xA0) ' '
          (removeChar (Char.ofNat 0x200B)
            (replaceChar (Char.ofNat 0xA0) ' ' s)))))

/-- Line-ending normalization of `clean_text`: `\r\n` then any remaining
`\r` become `\n` (the two sequential Python `replace` calls have exactly
this combined effect). -/
def normCRLF : Str → Str
| [] => []
| '\r' :: '\n' :: t => '\n' :: normCRLF t
| '\r' :: t => '\n' :: normCRLF t
| c :: t => c :: normCRLF t

/-- Python `s.strip()`. -/
def pyStrip (s : Str) : Str :=
  ((s.dropWhile pyIsSpace).reverse.dropWhile pyIsSpace).reverse

/-- The characters eliminated by `clean_text` before NFKC normalization:
the replaced whitespace variants, the zero-width space, and `\r`. -/
def isSpecialChar (c : Char) : Bool :=
  c == Char.ofNat 0xA0 || c == Char.ofNat 0x200B || c == Char.ofNat 0x2003 ||
    c == Char.ofNat 0x2002 || c == Char.ofNat 0x2009 || c == '\r'

/-- A string free of the characters `clean_text` replaces or removes. -/
def noSpecials (s : Str) : Prop := ∀ c ∈ s, isSpecialChar c = false

/-- Model of `clean_text` from `utils/adapters.py`, parametrized by the
Unicode NFKC normalization function.  `pd.isna` is true for `None` and
NaN; the empty string is rejected up front; then the replacements, NFKC,
and strip run in source order, and an empty result becomes `None`. -/
def cleanTextWith (nfkc : Str → Str) : Val → Option Str
| vNull => none
| vNaN => none
| vStr s =>
  if s = [] then none
  else
    let s3 := pyStrip (nfkc (normCRLF (normSpecialSpaces s)))
    if s3 = [] then none else some s3

/-- Reinjection of a `clean_text` result into a cell value: Python `None`
becomes the null value, a string stays a string. -/
def optToVal : Option Str → Val
| none => vNull
| some s => vStr s

/-- Unicode NFKC is the identity on every ASCII string; all closed
evaluations in this development are over ASCII data, so the identity is
the faithful instantiation of the NFKC parameter for them. -/
def asciiNFKC (s : Str) : Str := s

/-- Model of `clean_text` at the concrete NFKC instantiation used for
closed evaluations over ASCII data. -/
def cleanText : Val → Option Str := cleanTextWith asciiNFKC

-- ---------------------------------------------------------------------
-- Text-layer lemmas
-- ---------------------------------------------------------------------

theorem replaceChar_eq_self (a b : Char) (s : Str) (h : ∀ c ∈ s, c ≠ a) :
    replaceChar a b s = s := by
  induction s with
  | nil => rfl
  | cons x t ih =>
    simp only [replaceChar, List.map_cons]
    rw [if_neg (h x (List.mem_cons_self x t))]
    have := ih (fun c hc => h c (List.mem_cons_of_mem x hc))
    simpa [replaceChar] using this

theorem removeChar_eq_self (a : Char) (s : Str) (h : ∀ c ∈ s, c ≠ a) :
    removeChar a s = s := by
  induction s with
  | nil => rfl
  | cons x t ih =>
    simp only [removeChar, List.filter_cons]
    have hx : (x ≠ a) = True := by simp [h x (List.mem_cons_self x t)]
    simp only [decide_eq_true_eq]
    rw [if_pos (h x (List.mem_cons_self x t))]
    have := ih (fun c hc => h c (List.mem_cons_of_mem x hc))
    simpa [removeChar] using this

theorem mem_replaceChar (a b : Char) (s : Str) (c : Char)
    (h : c ∈ replaceChar a b s) : c = b ∨ (c ∈ s ∧ c ≠ a) := by
  induction s with
  | nil => simp [replaceChar] at h
  | cons x t ih =>
    simp only [replaceChar, List.map_cons, List.mem_cons] at h
    rcases h with h | h
    · by_cases hx : x = a
      · left; simpa [hx] using h
      · right
        rw [if_neg hx] at h
        exact ⟨by simp [h], h ▸ hx⟩
    · rcases ih h with h' | h'
      · exact Or.inl h'
      · exact Or.inr ⟨List.mem_cons_of_mem x h'.1, h'.2⟩

theorem mem_removeChar (a : Char) (s : Str) (c : Char)
    (h : c ∈ removeChar a s) : c ∈ s ∧ c ≠ a := by
  simp only [removeChar, List.mem_filter, decide_eq_true_eq] at h
  exact h

theorem normSpecialSpaces_no_specials (s : Str) (c : Char)
    (h : c ∈ normSpecialSpaces s) : isSpecialChar c = false ∨ c = '\r' := by
  unfold normSpecialSpaces at h
  rcases mem_replaceChar _ _ _ _ h with h1 | ⟨h1, hne1⟩
  · left; subst h1; rfl
  rcases mem_replaceChar _ _ _ _ h1 with h2 | ⟨h2, hne2⟩
  · left; subst h2; rfl
  rcases mem_replaceChar _ _ _ _ h2 with h3 | ⟨h3, hne3⟩
  · left; subst h3; rfl
  rcases mem_replaceChar _ _ _ _ h3 with h4 | ⟨h4, hne4⟩
  · left; subst h4; rfl
  have h5 := mem_removeChar _ _ _ h4
  rcases mem_replaceChar _ _ _ _ h5.1 with h6 | ⟨_, hne6⟩
  · left; subst h6; rfl
  by_cases hr : c = '\r'
  · exact Or.inr hr
  · left
    simp only [isSpecialChar, Bool.or_eq_false_iff, beq_eq_false_iff_ne, ne_eq]
    exact ⟨⟨⟨⟨⟨hne6, h5.2⟩, hne3⟩, hne2⟩, hne1⟩, hr⟩

theorem normCRLF_cr (t : Str) (h : t.head? ≠ some '\n') :
    normCRLF ('\r' :: t) = '\n' :: normCRLF t := by
  rw [normCRLF.eq_def]
  split
  · rename_i heq; simp at heq
  · rename_i heq; injection heq with ha hb; subst hb; simp at h
  · rename_i heq; injection heq with ha hb; subst hb; rfl
  · rename_i hm1 hm2 heq; injection heq with ha hb
    exact absurd ha.symm (by simpa using hm2)

theorem normCRLF_cons (c : Char) (t : Str) (h : c ≠ '\r') :
    normCRLF (c :: t) = c :: normCRLF t := by
  rw [normCRLF.eq_def]
  split
  · rename_i heq; simp at heq
  · rename_i heq; injection heq with ha hb; exact absurd ha h
  · rename_i heq; injection heq with ha hb; exact absurd ha h
  · rename_i hm1 hm2 heq; injection heq with ha hb; subst ha; subst hb; rfl

theorem normCRLF_no_cr (s : Str) : ∀ c ∈ normCRLF s, c ≠ '\r' := by
  induction s using normCRLF.induct with
  | case1 => intro c hc; simp [normCRLF] at hc
  | case2 t ih =>
    intro c hc
    rw [show normCRLF ('\r' :: '\n' :: t) = '\n' :: normCRLF t from rfl] at hc
    rcases List.mem_cons.mp hc with h | h
    · subst h; decide
    · exact ih c h
  | case3 t hne ih =>
    intro c hc
    rw [normCRLF_cr t (by
      cases t with
      | nil => simp
      | cons a t' => simp only [List.head?_cons, ne_eq, Option.some.injEq]
                     intro hcon; exact hne t' (by rw [hcon]))] at hc
    rcases List.mem_cons.mp hc with h | h
    · subst h; decide
    · exact ih c h
  | case4 c' t h1 h2 ih =>
    intro c hc
    rw [normCRLF_cons c' t (fun hcon => h2 hcon)] at hc
    rcases List.mem_cons.mp hc with h | h
    · subst h; exact fun hcon => h2 hcon
    · exact ih c h

theorem mem_normCRLF (s : Str) : ∀ c ∈ normCRLF s, c ∈ s ∨ c = '\n' := by
  induction s using normCRLF.induct with
  | case1 => intro c hc; simp [normCRLF] at hc
  | case2 t ih =>
    intro c hc
    rw [show normCRLF ('\r' :: '\n' :: t) = '\n' :: normCRLF t from rfl] at hc
    rcases List.mem_cons.mp hc with h | h
    · exact Or.inr h
    · rcases ih c h with h' | h'
      · exact Or.inl (by simp [List.mem_cons, h'])
      · exact Or.inr h'
  | case3 t hne ih =>
    intro c hc
    rw [normCRLF_cr t (by
      cases t with
      | nil => simp
      | cons a t' => simp only [List.head?_cons, ne_eq, Option.some.injEq]
                     intro hcon; exact hne t' (by rw [hcon]))] at hc
    rcases List.mem_cons.mp hc with h | h
    · exact Or.inr h
    · rcases ih c h with h' | h'
      · exact Or.inl (List.mem_cons_of_mem _ h')
      · exact Or.inr h'
  | case4 c' t h1 h2 ih =>
    intro c hc
    rw [normCRLF_cons c' t (fun hcon => h2 hcon)] at hc
    rcases List.mem_cons.mp hc with h | h
    · exact Or.inl (h ▸ List.mem_cons_self c' t)
    · rcases ih c h with h' | h'
      · exact Or.inl (List.mem_cons_of_mem _ h')
      · exact Or.inr h'

theorem cleanStage_no_specials (s : Str) : noSpecials (normCRLF (normSpecialSpaces s)) := by
  intro c hc
  have hcr := normCRLF_no_cr _ c hc
  rcases mem_normCRLF _ c hc with h | h
  · rcases normSpecialSpaces_no_specials s c h with h' | h'
    · exact h'
    · exact absurd h' hcr
  · subst h; rfl

theorem normSpecialSpaces_eq_self (s : Str) (h : noSpecials s) :
    normSpecialSpaces s = s := by
  have hall : ∀ x, isSpecialChar x = true →
      (x = Char.ofNat 0xA0 ∨ x = Char.ofNat 0x200B ∨ x = Char.ofNat 0x2003 ∨
        x = Char.ofNat 0x2002 ∨ x = Char.ofNat 0x2009 ∨ x = '\r') := by
    intro x hx
    simp only [isSpecialChar, Bool.or_eq_true, beq_iff_eq] at hx
    tauto
  have ha0 : ∀ c ∈ s, c ≠ Char.ofNat 0xA0 := by
    intro c hc hcon
    have := h c hc
    rw [hcon] at this
    simp [isSpecialChar] at this
  have hzw : ∀ c ∈ s, c ≠ Char.ofNat 0x200B := by
    intro c hc hcon
    have := h c hc
    rw [hcon] at this
    simp [isSpecialChar] at this
  have hem : ∀ c ∈ s, c ≠ Char.ofNat 0x2003 := by
    intro c hc hcon
    have := h c hc
    rw [hcon] at this
    simp [isSpecialChar] at this
  have hen : ∀ c ∈ s, c ≠ Char.ofNat 0x2002 := by
    intro c hc hcon
    have := h c hc
    rw [hcon] at this
    simp [isSpecialChar] at this
  have hth : ∀ c ∈ s, c ≠ Char.ofNat 0x2009 := by
    intro c hc hcon
    have := h c hc
    rw [hcon] at this
    simp [isSpecialChar] at this
  unfold normSpecialSpaces
  rw [replaceChar_eq_self _ _ s ha0, removeChar_eq_self _ s hzw,
    replaceChar_eq_self _ _ s ha0, replaceChar_eq_self _ _ s hem,
    replaceChar_eq_self _ _ s hen, replaceChar_eq_self _ _ s hth]

theorem head?_dropWhile_false (p : Char → Bool) (l : Str) (x : Char)
    (h : (l.dropWhile p).head? = some x) : p x = false := by
  have := List.head?_dropWhile_not p l
  rw [h] at this
  exact this

theorem dropWhile_eq_self_of_head? (p : Char → Bool) (l : Str)
    (h : ∀ x, l.head? = some x → p x = false) : l.dropWhile p = l := by
  cases l with
  | nil => rfl
  | cons a t => simp [List.dropWhile_cons, h a rfl]

theorem mem_pyStrip (s : Str) (c : Char) (h : c ∈ pyStrip s) : c ∈ s := by
  unfold pyStrip at h
  rw [List.mem_reverse] at h
  have h1 := (List.dropWhile_suffix pyIsSpace).sublist.subset h
  rw [List.mem_reverse] at h1
  exact (List.dropWhile_suffix pyIsSpace).sublist.subset h1

theorem pyStrip_idem (s : Str) : pyStrip (pyStrip s) = pyStrip s := by
  set p := pyIsSpace with hp
  set a := s.dropWhile p with ha
  set b := a.reverse.dropWhile p with hb
  show pyStrip b.reverse = b.reverse
  have hbhead : ∀ x, b.head? = some x → p x = false := fun x hx =>
    head?_dropWhile_false p a.reverse x (hb ▸ hx)
  have hrevhead : ∀ x, b.reverse.head? = some x → p x = false := by
    intro x hx
    rw [List.head?_reverse] at hx
    by_cases hbe : b = []
    · rw [hbe] at hx; simp at hx
    · obtain ⟨u, hu⟩ : b <:+ a.reverse := hb ▸ List.dropWhile_suffix p
      have hlast : b.getLast? = a.reverse.getLast? := by
        rw [← hu, List.getLast?_append_of_ne_nil u hbe]
      rw [hlast, List.getLast?_reverse] at hx
      exact head?_dropWhile_false p s x (ha ▸ hx)
  unfold pyStrip
  rw [dropWhile_eq_self_of_head? p b.reverse hrevhead, List.reverse_reverse,
    dropWhile_eq_self_of_head? p b hbhead]

theorem normCRLF_eq_self (s : Str) (h : ∀ c ∈ s, c ≠ '\r') : normCRLF s = s := by
  induction s with
  | nil => rfl
  | cons x t ih =>
    have hx : x ≠ '\r' := h x (List.mem_cons_self x t)
    have ht : ∀ c ∈ t, c ≠ '\r' := fun c hc => h c (List.mem_cons_of_mem x hc)
    rw [normCRLF_cons x t hx, ih ht]

theorem noSpecials_no_cr (s : Str) (h : noSpecials s) : ∀ c ∈ s, c ≠ '\r' := by
  intro c hc hcon
  have := h c hc
  rw [hcon] at this
  simp [isSpecialChar] at this

/-- The value returned by a successful `clean_text` is a non-empty string,
already stripped, free of the replaced whitespace variants and zero-width
characters, and NFKC-normalized. -/
theorem cleanTextWith_output_props (nfkc : Str → Str)
    (hIdem : ∀ s, nfkc (nfkc s) = nfkc s)
    (hSpec : ∀ s, noSpecials s → noSpecials (nfkc s))
    (hStrip : ∀ s, nfkc s = s → nfkc (pyStrip s) = pyStrip s)
    (v : Val) (s : Str) (h : cleanTextWith nfkc v = some s) :
    s ≠ [] ∧ pyStrip s = s ∧ noSpecials s ∧ nfkc s = s := by
  cases v with
  | vNull => simp [cleanTextWith] at h
  | vNaN => simp [cleanTextWith] at h
  | vStr s0 =>
    have h' : (if s0 = [] then (none : Option Str)
        else
          let s3 := pyStrip (nfkc (normCRLF (normSpecialSpaces s0)))
          if s3 = [] then none else some s3) = some s := h
    clear h
    rename' h' => h
    by_cases h0 : s0 = []
    · simp [h0] at h
    rw [if_neg h0] at h
    simp only [] at h
    set s1 := normCRLF (normSpecialSpaces s0) with hs1
    set s2 := nfkc s1 with hs2
    by_cases h3 : pyStrip s2 = []
    · simp only [h3, if_pos] at h
      simp at h
    rw [if_neg h3] at h
    have hse : s = pyStrip s2 := by
      injection h.symm
    subst hse
    refine ⟨h3, pyStrip_idem s2, ?_, ?_⟩
    · intro c hc
      exact hSpec s1 (cleanStage_no_specials s0) c (mem_pyStrip s2 c hc)
    · exact hStrip s2 (hIdem s1)

/-- A non-empty stripped string free of special characters and fixed by
NFKC is a fixed point of `clean_text`. -/
theorem cleanTextWith_fixed (nfkc : Str → Str) (s : Str)
    (hne : s ≠ []) (hstr : pyStrip s = s) (hsp : noSpecials s) (hn : nfkc s = s) :
    cleanTextWith nfkc (vStr s) = some s := by
  show (if s = [] then (none : Option Str)
      else
        let s3 := pyStrip (nfkc (normCRLF (normSpecialSpaces s)))
        if s3 = [] then none else some s3) = some s
  rw [if_neg hne, normSpecialSpaces_eq_self s hsp,
    normCRLF_eq_self s (noSpecials_no_cr s hsp), hn, hstr, if_neg hne]

/-- C9: `clean_text` is idempotent — cleaning a cleaned value returns it
unchanged — and every non-null output is a non-empty string that is
already stripped, free of the replaced whitespace variants and zero-width
characters, NFKC-normalized, and a fixed point of `clean_text`.  The NFKC
parameter is assumed idempotent, to preserve absence of the replaced
characters, and to fix stripped normalized strings; Unicode NFKC has all
three properties. -/
theorem c9_clean_text_idempotent (nfkc : Str → Str)
    (hIdem : ∀ s, nfkc (nfkc s) = nfkc s)
    (hSpec : ∀ s, noSpecials s → noSpecials (nfkc s))
    (hStrip : ∀ s, nfkc s = s → nfkc (pyStrip s) = pyStrip s)
    (v : Val) :
    cleanTextWith nfkc (optToVal (cleanTextWith nfkc v)) = cleanTextWith nfkc v ∧
    (∀ s, cleanTextWith nfkc v = some s →
      s ≠ [] ∧ pyStrip s = s ∧ noSpecials s ∧ nfkc s = s ∧
      cleanTextWith nfkc (vStr s) = some s) := by
  constructor
  · cases hv : cleanTextWith nfkc v with
    | none => simp [optToVal, cleanTextWith]
    | some s =>
      obtain ⟨hne, hstr, hsp, hn⟩ :=
        cleanTextWith_output_props nfkc hIdem hSpec hStrip v s hv
      simpa [optToVal] using cleanTextWith_fixed nfkc s hne hstr hsp hn
  · intro s hv
    obtain ⟨hne, hstr, hsp, hn⟩ :=
      cleanTextWith_output_props nfkc hIdem hSpec hStrip v s hv
    exact ⟨hne, hstr, hsp, hn, cleanTextWith_fixed nfkc s hne hstr hsp hn⟩

/-- Witness for C9 at a concrete input: the ASCII string with a leading
space and a carriage return, cleaned twice, with NFKC instantiated to its
restriction to ASCII (the identity). -/
theorem c9_clean_text_idempotent_witness :
    cleanTextWith asciiNFKC
        (optToVal (cleanTextWith asciiNFKC (vStr (' ' :: 'a' :: '\r' :: 'b' :: [])))) =
      cleanTextWith asciiNFKC (vStr (' ' :: 'a' :: '\r' :: 'b' :: [])) ∧
    (∀ s, cleanTextWith asciiNFKC (vStr (' ' :: 'a' :: '\r' :: 'b' :: [])) = some s →
      s ≠ [] ∧ pyStrip s = s ∧ noSpecials s ∧ asciiNFKC s = s ∧
      cleanTextWith asciiNFKC (vStr s) = some s) :=
  c9_clean_text_idempotent asciiNFKC (fun _ => rfl) (fun _ h => h) (fun _ _ => rfl)
    (vStr (' ' :: 'a' :: '\r' :: 'b' :: []))

-- ---------------------------------------------------------------------
-- Column mapper: difflib SequenceMatcher and fuzzy_match_column
-- ---------------------------------------------------------------------

/-- Shorthand turning a Lean string literal into the character-list
representation used by the embedding. -/
def S (s : String) : Str := s.data

/-- Python `str.lower()` restricted to ASCII (all strings compared by the
column mapper in this development are ASCII). -/
def pyLowerStr (s : Str) : Str := s.map Char.toLower

/-- Python `needle in hay` substring test. -/
def strContainsSub (hay needle : Str) : Bool :=
  hay.tails.any (fun t => needle.isPrefixOf t)

/-- Record the position `j` of character `c` in the difflib `b2j` index. -/
def addPos (m : List (Char × List Nat)) (c : Char) (j : Nat) : List (Char × List Nat) :=
  match m with
  | [] => [(c, [j])]
  | (c', js) :: rest =>
    if c' = c then (c', js ++ [j]) :: rest else (c', js) :: addPos rest c j

/-- Build the raw `b2j` map of difflib `SequenceMatcher`: each character of
`b` mapped to its ascending list of positions. -/
def buildB2J : Str → Nat → List (Char × List Nat) → List (Char × List Nat)
| [], _, m => m
| c :: t, j, m => buildB2J t (j + 1) (addPos m c j)

/-- The difflib autojunk rule: for `b` of length at least 200, characters
occupying more than one percent of `b` are dropped from `b2j`. -/
def b2j (b : Str) : List (Char × List Nat) :=
  let m := buildB2J b 0 []
  if 200 ≤ b.length then
    m.filter (fun p => !(b.length / 100 + 1 < p.2.length))
  else m

/-- Characters classified as junk in `b` by the autojunk rule (there is no
user junk predicate: `SequenceMatcher(None, a, b)`). -/
def bjunk (b : Str) : List Char :=
  if 200 ≤ b.length then
    (buildB2J b 0 []).filterMap
      (fun p => if b.length / 100 + 1 < p.2.length then some p.1 else none)
  else []

def b2jGet (m : List (Char × List Nat)) (c : Char) : List Nat :=
  match m.find? (fun p => p.1 == c) with
  | some p => p.2
  | none => []

def j2lenGet (m : List (Nat × Nat)) (j : Nat) : Nat :=
  match m.find? (fun p => p.1 == j) with
  | some p => p.2
  | none => 0

def j2lenSet (m : List (Nat × Nat)) (j k : Nat) : List (Nat × Nat) :=
  match m with
  | [] => [(j, k)]
  | (j', k') :: rest =>
    if j' = j then (j, k) :: rest else (j', k') :: j2lenSet rest j k

/-- Inner loop of difflib `find_longest_match` over the positions of
`a[i]` in `b`: positions below `blo` are skipped, the loop breaks at the
first position at or beyond `bhi`, and each surviving position extends
the diagonal run ending there. -/
def flmInner (blo bhi i : Nat) (j2len : List (Nat × Nat)) :
    List Nat → List (Nat × Nat) → (Nat × Nat × Nat) → List (Nat × Nat) × (Nat × Nat × Nat)
| [], newj2len, best => (newj2len, best)
| j :: js, newj2len, best =>
  if j < blo then flmInner blo bhi i j2len js newj2len best
  else if bhi ≤ j then (newj2len, best)
  else
    let kprev := if j = 0 then 0 else j2lenGet j2len (j - 1)
    let k := kprev + 1
    let newj2len' := j2lenSet newj2len j k
    let best' := if best.2.2 < k then (i + 1 - k, j + 1 - k, k) else best
    flmInner blo bhi i j2len js newj2len' best'

/-- Outer loop of `find_longest_match` over `i` in `[alo, ahi)`. -/
def flmOuter (a : Str) (bj : List (Char × List Nat)) (blo bhi : Nat) :
    List Nat → List (Nat × Nat) → (Nat × Nat × Nat) → (Nat × Nat × Nat)
| [], _, best => best
| i :: is, j2len, best =>
  let st := flmInner blo bhi i j2len (b2jGet bj (a.getD i (Char.ofNat 0))) [] best
  flmOuter a bj blo bhi is st.1 st.2

/-- Backward extension loop of `find_longest_match`; `cond` is the
predicate required of `b[bestj-1]` (non-junk for the first loop, junk for
the third). -/
def extendBack (a b : Str) (cond : Char → Bool) (alo blo : Nat) :
    Nat → (Nat × Nat × Nat) → (Nat × Nat × Nat)
| 0, best => best
| fuel + 1, (bi, bj, bs) =>
  if alo < bi && blo < bj && cond (b.getD (bj - 1) (Char.ofNat 0)) &&
      (a.getD (bi - 1) (Char.ofNat 0) == b.getD (bj - 1) (Char.ofNat 0)) then
    extendBack a b cond alo blo fuel (bi - 1, bj - 1, bs + 1)
  else (bi, bj, bs)

/-- Forward extension loop of `find_longest_match`. -/
def extendFwd (a b : Str) (cond : Char → Bool) (ahi bhi : Nat) :
    Nat → (Nat × Nat × Nat) → (Nat × Nat × Nat)
| 0, best => best
| fuel + 1, (bi, bj, bs) =>
  if bi + bs < ahi && bj + bs < bhi && cond (b.getD (bj + bs) (Char.ofNat 0)) &&
      (a.getD (bi + bs) (Char.ofNat 0) == b.getD (bj + bs) (Char.ofNat 0)) then
    extendFwd a b cond ahi bhi fuel (bi, bj, bs + 1)
  else (bi, bj, bs)

/-- Model of difflib `SequenceMatcher.find_longest_match` on the window
`a[alo:ahi]`, `b[blo:bhi]`: dynamic-programming search for the longest
matching block followed by the four extension loops. -/
def findLongestMatch (a b : Str) (bj : List (Char × List Nat)) (junk : Char → Bool)
    (alo ahi blo bhi : Nat) : Nat × Nat × Nat :=
  let best := flmOuter a bj blo bhi (List.range' alo (ahi - alo)) [] (alo, blo, 0)
  let best := extendBack a b (fun c => !junk c) alo blo best.1 best
  let best := extendFwd a b (fun c => !junk c) ahi bhi ahi best
  let best := extendBack a b junk alo blo best.1 best
  extendFwd a b junk ahi bhi ahi best

/-- Total size of the matching blocks found by the recursive
`get_matching_blocks` strategy of difflib, fuel-bounded (the fuel used by
`smMatches` always suffices since every recursive window is strictly
smaller). -/
def smMatchesAux (a b : Str) (bj : List (Char × List Nat)) (junk : Char → Bool) :
    Nat → Nat × Nat → Nat × Nat → Nat
| 0, _, _ => 0
| fuel + 1, (alo, ahi), (blo, bhi) =>
  let r := findLongestMatch a b bj junk alo ahi blo bhi
  if r.2.2 = 0 then 0
  else
    r.2.2 + smMatchesAux a b bj junk fuel (alo, r.1) (blo, r.2.1) +
      smMatchesAux a b bj junk fuel (r.1 + r.2.2, ahi) (r.2.1 + r.2.2, bhi)

/-- Sum of matching-block sizes of `SequenceMatcher(None, a, b)`. -/
def smMatches (a b : Str) : Nat :=
  smMatchesAux a b (b2j b) (fun c => c ∈ bjunk b) (a.length + b.length + 1)
    (0, a.length) (0, b.length)

/-- Similarity scores are represented as exact unreduced fractions
(numerator, positive denominator); Python compares floats, the model
compares the corresponding exact rationals. -/
abbrev Score := Nat × Nat

/-- Exact comparison `x < y` of two fractional scores by cross
multiplication. -/
def scoreLt (x y : Score) : Bool := x.1 * y.2 < y.1 * x.2

/-- Model of `SequenceMatcher.ratio()`: `2M / (|a| + |b|)` as an exact
fraction (and 1 when both sequences are empty). -/
def simScore (a b : Str) : Score :=
  if a.length + b.length = 0 then (1, 1)
  else (2 * smMatches a b, a.length + b.length)

/-- Name normalization of `fuzzy_match_column`: lower-case, then
underscores and hyphens become spaces. -/
def fuzzyNorm (s : Str) : Str :=
  replaceChar '-' ' ' (replaceChar '_' ' ' (pyLowerStr s))

/-- Loop body of `fuzzy_match_column`: exact match returns immediately;
substring containment in either direction scores 0.8 and, when that beats
the running best, records the column and moves on; otherwise the
similarity score is computed and compared. -/
def fmcLoop (target : Str) : List Str → Score → Option Str → Option Str
| [], _, best => best
| col :: rest, bestScore, bestMatch =>
  let cl := fuzzyNorm col
  if cl = target then some col
  else if (strContainsSub cl target || strContainsSub target cl) &&
      scoreLt bestScore (4, 5) then
    fmcLoop target rest (4, 5) (some col)
  else
    let score := simScore target cl
    if scoreLt bestScore score then fmcLoop target rest score (some col)
    else fmcLoop target rest bestScore bestMatch

/-- Model of `fuzzy_match_column` from `utils/adapters.py` (threshold is
the 0.6 default). -/
def fuzzyMatchColumn (cols : List Str) (target : Str) : Option Str :=
  fmcLoop (fuzzyNorm target) cols (3, 5) none

/-- The `DEFAULT_CONTROL_MAPPINGS` alias table of `ColumnMapper`, in
source order. -/
def defaultControlMappings : List (Str × List Str) :=
  [ (S ("ccf_id"),
     [S ("ccf_id"), S ("ccf id"), S ("control id"), S ("control_id"), S ("id"),
      S ("ref"), S ("reference"), S ("scf #"), S ("scf#"), S ("scf id"),
      S ("control #"), S ("control#"), S ("identifier"), S ("scf control"),
      S ("control identifier"), S ("ctrl id"), S ("#"), S ("no"), S ("number"),
      S ("control number"), S ("ctrl"), S ("control ref")]),
    (S ("domain"),
     [S ("control domain"), S ("domain"), S ("category"), S ("control category"),
      S ("scf domain"), S ("security domain"), S ("control family"), S ("family"),
      S ("domains & principles"), S ("security function"), S ("function")]),
    (S ("title"),
     [S ("control name"), S ("title"), S ("name"), S ("control title"),
      S ("scf control"), S ("control"), S ("short description"),
      S ("control short name"), S ("control summary"), S ("summary")]),
    (S ("description"),
     [S ("control description"), S ("description"), S ("desc"), S ("details"),
      S ("control objective"), S ("objective"), S ("full description"),
      S ("control text"), S ("scf control description"), S ("control question"),
      S ("long description"), S ("control detail"), S ("control details")]),
    (S ("type"),
     [S ("control type"), S ("type"), S ("control_type"), S ("category type"),
      S ("classification"), S ("control classification")]),
    (S ("theme"),
     [S ("control theme"), S ("theme"), S ("control_theme"), S ("control category"),
      S ("subcategory"), S ("sub-category")]),
    (S ("guidance"),
     [S ("control implementation guidance"), S ("implementation guidance"),
      S ("guidance"), S ("implementation"), S ("implementation notes"), S ("notes"),
      S ("control guidance"), S ("implementation details"), S ("how to implement"),
      S ("supplemental guidance"), S ("implementation instructions")]),
    (S ("testing"),
     [S ("control testing procedure"), S ("testing procedure"), S ("testing"),
      S ("test procedure"), S ("audit procedure"), S ("assessment"),
      S ("assessment procedure"), S ("test"), S ("audit"),
      S ("assessment objectives"), S ("testing guidance"), S ("audit steps"),
      S ("test steps"), S ("verification"), S ("validation")]),
    (S ("artifacts"),
     [S ("audit artifacts"), S ("artifacts"), S ("evidence"), S ("evidence refs"),
      S ("evidence references"), S ("required evidence"), S ("evidence required"),
      S ("evidence request"), S ("erl"), S ("evidence list"), S ("documentation"),
      S ("required documentation")]) ]

/-- The `DEFAULT_EVIDENCE_MAPPINGS` alias table of `ColumnMapper`, in
source order. -/
def defaultEvidenceMappings : List (Str × List Str) :=
  [ (S ("ref_id"),
     [S ("reference #"), S ("reference"), S ("ref_id"), S ("ref"), S ("id"),
      S ("evidence id"), S ("evidence_id"), S ("erl #"), S ("erl#"), S ("erl id"),
      S ("artifact id"), S ("artifact #"), S ("#"), S ("no"), S ("number"),
      S ("evidence number"), S ("evidence ref"), S ("evidence reference")]),
    (S ("title"),
     [S ("evidence title"), S ("title"), S ("name"), S ("evidence name"),
      S ("description"), S ("artifact name"), S ("artifact title"),
      S ("evidence description"), S ("artifact description"),
      S ("evidence summary")]),
    (S ("domain"),
     [S ("evidence domain"), S ("domain"), S ("category"), S ("evidence category"),
      S ("artifact domain"), S ("artifact category")]) ]

/-- Lookup in the Python-dict model of `df_columns_lower`: a dict
comprehension keeps the last binding of a repeated key. -/
def dictLookupLast (m : List (Str × Str)) (k : Str) : Option Str :=
  (m.reverse.find? (fun p => p.1 == k)).map (fun p => p.2)

/-- Exact pass of `map_columns`: the first alias whose lower-cased form is
a key of `df_columns_lower` wins. -/
def exactAlias (lowerPairs : List (Str × Str)) : List Str → Option Str
| [] => none
| alt :: rest =>
  match dictLookupLast lowerPairs (pyLowerStr alt) with
  | some orig => some orig
  | none => exactAlias lowerPairs rest

/-- Resolution of one canonical field by `map_columns`: the exact pass
over the aliases, then `fuzzy_match_column` against the first alias only
(the default alias lists are never empty, so the `headD` default is never
consulted for them). -/
def resolveField (lowerPairs : List (Str × Str)) (cols : List Str)
    (p : Str × List Str) : Option Str :=
  match exactAlias lowerPairs p.2 with
  | some orig => some orig
  | none => fuzzyMatchColumn cols (p.2.headD [])

/-- The `df_columns_lower` dict of `map_columns`: cleaned lower-cased
stripped column names mapped back to the original names. -/
def columnsLowerDict (nfkc : Str → Str) (cols : List Str) : List (Str × Str) :=
  let colsClean : List Str := cols.map (fun c => (cleanTextWith nfkc (vStr c)).getD c)
  (colsClean.zip cols).map (fun p => (pyStrip (pyLowerStr p.1), p.2))

/-- Model of `ColumnMapper.map_columns`: each canonical field of the
profile is resolved in order; fields with no match are absent from the
result. -/
def mapColumnsWith (nfkc : Str → Str) (table : List (Str × List Str))
    (cols : List Str) : List (Str × Str) :=
  let lowerPairs := columnsLowerDict nfkc cols
  table.filterMap
    (fun p => (resolveField lowerPairs cols p).map (fun x => (p.1, x)))

/-- `map_columns` with the default controls profile at the ASCII NFKC
instantiation. -/
def mapColumnsControls (cols : List Str) : List (Str × Str) :=
  mapColumnsWith asciiNFKC defaultControlMappings cols

/-- Result lookup: whether a canonical field was mapped, and to what. -/
def mappedTo (result : List (Str × Str)) (canonical : Str) : Option Str :=
  (result.find? (fun p => p.1 == canonical)).map (fun p => p.2)

-- ---------------------------------------------------------------------
-- Column-mapper lemmas and claim C5
-- ---------------------------------------------------------------------

theorem fmcLoop_ne_none_of_some (target : Str) (cols : List Str) :
    ∀ (s : Score) (m : Option Str), m ≠ none → fmcLoop target cols s m ≠ none := by
  induction cols with
  | nil => intro s m hm; exact hm
  | cons col rest ih =>
    intro s m hm
    simp only [fmcLoop]
    split
    · simp
    · split
      · exact ih (4, 5) (some col) (by simp)
      · split
        · exact ih _ (some col) (by simp)
        · exact ih s m hm

/-- When the running best is still below 0.8 (true initially: the 0.6
threshold) and some column is equal to or contains (either direction) the
normalized target, `fuzzy_match_column`'s loop cannot come back empty. -/
theorem fmcLoop_ne_none_of_contained (target : Str) (cols : List Str) :
    ∀ (s : Score) (m : Option Str), (m = none → scoreLt s (4, 5) = true) →
    (∃ col ∈ cols, fuzzyNorm col = target ∨
      (strContainsSub (fuzzyNorm col) target || strContainsSub target (fuzzyNorm col)) = true) →
    fmcLoop target cols s m ≠ none := by
  induction cols with
  | nil => intro s m _ hw; simp at hw
  | cons col rest ih =>
    intro s m hinv hw
    simp only [fmcLoop]
    split
    · simp
    · split
      · exact fmcLoop_ne_none_of_some target rest (4, 5) (some col) (by simp)
      · rename_i heq hcond
        split
        · exact fmcLoop_ne_none_of_some target rest _ (some col) (by simp)
        · rcases hw with ⟨w, hwmem, hwprop⟩
          rcases List.mem_cons.mp hwmem with hwcol | hwrest
          · subst hwcol
            rcases hwprop with hweq | hwcont
            · exact absurd hweq heq
            · have hs : scoreLt s (4, 5) = false := by
                by_cases hvalue : scoreLt s (4, 5) = true
                · exfalso; exact hcond (by rw [hwcont, hvalue]; rfl)
                · simpa using hvalue
              have hm : m ≠ none := by
                intro hnone
                rw [hinv hnone] at hs
                simp at hs
              exact fmcLoop_ne_none_of_some target rest s m hm
          · exact ih s m hinv ⟨w, hwrest, hwprop⟩

theorem fuzzyMatchColumn_ne_none (cols : List Str) (target : Str)
    (hw : ∃ col ∈ cols,
      (strContainsSub (fuzzyNorm col) (fuzzyNorm target) ||
        strContainsSub (fuzzyNorm target) (fuzzyNorm col)) = true) :
    fuzzyMatchColumn cols target ≠ none := by
  refine fmcLoop_ne_none_of_contained (fuzzyNorm target) cols (3, 5) none
    (fun _ => by decide) ?_
  rcases hw with ⟨w, hwmem, hwprop⟩
  exact ⟨w, hwmem, Or.inr hwprop⟩

theorem mapColumns_maps_of_first_alias (nfkc : Str → Str)
    (table : List (Str × List Str)) (cols : List Str) (canonical : Str)
    (alts : List Str) (hmem : (canonical, alts) ∈ table)
    (hw : ∃ col ∈ cols,
      (strContainsSub (fuzzyNorm col) (fuzzyNorm (alts.headD [])) ||
        strContainsSub (fuzzyNorm (alts.headD [])) (fuzzyNorm col)) = true) :
    mappedTo (mapColumnsWith nfkc table cols) canonical ≠ none := by
  have hres : resolveField (columnsLowerDict nfkc cols) cols (canonical, alts) ≠ none := by
    unfold resolveField
    cases hex : exactAlias (columnsLowerDict nfkc cols) alts with
    | some orig => simp
    | none => simpa using fuzzyMatchColumn_ne_none cols (alts.headD []) hw
  cases hres2 : resolveField (columnsLowerDict nfkc cols) cols (canonical, alts) with
  | none => exact absurd hres2 hres
  | some x =>
    have hmem2 : (canonical, x) ∈ mapColumnsWith nfkc table cols := by
      unfold mapColumnsWith
      refine List.mem_filterMap.mpr ⟨(canonical, alts), hmem, ?_⟩
      rw [hres2]; rfl
    unfold mappedTo
    intro hcon
    rw [Option.map_eq_none'] at hcon
    rw [List.find?_eq_none] at hcon
    exact absurd (by simp) (hcon (canonical, x) hmem2)

/-- C5 counterexample: the canonical field `ccf_id` lists `"control id"`
among its aliases, the column `"Control Identification Number"` contains
that alias case-insensitively and matches no alias exactly, yet
`map_columns` leaves `ccf_id` unmapped — the substring step considers
only the first alias of a field, not all of them. -/
theorem c5_column_mapping_counterexample :
    (∃ alts, (S ("ccf_id"), alts) ∈ defaultControlMappings ∧ S ("control id") ∈ alts ∧
      ∀ alt ∈ alts, pyLowerStr alt ≠ pyStrip (pyLowerStr (S ("Control Identification Number")))) ∧
    strContainsSub (pyLowerStr (S ("Control Identification Number"))) (S ("control id")) = true ∧
    mappedTo (mapColumnsControls [S ("Control Identification Number")]) (S ("ccf_id")) = none := by
  refine ⟨?_, by decide, by decide⟩
  refine ⟨(defaultControlMappings.headD (S (""), [])).2, by decide, by decide, by decide⟩

/-- C5 amended: the substring-containment step of column mapping tests a
source column only against the first (highest-priority) alias of each
canonical field.  When such containment holds for some column, the field
is always mapped (to some column).  Concretely, `"Control Identification
Number"` maps to `description` and `guidance` (fuzzy similarity against
their first aliases exceeds the 0.6 threshold) and not to `ccf_id`, while
`"Random Notes"` maps to no canonical control field. -/
theorem c5_column_mapping_amended :
    (∀ (nfkc : Str → Str) (table : List (Str × List Str)) (cols : List Str)
      (canonical : Str) (alts : List Str), (canonical, alts) ∈ table →
      (∃ col ∈ cols,
        (strContainsSub (fuzzyNorm col) (fuzzyNorm (alts.headD [])) ||
          strContainsSub (fuzzyNorm (alts.headD [])) (fuzzyNorm col)) = true) →
      mappedTo (mapColumnsWith nfkc table cols) canonical ≠ none) ∧
    mapColumnsControls [S ("Control Identification Number")] =
      [(S ("description"), S ("Control Identification Number")),
       (S ("guidance"), S ("Control Identification Number"))] ∧
    mapColumnsControls [S ("Random Notes")] = [] := by
  exact ⟨mapColumns_maps_of_first_alias, by decide, by decide⟩

/-- Witness for the amended C5 at a concrete input: a column containing
the first alias of `ccf_id` is mapped. -/
theorem c5_column_mapping_amended_witness :
    mappedTo (mapColumnsWith asciiNFKC defaultControlMappings [S ("My ccf_id here")])
      (S ("ccf_id")) ≠ none :=
  c5_column_mapping_amended.1 asciiNFKC defaultControlMappings
    [S ("My ccf_id here")] (S ("ccf_id"))
    ((defaultControlMappings.headD (S (""), [])).2) (by decide)
    ⟨S ("My ccf_id here"), by decide, by decide⟩

-- ---------------------------------------------------------------------
-- Structure detector: detect_header_row (claim C6)
-- ---------------------------------------------------------------------

/-- Python `str(cell)` as applied by `.astype(str)` to a preview cell:
NaN renders as `"nan"`, `None` as `"None"`. -/
def pyStrVal : Val → Str
| vStr s => s
| vNaN => S ("nan")
| vNull => S ("None")

/-- Per-cell normalization pipeline of `detect_header_row`: the row is
converted to strings, lower-cased and stripped by pandas, then each cell
is passed through `clean_text` (empty results becoming `''`) and
lower-cased again. -/
def cellNorm (nfkc : Str → Str) (v : Val) : Str :=
  let base := pyStrip (pyLowerStr (pyStrVal v))
  pyLowerStr ((cleanTextWith nfkc (vStr base)).getD [])

/-- Number of markers appearing (case-insensitively) as a substring of
some cell of the row. -/
def rowMatchCount (nfkc : Str → Str) (markers : List Str) (row : List Val) : Nat :=
  let cells := row.map (cellNorm nfkc)
  (markers.map pyLowerStr).countP (fun m => cells.any (fun cell => strContainsSub cell m))

/-- The scanning loop of `detect_header_row`: the first row within the
budget whose match count reaches the threshold wins; otherwise row 0. -/
def dhrLoop (th : Nat) (cnt : List Val → Nat) : List (List Val) → Nat → Nat → Nat
| [], _, _ => 0
| _ :: _, _, 0 => 0
| row :: rest, i, r + 1 => if th ≤ cnt row then i else dhrLoop th cnt rest (i + 1) r

/-- Model of `detect_header_row` from `utils/adapters.py`: scan at most
`maxRows` leading rows (default 15) for the first row whose marker-match
count is at least `max(2, len(markers) - 2)`. -/
def detectHeaderRow (nfkc : Str → Str) (preview : List (List Val))
    (markers : List Str) (maxRows : Nat) : Nat :=
  dhrLoop (max 2 (markers.length - 2)) (rowMatchCount nfkc markers) preview 0
    (min maxRows preview.length)

theorem dhrLoop_eq (th : Nat) (cnt : List Val → Nat) :
    ∀ (rows : List (List Val)) (r i : Nat),
    dhrLoop th cnt rows i r =
      (match (List.range (min r rows.length)).find?
          (fun k => decide (th ≤ cnt (rows.getD k []))) with
       | some k => i + k
       | none => 0) := by
  intro rows
  induction rows with
  | nil =>
    intro r i
    cases r <;> simp [dhrLoop]
  | cons row rest ih =>
    intro r i
    cases r with
    | zero => simp [dhrLoop]
    | succ r' =>
      rw [show dhrLoop th cnt (row :: rest) i (r' + 1) =
        (if th ≤ cnt row then i else dhrLoop th cnt rest (i + 1) r') from rfl]
      rw [List.length_cons, Nat.succ_min_succ, List.range_succ_eq_map]
      by_cases h : th ≤ cnt row
      · simp only [List.find?_cons, List.getD_cons_zero, decide_eq_true_eq]
        rw [if_pos h]
        simp [h]
      · rw [if_neg h]
        have hd : (decide (th ≤ cnt row)) = false := by simpa using h
        simp only [List.find?_cons, List.getD_cons_zero, hd]
        rw [List.find?_map, ih r' (i + 1)]
        have hpred : ((fun k => decide (th ≤ cnt ((row :: rest).getD k []))) ∘ Nat.succ) =
            (fun k => decide (th ≤ cnt (rest.getD k []))) := by
          funext k
          simp [Function.comp, List.getD_cons_succ]
        rw [hpred]
        cases (List.range (min r' rest.length)).find?
            (fun k => decide (th ≤ cnt (rest.getD k []))) with
        | none => rfl
        | some k =>
          show i + 1 + k = i + (k + 1)
          omega

/-- The marker list of the concrete C6 scenario (the markers the Excel
adapter uses for its main sheet). -/
def c6Markers : List Str :=
  [S ("ccf id"), S ("control id"), S ("control name"), S ("control domain"), S ("scf #")]

/-- The concrete C6 preview: row 0 is decorative, row 1 blank, row 2 the
header row containing four of the five marker phrases. -/
def c6Preview : List (List Val) :=
  [ [vStr (S ("Compliance Framework Export")), vNull, vNull, vNull],
    [vNull, vNull, vNull, vNull],
    [vStr (S ("CCF ID")), vStr (S ("Control Name")), vStr (S ("Control Domain")),
     vStr (S ("SCF #"))],
    [vStr (S ("AC-1")), vStr (S ("Limit access")), vStr (S ("Access Control")),
     vStr (S ("SCF-AC"))] ]

/-- C6: `detect_header_row` returns the index of the first scanned row
(among at most the first `maxRows`, default 15) whose marker-match count
reaches `max(2, markerCount - 2)`, and 0 when no scanned row qualifies —
it never fails.  On the concrete preview with 5 markers, of which row 2
matches 4 and rows 0 and 1 match fewer than 3, it returns 2. -/
theorem c6_detect_header_row (nfkc : Str → Str) (preview : List (List Val))
    (markers : List Str) (maxRows : Nat) :
    detectHeaderRow nfkc preview markers maxRows =
      ((List.range (min maxRows preview.length)).find?
        (fun i => decide (max 2 (markers.length - 2) ≤
          rowMatchCount nfkc markers (preview.getD i [])))).getD 0 ∧
    c6Markers.length = 5 ∧
    rowMatchCount asciiNFKC c6Markers (c6Preview.getD 0 []) < 3 ∧
    rowMatchCount asciiNFKC c6Markers (c6Preview.getD 1 []) < 3 ∧
    rowMatchCount asciiNFKC c6Markers (c6Preview.getD 2 []) = 4 ∧
    detectHeaderRow asciiNFKC c6Preview c6Markers 15 = 2 := by
  refine ⟨?_, by decide, by decide, by decide, by decide, by decide⟩
  unfold detectHeaderRow
  rw [dhrLoop_eq]
  have hmin : min (min maxRows preview.length) preview.length = min maxRows preview.length := by
    omega
  rw [hmin]
  cases (List.range (min maxRows preview.length)).find?
      (fun i => decide (max 2 (markers.length - 2) ≤
        rowMatchCount nfkc markers (preview.getD i []))) with
  | none => rfl
  | some k => simp

-- ---------------------------------------------------------------------
-- ZIP adapter (claim C2)
-- ---------------------------------------------------------------------

/-- Validation report shape shared by all adapters. -/
structure Report where
  valid : Bool
  errors : List Str
  warnings : List Str
  info : List Str
deriving DecidableEq, Repr

/-- Inner adapter chosen by the ZIP adapter. -/
inductive ZipKind where
| excel : ZipKind
| json : ZipKind
| csv : ZipKind
| xml : ZipKind
deriving DecidableEq, Repr

def natToStr (n : Nat) : Str := (Nat.repr n).data

/-- Python `'..' in member or member.startswith('/')`, the path check of
`ZIPAdapter.validate`. -/
def zipUnsafePath (m : Str) : Bool :=
  strContainsSub m (S ("..")) || (S ("/")).isPrefixOf m

def unsafePathMsg (m : Str) : Str :=
  S ("ZIP contains potentially unsafe path: ") ++ m

def lowerEndsWith (f : Str) (suf : Str) : Bool := suf.isSuffixOf (pyLowerStr f)

def startsWithMac (f : Str) : Bool := (S ("__MACOSX")).isPrefixOf f

/-- Result of `ZIPAdapter.validate`: the report plus the chosen inner
adapter and primary file recorded on `self`. -/
structure ZipValidation where
  report : Report
  adapterType : Option ZipKind
  primaryFile : Option Str
deriving DecidableEq, Repr

def countsLine (e j c x : Nat) : Str :=
  S ("Excel: ") ++ natToStr e ++ S (", JSON: ") ++ natToStr j ++
    S (", CSV: ") ++ natToStr c ++ S (", XML: ") ++ natToStr x

/-- Model of `ZIPAdapter.validate` given the archive's member list (the
file-missing and unparseable-archive branches concern the filesystem and
are outside the model: the archive is taken as opened, with `namelist()`
returning `members`).  The security loop runs before any categorization
or extraction and returns at the first offending member. -/
def zipValidate (members : List Str) : ZipValidation :=
  let info0 := [S ("ZIP contains ") ++ natToStr members.length ++ S (" files")]
  match members.find? zipUnsafePath with
  | some m =>
    ⟨⟨false, [unsafePathMsg m], [], info0⟩, none, none⟩
  | none =>
    let excel := members.filter
      (fun f => (lowerEndsWith f (S (".xls")) || lowerEndsWith f (S (".xlsx"))) && !startsWithMac f)
    let jsonF := members.filter (fun f => lowerEndsWith f (S (".json")) && !startsWithMac f)
    let csvF := members.filter (fun f => lowerEndsWith f (S (".csv")) && !startsWithMac f)
    let xmlF := members.filter (fun f => lowerEndsWith f (S (".xml")) && !startsWithMac f)
    let info1 := info0 ++ [countsLine excel.length jsonF.length csvF.length xmlF.length]
    match excel with
    | f :: _ =>
      ⟨⟨true, [], [], info1 ++ [S ("Will use Excel adapter for: ") ++ f]⟩,
        some ZipKind.excel, some f⟩
    | [] =>
      match jsonF with
      | f :: _ =>
        ⟨⟨true, [], [], info1 ++ [S ("Will use JSON adapter for: ") ++ f]⟩,
          some ZipKind.json, some f⟩
      | [] =>
        match csvF with
        | _ :: _ =>
          ⟨⟨true, [], [], info1 ++ [S ("Will use CSV folder adapter for extracted CSVs")]⟩,
            some ZipKind.csv, none⟩
        | [] =>
          match xmlF with
          | f :: _ =>
            ⟨⟨true, [], [], info1 ++ [S ("Will use XML adapter for: ") ++ f]⟩,
              some ZipKind.xml, some f⟩
          | [] =>
            ⟨⟨false, [S ("No supported data files found in ZIP")], [], info1⟩, none, none⟩

/-- Python `os.path.join(base, member)`. -/
def joinPath (base member : Str) : Str :=
  if (S ("/")).isPrefixOf member then member else base ++ (S ("/")) ++ member

def splitOnCharAux (d : Char) : Str → Str → List Str
| [], acc => [acc.reverse]
| c :: t, acc =>
  if c = d then acc.reverse :: splitOnCharAux d t []
  else splitOnCharAux d t (c :: acc)

def splitOnChar (d : Char) (s : Str) : List Str := splitOnCharAux d s []

/-- POSIX path normalization of an absolute path as performed by
`os.path.abspath`: empty and `.` segments are dropped, `..` pops the
previous segment (staying at the root when there is none). -/
def normSegs : List Str → List Str → List Str
| [], stack => stack.reverse
| seg :: rest, stack =>
  if seg = [] || seg = S (".") then normSegs rest stack
  else if seg = S ("..") then normSegs rest stack.tail
  else normSegs rest (seg :: stack)

def normAbsPath (p : Str) : Str :=
  let segs := normSegs (splitOnChar '/' p) []
  (S ("/")) ++ (S ("/")).intercalate segs

/-- Model of `ZIPAdapter._is_safe_path`: the resolved target must lie
within the resolved base. -/
def isSafePath (base member : Str) : Bool :=
  let absBase := normAbsPath base
  let absTarget := normAbsPath (joinPath base member)
  (absBase ++ (S ("/"))).isPrefixOf absTarget || absTarget == absBase

/-- The temporary extraction directory (`tempfile.mkdtemp`), modelled as
a fixed fresh absolute path. -/
def tmpDirPath : Str := S ("/tmp/grc_zip_extract")

/-- Trace of `ZIPAdapter._safe_extract`: the files written in order, and
the error raised at the first unsafe member path, if any (nothing after
the raise is written). -/
def safeExtractTrace (base : Str) : List Str → List Str × Option Str
| [] => ([], none)
| m :: rest =>
  if (S ("/")).isSuffixOf m then safeExtractTrace base rest
  else if !isSafePath base m then
    ([], some (S ("ZIP contains potentially malicious path: ") ++ m))
  else
    let r := safeExtractTrace base rest
    (joinPath base m :: r.1, r.2)

/-- Outcome of `ZIPAdapter.load`: an exception carrying the reported
errors, or delegation to the chosen inner adapter. -/
inductive LoadOutcome where
| raised : List Str → LoadOutcome
| delegated : Option ZipKind → Option Str → LoadOutcome
deriving DecidableEq, Repr

structure ZipLoadResult where
  written : List Str
  outcome : LoadOutcome
deriving DecidableEq, Repr

/-- Model of `ZIPAdapter.load` on a fresh adapter: `validate` runs first;
an invalid report raises before the temporary directory is even created,
so nothing is written; otherwise the archive is extracted through
`_safe_extract` and the inner adapter is invoked on the extracted
files. -/
def zipLoad (members : List Str) : ZipLoadResult :=
  let v := zipValidate members
  if v.report.valid then
    let r := safeExtractTrace tmpDirPath members
    match r.2 with
    | some msg => ⟨r.1, LoadOutcome.raised [msg]⟩
    | none => ⟨r.1, LoadOutcome.delegated v.adapterType v.primaryFile⟩
  else ⟨[], LoadOutcome.raised v.report.errors⟩

/-- C2: an archive with a member whose path contains `..` or starts with
`/` fails validation — the report is invalid and carries the distinct
error message naming the first such member — and `load` on such an
archive raises before any member is extracted: no file is written. -/
theorem c2_zip_traversal_rejected (members : List Str) (m0 : Str)
    (hmem : m0 ∈ members) (hbad : zipUnsafePath m0 = true) :
    (zipValidate members).report.valid = false ∧
    (∃ m ∈ members, zipUnsafePath m = true ∧
      unsafePathMsg m ∈ (zipValidate members).report.errors) ∧
    (zipLoad members).written = [] ∧
    (zipLoad members).outcome = LoadOutcome.raised (zipValidate members).report.errors := by
  have hfind : (members.find? zipUnsafePath).isSome = true := by
    rw [List.find?_isSome]
    exact ⟨m0, hmem, hbad⟩
  cases hf : members.find? zipUnsafePath with
  | none => rw [hf] at hfind; simp at hfind
  | some m =>
    have hm : m ∈ members := List.mem_of_find?_eq_some hf
    have hmp : zipUnsafePath m = true := List.find?_some hf
    have hval : zipValidate members =
        ⟨⟨false, [unsafePathMsg m], [],
          [S ("ZIP contains ") ++ natToStr members.length ++ S (" files")]⟩, none, none⟩ := by
      unfold zipValidate
      rw [hf]
    refine ⟨by rw [hval], ⟨m, hm, hmp, by rw [hval]; simp⟩, ?_, ?_⟩
    · unfold zipLoad
      rw [hval]
      rfl
    · unfold zipLoad
      rw [hval]
      rfl

/-- Witness for C2: the archive holding exactly the two member paths the
specification names, `../evil.txt` and `/etc/passswd`. -/
theorem c2_zip_traversal_rejected_witness :
    (zipValidate [S ("../evil.txt"), S ("/etc/passswd")]).report.valid = false ∧
    (∃ m ∈ [S ("../evil.txt"), S ("/etc/passswd")], zipUnsafePath m = true ∧
      unsafePathMsg m ∈ (zipValidate [S ("../evil.txt"), S ("/etc/passswd")]).report.errors) ∧
    (zipLoad [S ("../evil.txt"), S ("/etc/passswd")]).written = [] ∧
    (zipLoad [S ("../evil.txt"), S ("/etc/passswd")]).outcome =
      LoadOutcome.raised (zipValidate [S ("../evil.txt"), S ("/etc/passswd")]).report.errors :=
  c2_zip_traversal_rejected [S ("../evil.txt"), S ("/etc/passswd")] (S ("../evil.txt"))
    (by decide) (by decide)

-- ---------------------------------------------------------------------
-- JSON serialization and parsing (mappings normalization)
-- ---------------------------------------------------------------------

def lbrace : Char := Char.ofNat 123

def rbrace : Char := Char.ofNat 125

def hexDigit (n : Nat) : Char :=
  if n < 10 then Char.ofNat (48 + n) else Char.ofNat (87 + n)

def escU (n : Nat) : Str :=
  '\\' :: 'u' :: [hexDigit (n / 4096 % 16), hexDigit (n / 256 % 16),
    hexDigit (n / 16 % 16), hexDigit (n % 16)]

/-- Escaping of one character by `json.dumps` with the default
`ensure_ascii=True`. -/
def escChar (c : Char) : Str :=
  if c = '"' then ['\\', '"']
  else if c = '\\' then ['\\', '\\']
  else if c = '\n' then ['\\', 'n']
  else if c = '\r' then ['\\', 'r']
  else if c = '\t' then ['\\', 't']
  else if c = Char.ofNat 8 then ['\\', 'b']
  else if c = Char.ofNat 12 then ['\\', 'f']
  else if c.toNat < 0x20 then escU c.toNat
  else if c.toNat < 0x7F then [c]
  else if c.toNat ≤ 0xFFFF then escU c.toNat
  else
    let v := c.toNat - 0x10000
    escU (0xD800 + v / 1024) ++ escU (0xDC00 + v % 1024)

def jsonQuote (s : Str) : Str := '"' :: (s.map escChar).flatten ++ ['"']

/-- Python `json.dumps` of a list of strings (default separators). -/
def dumpsList (l : List Str) : Str :=
  '[' :: (S (", ")).intercalate (l.map jsonQuote) ++ [']']

/-- Python `json.dumps` of the canonical mappings dict, a mapping from
framework name to list of reference strings, in insertion order. -/
def dumpsDict (d : List (Str × List Str)) : Str :=
  lbrace :: ((S (", ")).intercalate
    (d.map (fun p => jsonQuote p.1 ++ (S (": ")) ++ dumpsList p.2))) ++ [rbrace]

def jsonWS (c : Char) : Bool := c = ' ' || c = '\t' || c = '\n' || c = '\r'

def skipWS (s : Str) : Str := s.dropWhile jsonWS

def isDigit (c : Char) : Bool := '0' ≤ c && c ≤ '9'

def isHexDigitB (c : Char) : Bool :=
  isDigit c || ('a' ≤ c && c ≤ 'f') || ('A' ≤ c && c ≤ 'F')

/-- JSON string body parser (after the opening quote): strict mode, so
unescaped control characters are rejected; the short escapes and
`\uXXXX` are accepted. -/
def pjStr : Str → Option Str
| [] => none
| '"' :: t => some t
| '\\' :: e :: t =>
  if e = '"' || e = '\\' || e = '/' || e = 'b' || e = 'f' || e = 'n' || e = 'r' || e = 't' then
    pjStr t
  else if e = 'u' then
    match t with
    | h1 :: h2 :: h3 :: h4 :: t2 =>
      if isHexDigitB h1 && isHexDigitB h2 && isHexDigitB h3 && isHexDigitB h4 then pjStr t2
      else none
    | _ => none
  else none
| c :: t => if c.toNat < 0x20 then none else pjStr t

def pjLit (lit : Str) (s : Str) : Option Str :=
  if lit.isPrefixOf s then some (s.drop lit.length) else none

/-- Integer part of the JSON number grammar: `0` or `[1-9][0-9]*`. -/
def pjIntPart : Str → Option Str
| '0' :: t => some t
| c :: t => if '1' ≤ c && c ≤ '9' then some (t.dropWhile isDigit) else none
| [] => none

/-- Optional fraction part `.[0-9]+`: consumed only when fully present
(matching the regex's greedy optional group). -/
def pjFrac (s : Str) : Str :=
  match s with
  | '.' :: c :: t => if isDigit c then t.dropWhile isDigit else s
  | _ => s

/-- Optional exponent part `[eE][+-]?[0-9]+`. -/
def pjExp (s : Str) : Str :=
  match s with
  | e :: rest =>
    if e = 'e' || e = 'E' then
      let rest2 := match rest with
        | sg :: r2 => if sg = '+' || sg = '-' then r2 else rest
        | [] => rest
      match rest2 with
      | c :: t => if isDigit c then t.dropWhile isDigit else s
      | [] => s
    else s
  | [] => s

def pjNumber (s : Str) : Option Str :=
  let body := match s with
    | '-' :: t => pjIntPart t
    | t => pjIntPart t
  match body with
  | some r => some (pjExp (pjFrac r))
  | none => none

mutual

/-- JSON value parser modelling acceptance by `json.loads` (with its
default extensions `NaN`, `Infinity` and `-Infinity`); returns the
remaining input on success.  Fuel decreases at every call and at least
one character is consumed between recursive calls, so the fuel used by
`jsonParses` always suffices. -/
def pjVal : Nat → Str → Option Str
| 0, _ => none
| _ + 1, [] => none
| fuel + 1, c :: t =>
  if c = '"' then pjStr t
  else if c = '[' then pjArr fuel (skipWS t)
  else if c = lbrace then pjObj fuel (skipWS t)
  else if c = 't' then pjLit (S ("rue")) t
  else if c = 'f' then pjLit (S ("alse")) t
  else if c = 'n' then pjLit (S ("ull")) t
  else if c = 'N' then pjLit (S ("aN")) t
  else if c = 'I' then pjLit (S ("nfinity")) t
  else if c = '-' && (S ("Infinity")).isPrefixOf t then some (t.drop 8)
  else pjNumber (c :: t)

/-- Array parser, positioned after `[` (whitespace skipped). -/
def pjArr : Nat → Str → Option Str
| 0, _ => none
| _ + 1, ']' :: t => some t
| fuel + 1, s =>
  match pjVal fuel s with
  | some r => pjArrRest fuel (skipWS r)
  | none => none

/-- Array continuation: `,` then a value, or `]`. -/
def pjArrRest : Nat → Str → Option Str
| 0, _ => none
| _ + 1, ']' :: t => some t
| fuel + 1, ',' :: t =>
  match pjVal fuel (skipWS t) with
  | some r => pjArrRest fuel (skipWS r)
  | none => none
| _ + 1, _ => none

/-- Object parser, positioned after the opening brace (whitespace
skipped). -/
def pjObj : Nat → Str → Option Str
| 0, _ => none
| fuel + 1, c :: t =>
  if c = rbrace then some t
  else if c = '"' then
    match pjStr t with
    | some r => pjPair fuel (skipWS r)
    | none => none
  else none
| _ + 1, [] => none

/-- After an object key: `:`, a value, then `,` and the next pair or the
closing brace. -/
def pjPair : Nat → Str → Option Str
| 0, _ => none
| fuel + 1, ':' :: t =>
  match pjVal fuel (skipWS t) with
  | some r => pjObjRest fuel (skipWS r)
  | none => none
| _ + 1, _ => none

def pjObjRest : Nat → Str → Option Str
| 0, _ => none
| fuel + 1, c :: t =>
  if c = rbrace then some t
  else if c = ',' then
    match skipWS t with
    | '"' :: t2 =>
      match pjStr t2 with
      | some r => pjPair fuel (skipWS r)
      | none => none
    | _ => none
  else none
| _ + 1, [] => none

end

/-- Acceptance by `json.loads`: leading whitespace, one value, trailing
whitespace, end of input. -/
def jsonParses (s : Str) : Bool :=
  match pjVal (s.length + 1) (skipWS s) with
  | some rest => (skipWS rest).isEmpty
  | none => false

-- ---------------------------------------------------------------------
-- Relational store model
-- ---------------------------------------------------------------------

/-- A `compliance_sources` row (timestamps are not modelled). -/
structure SourceRow where
  id : Nat
  name : Str
  shortName : Option Str
  description : Option Str
  version : Option Str
  sourceFile : Option Str
  controlCount : Nat
  evidenceCount : Nat
  isActive : Bool
  color : Str
deriving DecidableEq, Repr

structure DomainRow where
  id : Nat
  sourceId : Nat
  name : Str
deriving DecidableEq, Repr

structure EvidenceRow where
  id : Nat
  sourceId : Nat
  refId : Str
  title : Option Str
  domain : Option Str
deriving DecidableEq, Repr

structure ControlRow where
  id : Nat
  sourceId : Nat
  ccfId : Str
  domainId : Option Nat
  title : Option Str
  description : Option Str
  ctype : Option Str
  theme : Option Str
  guidance : Option Str
  testing : Option Str
  mappings : Str
deriving DecidableEq, Repr

structure CERow where
  controlId : Nat
  evidenceId : Nat
deriving DecidableEq, Repr

structure HistRow where
  id : Nat
  sourceId : Nat
  sourceFile : Str
  sourceType : Str
  controlsImported : Nat
  evidenceImported : Nat
  domainsCreated : Nat
  notes : Str
deriving DecidableEq, Repr

/-- The relational store: tables are lists of rows in insertion order.
Row identifiers (`uuid4` strings for domains, evidence, controls and
history; `AUTOINCREMENT` for sources) are modelled uniformly as natural
numbers drawn from the fresh counter `nextId` — the model of uuid4's
collision freedom. -/
structure DB where
  sources : List SourceRow
  domains : List DomainRow
  evidence : List EvidenceRow
  controls : List ControlRow
  controlEvidence : List CERow
  importHistory : List HistRow
  nextId : Nat
deriving DecidableEq, Repr

def emptyDB : DB := ⟨[], [], [], [], [], [], 0⟩

def findSourceByName (db : DB) (name : Str) : Option SourceRow :=
  db.sources.find? (fun s => s.name == name)

def domKey (sid : Nat) (d : Str) (r : DomainRow) : Bool :=
  r.sourceId == sid && r.name == d

def evKey (sid : Nat) (ref : Str) (e : EvidenceRow) : Bool :=
  e.sourceId == sid && e.refId == ref

def ctrlKey (sid : Nat) (ccf : Str) (c : ControlRow) : Bool :=
  c.sourceId == sid && c.ccfId == ccf

def findDomain (db : DB) (sid : Nat) (d : Str) : Option DomainRow :=
  db.domains.find? (domKey sid d)

def findEvidence (db : DB) (sid : Nat) (r : Str) : Option EvidenceRow :=
  db.evidence.find? (evKey sid r)

def findControl (db : DB) (sid : Nat) (ccf : Str) : Option ControlRow :=
  db.controls.find? (ctrlKey sid ccf)

/-- The `SOURCE_COLORS` palette of `seed.py`. -/
def sourceColors : List Str :=
  [S ("#667eea"), S ("#f093fb"), S ("#4facfe"), S ("#43e97b"), S ("#fa709a"),
   S ("#a8edea"), S ("#fed6e3"), S ("#d299c2"), S ("#fef9d7"), S ("#d4fc79")]

/-- Model of `get_or_create_compliance_source`: an existing row with the
given name is returned untouched; otherwise a new row is inserted, with
the round-robin palette color when none is supplied and the truncated
name as default short name.  (Python truthiness: `None` and the empty
string both count as absent.) -/
def getOrCreateComplianceSource (db : DB) (name : Str)
    (shortName description version sourceFile color : Option Str) : Nat × DB :=
  match findSourceByName db name with
  | some row => (row.id, db)
  | none =>
    let needColor := match color with
      | none => true
      | some c => c.isEmpty
    let colorV := if needColor then
        sourceColors.getD (db.sources.length % sourceColors.length) (S ("#667eea"))
      else color.getD []
    let shortV := match shortName with
      | some s => if s.isEmpty then name.take 15 else s
      | none => name.take 15
    let sid := db.nextId
    (sid,
     {db with
       sources := db.sources ++
         [⟨sid, name, some shortV, description, version, sourceFile, 0, 0, true, colorV⟩],
       nextId := db.nextId + 1})

/-- Model of `update_compliance_source_counts` in `seed.py`: the counts
are recomputed from the actual rows. -/
def updateSourceCounts (db : DB) (sid : Nat) : DB :=
  let cc := (db.controls.filter (fun c => c.sourceId == sid)).length
  let ec := (db.evidence.filter (fun e => e.sourceId == sid)).length
  let upd := fun (s : SourceRow) =>
    if s.id = sid then {s with controlCount := cc, evidenceCount := ec} else s
  {db with sources := db.sources.map upd}

-- ---------------------------------------------------------------------
-- Seeder: evidence pass
-- ---------------------------------------------------------------------

/-- One row of the canonical evidence frame. -/
structure EvInput where
  refId : Val
  title : Val
  domain : Val
deriving DecidableEq, Repr

/-- Evidence upsert of `seed_from_dataframes`: rows whose `ref_id` cleans
to null are skipped; an existing `(source_id, ref_id)` row has its title
and domain rewritten in place; otherwise a new row is inserted with a
fresh identifier.  The second component counts processed rows
(`evidence_imported`). -/
def evStep (nfkc : Str → Str) (sid : Nat) (acc : DB × Nat) (row : EvInput) : DB × Nat :=
  let db := acc.1
  match cleanTextWith nfkc row.refId with
  | none => acc
  | some r =>
    match findEvidence db sid r with
    | some e =>
      let upd := fun (x : EvidenceRow) =>
        if x.id = e.id then
          {x with title := cleanTextWith nfkc row.title, domain := cleanTextWith nfkc row.domain}
        else x
      ({db with evidence := db.evidence.map upd}, acc.2 + 1)
    | none =>
      ({db with
          evidence := db.evidence ++
            [⟨db.nextId, sid, r, cleanTextWith nfkc row.title, cleanTextWith nfkc row.domain⟩],
          nextId := db.nextId + 1}, acc.2 + 1)

def evPass (nfkc : Str → Str) (sid : Nat) (acc : DB × Nat) (rows : List EvInput) : DB × Nat :=
  rows.foldl (evStep nfkc sid) acc

/-- The `evidence_lookup` dict built after the evidence pass:
`ref_id -> row id` for this source (a dict comprehension keeps the last
binding, modelled by searching the reversed list). -/
def evidenceLookup (db : DB) (sid : Nat) : List (Str × Nat) :=
  (db.evidence.filter (fun e => e.sourceId == sid)).map (fun e => (e.refId, e.id))

def lookupEvidence (l : List (Str × Nat)) (r : Str) : Option Nat :=
  (l.reverse.find? (fun p => p.1 == r)).map (fun p => p.2)

-- ---------------------------------------------------------------------
-- Seeder: controls pass
-- ---------------------------------------------------------------------

/-- Dynamic value of the `mappings` field as the seeder receives it:
`None`, a NaN float, another float, a dict (framework name to reference
list), a string, or anything else. -/
inductive MVal where
| mNull : MVal
| mNaN : MVal
| mFloat : MVal
| mDict : List (Str × List Str) → MVal
| mStr : Str → MVal
| mOther : MVal
deriving DecidableEq, Repr

/-- Model of the mappings normalization in `seed_from_dataframes`:
`None`/NaN give `'{}'`, a dict is serialized with `json.dumps`, a string
is kept when `json.loads` accepts it and replaced by `'{}'` otherwise,
and every other value gives `'{}'`. -/
def normalizeMappings (m : MVal) : Str :=
  match m with
  | MVal.mNull => S ("\x7b\x7d")
  | MVal.mNaN => S ("\x7b\x7d")
  | MVal.mDict d => dumpsDict d
  | MVal.mStr s => if jsonParses s then s else S ("\x7b\x7d")
  | MVal.mFloat => S ("\x7b\x7d")
  | MVal.mOther => S ("\x7b\x7d")

/-- One row of the canonical controls frame. -/
structure CtrlInput where
  ccfId : Val
  domain : Val
  title : Val
  description : Val
  ctype : Val
  theme : Val
  guidance : Val
  testing : Val
  mappings : MVal
  artifacts : Val
deriving DecidableEq, Repr

/-- Import statistics returned by `seed_from_dataframes`. -/
structure SeedStats where
  controlsImported : Nat
  evidenceImported : Nat
  domainsCreated : Nat
  evidenceLinks : Nat
  sourceId : Option Nat
deriving DecidableEq, Repr

/-- State threaded through the controls pass: the store, the per-run
domain cache, and the statistics.  The Python cache key is the string
`f"{source_id}:{domain_name}"`; the source id is fixed within a run, so
the cache is keyed by domain name alone. -/
structure SeedState where
  db : DB
  cache : List (Str × Nat)
  stats : SeedStats
deriving DecidableEq, Repr

def cacheLookup (cache : List (Str × Nat)) (k : Str) : Option Nat :=
  (cache.find? (fun p => p.1 == k)).map (fun p => p.2)

/-- Domain resolution of the controls pass: cache, then table lookup,
then lazy insertion with a fresh identifier. -/
def resolveDomain (sid : Nat) (st : SeedState) (dname : Option Str) :
    Option Nat × SeedState :=
  match dname with
  | none => (none, st)
  | some d =>
    match cacheLookup st.cache d with
    | some did => (some did, st)
    | none =>
      match findDomain st.db sid d with
      | some row => (some row.id, {st with cache := st.cache ++ [(d, row.id)]})
      | none =>
        let did := st.db.nextId
        let db' := {st.db with
          domains := st.db.domains ++ [⟨did, sid, d⟩],
          nextId := st.db.nextId + 1}
        let st' := {st with
          db := db',
          cache := st.cache ++ [(d, did)],
          stats := {st.stats with domainsCreated := st.stats.domainsCreated + 1}}
        (some did, st')

/-- Scalar fields written by the control upsert for a given input row
(together with the resolved domain and normalized mappings). -/
def ctrlFields (nfkc : Str → Str) (row : CtrlInput) (domId : Option Nat) (mj : Str)
    (c : ControlRow) : ControlRow :=
  {c with
    domainId := domId,
    title := cleanTextWith nfkc row.title,
    description := cleanTextWith nfkc row.description,
    ctype := cleanTextWith nfkc row.ctype,
    theme := cleanTextWith nfkc row.theme,
    guidance := cleanTextWith nfkc row.guidance,
    testing := cleanTextWith nfkc row.testing,
    mappings := mj}

/-- The control upsert: an existing `(source_id, ccf_id)` row first has
all its junction rows deleted and its scalar fields rewritten (keeping
its identifier); a new row is inserted with a fresh identifier. -/
def upsertControl (nfkc : Str → Str) (sid : Nat) (db : DB) (ccf : Str)
    (domId : Option Nat) (row : CtrlInput) (mj : Str) : Nat × DB :=
  match findControl db sid ccf with
  | some old =>
    let db1 := {db with controlEvidence :=
      db.controlEvidence.filter (fun j => !(j.controlId == old.id))}
    let upd := fun (c : ControlRow) =>
      if c.id = old.id then ctrlFields nfkc row domId mj c else c
    (old.id, {db1 with controls := db1.controls.map upd})
  | none =>
    let cid := db.nextId
    let base : ControlRow := ⟨cid, sid, ccf, none, none, none, none, none, none, none, []⟩
    let db' := {db with
      controls := db.controls ++ [ctrlFields nfkc row domId mj base],
      nextId := db.nextId + 1}
    (cid, db')

def isDelim (c : Char) : Bool :=
  c = '\n' || c = '\r' || c = ',' || c = ';' || c = '|'

def splitOnPredAux (p : Char → Bool) : Str → Str → List Str
| [], acc => [acc.reverse]
| c :: t, acc =>
  if p c then acc.reverse :: splitOnPredAux p t []
  else splitOnPredAux p t (c :: acc)

def splitOnPred (p : Char → Bool) (s : Str) : List Str := splitOnPredAux p s []

/-- Model of `split_list_string`: clean, split on the delimiter set
`\n \r , ; |`, strip each piece, drop empties (splitting per delimiter
character instead of per delimiter run yields the same result after the
empty pieces are dropped). -/
def splitListString (nfkc : Str → Str) (s : Str) : List Str :=
  if s.isEmpty || (pyStrip s).isEmpty then []
  else
    match cleanTextWith nfkc (vStr s) with
    | none => []
    | some c => ((splitOnPred isDelim c).map pyStrip).filter (fun x => !x.isEmpty)

/-- The references derived from a row's `artifacts` value: falsy values
(null, the empty string) and NaN contribute nothing, a non-empty string
is split. -/
def artifactRefs (nfkc : Str → Str) : Val → List Str
| vNull => []
| vNaN => []
| vStr s => if s.isEmpty then [] else splitListString nfkc s

/-- `INSERT OR IGNORE` into the junction table. -/
def insertCE (db : DB) (cid eid : Nat) : DB :=
  if db.controlEvidence.any (fun j => j.controlId == cid && j.evidenceId == eid) then db
  else {db with controlEvidence := db.controlEvidence ++ [⟨cid, eid⟩]}

/-- Junction insertion for the references of one control row; the second
component counts the `evidence_links` statistic (incremented for every
resolvable reference, duplicates included). -/
def linkEvidence (lookup : List (Str × Nat)) (cid : Nat) : DB → List Str → DB × Nat
| db, [] => (db, 0)
| db, ref :: rest =>
  match lookupEvidence lookup ref with
  | some eid =>
    let r := linkEvidence lookup cid (insertCE db cid eid) rest
    (r.1, r.2 + 1)
  | none => linkEvidence lookup cid db rest

/-- One iteration of the controls loop of `seed_from_dataframes`. -/
def ctrlStep (nfkc : Str → Str) (sid : Nat) (lookup : List (Str × Nat))
    (st : SeedState) (row : CtrlInput) : SeedState :=
  match cleanTextWith nfkc row.ccfId with
  | none => st
  | some ccf =>
    let dres := resolveDomain sid st (cleanTextWith nfkc row.domain)
    let st1 := dres.2
    let mj := normalizeMappings row.mappings
    let ures := upsertControl nfkc sid st1.db ccf dres.1 row mj
    let lres := linkEvidence lookup ures.1 ures.2 (artifactRefs nfkc row.artifacts)
    let stats' := {st1.stats with
      controlsImported := st1.stats.controlsImported + 1,
      evidenceLinks := st1.stats.evidenceLinks + lres.2}
    {st1 with
      db := lres.1,
      stats := stats'}

def ctrlPass (nfkc : Str → Str) (sid : Nat) (lookup : List (Str × Nat))
    (st : SeedState) (rows : List CtrlInput) : SeedState :=
  rows.foldl (ctrlStep nfkc sid lookup) st

def notesStr (n : Nat) : Str := S ("Evidence links created: ") ++ natToStr n

/-- Model of `seed_from_dataframes` given the resolved source name: the
compliance source is resolved or created, the evidence pass runs (and
the lookup is built) only for a non-empty evidence frame, an empty
controls frame returns early (before counts and history), and otherwise
the controls pass runs, the denormalized counts are recomputed, and one
import-history row is appended. -/
def seedFromDataFrames (nfkc : Str → Str) (db : DB)
    (controls : List CtrlInput) (evidence : List EvInput) (sourceName : Str)
    (shortName description version sourceFile : Option Str) : DB × SeedStats :=
  let gres := getOrCreateComplianceSource db sourceName shortName description version
    sourceFile none
  let sid := gres.1
  let db1 := gres.2
  let eres := if evidence.isEmpty then (db1, 0) else evPass nfkc sid (db1, 0) evidence
  let db2 := eres.1
  let evCount := eres.2
  let lookup := if evidence.isEmpty then [] else evidenceLookup db2 sid
  if controls.isEmpty then
    (db2, ⟨0, evCount, 0, 0, some sid⟩)
  else
    let st := ctrlPass nfkc sid lookup ⟨db2, [], ⟨0, evCount, 0, 0, some sid⟩⟩ controls
    let db3 := updateSourceCounts st.db sid
    let hist : HistRow := ⟨db3.nextId, sid, sourceFile.getD (S ("unknown")), S ("seed"),
      st.stats.controlsImported, st.stats.evidenceImported, st.stats.domainsCreated,
      notesStr st.stats.evidenceLinks⟩
    let db4 := {db3 with
      importHistory := db3.importHistory ++ [hist],
      nextId := db3.nextId + 1}
    (db4, st.stats)

/-- Model of `delete_compliance_source` from `utils/db.py`, run with
`PRAGMA foreign_keys = ON` (db.py:39) against the schema of `seed.py`:
the explicit statements delete the junction rows of the source's
controls, then the source's controls, evidence, domains and import
history, then the source row itself.  Deleting the source's evidence
additionally fires the `ON DELETE CASCADE` of
`control_evidence.evidence_id` (seed.py:156), so a junction row is also
removed when its evidence belongs to the source, whatever its control.
(The cascade of `control_evidence.control_id` removes only rows the
explicit first delete already removed.) -/
def deleteComplianceSource (db : DB) (sid : Nat) : DB :=
  let ownedControl := fun (cid : Nat) =>
    db.controls.any (fun c => c.id == cid && c.sourceId == sid)
  let ownedEvidence := fun (eid : Nat) =>
    db.evidence.any (fun e => e.id == eid && e.sourceId == sid)
  { sources := db.sources.filter (fun s => !(s.id == sid)),
    domains := db.domains.filter (fun d => !(d.sourceId == sid)),
    evidence := db.evidence.filter (fun e => !(e.sourceId == sid)),
    controls := db.controls.filter (fun c => !(c.sourceId == sid)),
    controlEvidence := db.controlEvidence.filter
      (fun j => !ownedControl j.controlId && !ownedEvidence j.evidenceId),
    importHistory := db.importHistory.filter (fun h => !(h.sourceId == sid)),
    nextId := db.nextId }

-- ---------------------------------------------------------------------
-- Claim C10: source metadata frozen at creation
-- ---------------------------------------------------------------------

/-- C10: when a compliance source with the given name already exists,
`get_or_create_compliance_source` returns its id and leaves the store —
in particular the row's short name, description, version, source file
and color — completely unchanged, whatever values the caller passes. -/
theorem c10_source_metadata_frozen (db : DB) (name : Str) (row : SourceRow)
    (shortName description version sourceFile color : Option Str)
    (h : findSourceByName db name = some row) :
    getOrCreateComplianceSource db name shortName description version sourceFile color =
      (row.id, db) := by
  unfold getOrCreateComplianceSource
  rw [h]

/-- Witness for C10: re-resolving an existing source under different
metadata returns the stored id and leaves the store unchanged. -/
theorem c10_source_metadata_frozen_witness :
    getOrCreateComplianceSource
      {emptyDB with
        sources := [⟨7, S ("SCF 2024"), some (S ("SCF")), none, some (S ("v1")), none, 3, 2,
          true, S ("#667eea")⟩],
        nextId := 8}
      (S ("SCF 2024")) (some (S ("OTHER"))) (some (S ("new desc"))) (some (S ("v2")))
      (some (S ("other.xlsx"))) (some (S ("#000000"))) =
      (7, {emptyDB with
        sources := [⟨7, S ("SCF 2024"), some (S ("SCF")), none, some (S ("v1")), none, 3, 2,
          true, S ("#667eea")⟩],
        nextId := 8}) :=
  c10_source_metadata_frozen
    {emptyDB with
      sources := [⟨7, S ("SCF 2024"), some (S ("SCF")), none, some (S ("v1")), none, 3, 2,
        true, S ("#667eea")⟩],
      nextId := 8}
    (S ("SCF 2024"))
    ⟨7, S ("SCF 2024"), some (S ("SCF")), none, some (S ("v1")), none, 3, 2, true, S ("#667eea")⟩
    (some (S ("OTHER"))) (some (S ("new desc"))) (some (S ("v2")))
    (some (S ("other.xlsx"))) (some (S ("#000000"))) (by decide)

-- ---------------------------------------------------------------------
-- Claim C8: source-deletion isolation
-- ---------------------------------------------------------------------

/-- C8 counterexample: on a store holding a control of source 1, an
evidence row of source 2 and a junction row linking the two, deleting
source 2 removes the junction row through the evidence-side cascade even
though its control belongs to another source — refuting the claim that a
junction row is removed only when its control belongs to the deleted
source and that every row of another source is untouched. -/
theorem c8_source_deletion_counterexample :
    (⟨1, 2⟩ : CERow) ∈ ({emptyDB with
      evidence := [⟨2, 2, S ("E-1"), none, none⟩],
      controls := [⟨1, 1, S ("AC-1"), none, none, none, none, none, none, none, []⟩],
      controlEvidence := [⟨1, 2⟩],
      nextId := 3} : DB).controlEvidence ∧
    (¬∃ c ∈ ({emptyDB with
      evidence := [⟨2, 2, S ("E-1"), none, none⟩],
      controls := [⟨1, 1, S ("AC-1"), none, none, none, none, none, none, none, []⟩],
      controlEvidence := [⟨1, 2⟩],
      nextId := 3} : DB).controls, c.id = 1 ∧ c.sourceId = 2) ∧
    (deleteComplianceSource ({emptyDB with
      evidence := [⟨2, 2, S ("E-1"), none, none⟩],
      controls := [⟨1, 1, S ("AC-1"), none, none, none, none, none, none, none, []⟩],
      controlEvidence := [⟨1, 2⟩],
      nextId := 3} : DB) 2).controlEvidence = [] := by
  refine ⟨by decide, by decide, by decide⟩

/-- C8 amended: `delete_compliance_source` removes exactly the rows the
statements and the evidence-side cascade reach: a row survives in
`controls`, `evidence`, `domains`, `import_history` and
`compliance_sources` precisely when it does not carry the deleted id,
and a junction row survives precisely when its control does not belong
to the deleted source and its evidence does not belong to the deleted
source either; every other row is untouched. -/
theorem c8_source_deletion_amended (db : DB) (sid : Nat) :
    (∀ c : ControlRow, c ∈ (deleteComplianceSource db sid).controls ↔
      (c ∈ db.controls ∧ c.sourceId ≠ sid)) ∧
    (∀ e : EvidenceRow, e ∈ (deleteComplianceSource db sid).evidence ↔
      (e ∈ db.evidence ∧ e.sourceId ≠ sid)) ∧
    (∀ d : DomainRow, d ∈ (deleteComplianceSource db sid).domains ↔
      (d ∈ db.domains ∧ d.sourceId ≠ sid)) ∧
    (∀ h : HistRow, h ∈ (deleteComplianceSource db sid).importHistory ↔
      (h ∈ db.importHistory ∧ h.sourceId ≠ sid)) ∧
    (∀ s : SourceRow, s ∈ (deleteComplianceSource db sid).sources ↔
      (s ∈ db.sources ∧ s.id ≠ sid)) ∧
    (∀ j : CERow, j ∈ (deleteComplianceSource db sid).controlEvidence ↔
      (j ∈ db.controlEvidence ∧
        ¬(∃ c ∈ db.controls, c.id = j.controlId ∧ c.sourceId = sid) ∧
        ¬(∃ e ∈ db.evidence, e.id = j.evidenceId ∧ e.sourceId = sid))) := by
  refine ⟨?_, ?_, ?_, ?_, ?_, ?_⟩
  · intro c
    simp [deleteComplianceSource, List.mem_filter]
  · intro e
    simp [deleteComplianceSource, List.mem_filter]
  · intro d
    simp [deleteComplianceSource, List.mem_filter]
  · intro h
    simp [deleteComplianceSource, List.mem_filter]
  · intro s
    simp [deleteComplianceSource, List.mem_filter]
  · intro j
    simp only [deleteComplianceSource, List.mem_filter, Bool.and_eq_true,
      Bool.not_eq_true']
    constructor
    · rintro ⟨hj, hoc, hoe⟩
      refine ⟨hj, ?_, ?_⟩
      · rintro ⟨c, hc, hcid, hcsid⟩
        have : db.controls.any (fun c => c.id == j.controlId && c.sourceId == sid) =
            true := by
          rw [List.any_eq_true]
          exact ⟨c, hc, by simp [hcid, hcsid]⟩
        rw [this] at hoc
        simp at hoc
      · rintro ⟨e, he, heid, hesid⟩
        have : db.evidence.any (fun e => e.id == j.evidenceId && e.sourceId == sid) =
            true := by
          rw [List.any_eq_true]
          exact ⟨e, he, by simp [heid, hesid]⟩
        rw [this] at hoe
        simp at hoe
    · rintro ⟨hj, hoc, hoe⟩
      refine ⟨hj, ?_, ?_⟩
      · rw [Bool.eq_false_iff]
        intro hany
        rw [List.any_eq_true] at hany
        rcases hany with ⟨c, hc, hcp⟩
        simp only [Bool.and_eq_true, beq_iff_eq] at hcp
        exact hoc ⟨c, hc, hcp.1, hcp.2⟩
      · rw [Bool.eq_false_iff]
        intro hany
        rw [List.any_eq_true] at hany
        rcases hany with ⟨e, he, hep⟩
        simp only [Bool.and_eq_true, beq_iff_eq] at hep
        exact hoe ⟨e, he, hep.1, hep.2⟩

-- ---------------------------------------------------------------------
-- Frame and upsert lemmas shared by the controls-pass claims
-- ---------------------------------------------------------------------

theorem ctrlFields_sourceId (nfkc : Str → Str) (row : CtrlInput) (domId : Option Nat)
    (mj : Str) (c : ControlRow) : (ctrlFields nfkc row domId mj c).sourceId = c.sourceId := rfl

theorem ctrlFields_ccfId (nfkc : Str → Str) (row : CtrlInput) (domId : Option Nat)
    (mj : Str) (c : ControlRow) : (ctrlFields nfkc row domId mj c).ccfId = c.ccfId := rfl

theorem ctrlFields_id (nfkc : Str → Str) (row : CtrlInput) (domId : Option Nat)
    (mj : Str) (c : ControlRow) : (ctrlFields nfkc row domId mj c).id = c.id := rfl

theorem ctrlKey_ctrlFields (nfkc : Str → Str) (row : CtrlInput) (domId : Option Nat)
    (mj : Str) (sid : Nat) (ccf : Str) (c : ControlRow) :
    ctrlKey sid ccf (ctrlFields nfkc row domId mj c) = ctrlKey sid ccf c := rfl

theorem resolveDomain_db_controls (sid : Nat) (st : SeedState) (dn : Option Str) :
    (resolveDomain sid st dn).2.db.controls = st.db.controls ∧
    (resolveDomain sid st dn).2.db.controlEvidence = st.db.controlEvidence ∧
    (resolveDomain sid st dn).2.db.evidence = st.db.evidence ∧
    (resolveDomain sid st dn).2.db.sources = st.db.sources ∧
    (resolveDomain sid st dn).2.db.importHistory = st.db.importHistory := by
  cases dn with
  | none => exact ⟨rfl, rfl, rfl, rfl, rfl⟩
  | some d =>
    cases hcl : cacheLookup st.cache d with
    | some did => simp [resolveDomain, hcl]
    | none =>
      cases hfd : findDomain st.db sid d with
      | some r => simp [resolveDomain, hcl, hfd]
      | none => simp [resolveDomain, hcl, hfd]

theorem insertCE_frame (db : DB) (cid eid : Nat) :
    (insertCE db cid eid).controls = db.controls ∧
    (insertCE db cid eid).evidence = db.evidence ∧
    (insertCE db cid eid).domains = db.domains ∧
    (insertCE db cid eid).sources = db.sources ∧
    (insertCE db cid eid).importHistory = db.importHistory ∧
    (insertCE db cid eid).nextId = db.nextId := by
  unfold insertCE
  split <;> exact ⟨rfl, rfl, rfl, rfl, rfl, rfl⟩


theorem linkEvidence_frame (lookup : List (Str × Nat)) (cid : Nat) :
    ∀ (refs : List Str) (db : DB),
    (linkEvidence lookup cid db refs).1.controls = db.controls ∧
    (linkEvidence lookup cid db refs).1.evidence = db.evidence ∧
    (linkEvidence lookup cid db refs).1.domains = db.domains ∧
    (linkEvidence lookup cid db refs).1.sources = db.sources ∧
    (linkEvidence lookup cid db refs).1.importHistory = db.importHistory ∧
    (linkEvidence lookup cid db refs).1.nextId = db.nextId := by
  intro refs
  induction refs with
  | nil => intro db; exact ⟨rfl, rfl, rfl, rfl, rfl, rfl⟩
  | cons ref rest ih =>
    intro db
    cases hl : lookupEvidence lookup ref with
    | none => simpa [linkEvidence, hl] using ih db
    | some eid =>
      have h1 := ih (insertCE db cid eid)
      have h2 := insertCE_frame db cid eid
      simp only [linkEvidence, hl]
      exact ⟨h1.1.trans h2.1, h1.2.1.trans h2.2.1, h1.2.2.1.trans h2.2.2.1,
        h1.2.2.2.1.trans h2.2.2.2.1, h1.2.2.2.2.1.trans h2.2.2.2.2.1,
        h1.2.2.2.2.2.trans h2.2.2.2.2.2⟩

/-- Updating the matched control row in place moves `find?` to its
updated image: rows before it keep failing the key test (the update
preserves source and natural key), and the image still matches. -/
theorem find?_map_ctrlUpdate (nfkc : Str → Str) (row : CtrlInput) (domId : Option Nat)
    (mj : Str) (sid : Nat) (ccf : Str) (old : ControlRow) :
    ∀ l : List ControlRow, l.find? (ctrlKey sid ccf) = some old →
    (l.map (fun c => if c.id = old.id then ctrlFields nfkc row domId mj c else c)).find?
        (ctrlKey sid ccf) = some (ctrlFields nfkc row domId mj old) := by
  intro l
  induction l with
  | nil => intro h; simp at h
  | cons x t ih =>
    intro h
    cases hpx : ctrlKey sid ccf x with
    | true =>
      rw [List.find?_cons_of_pos _ hpx] at h
      injection h with h
      subst h
      rw [List.map_cons, if_pos rfl]
      exact List.find?_cons_of_pos _ (by rw [ctrlKey_ctrlFields]; exact hpx)
    | false =>
      rw [List.find?_cons_of_neg _ (by simp [hpx])] at h
      rw [List.map_cons]
      have hy : ctrlKey sid ccf (if x.id = old.id then ctrlFields nfkc row domId mj x else x) = false := by
        split
        · rw [ctrlKey_ctrlFields]; exact hpx
        · exact hpx
      rw [List.find?_cons_of_neg _ (by simp [hy])]
      exact ih h

/-- Characterization of the control upsert when the key already exists:
the identifier is kept, the junction rows of that control are deleted,
the scalar fields are rewritten, and nothing else changes. -/
theorem upsertControl_existing (nfkc : Str → Str) (sid : Nat) (db : DB) (ccf : Str)
    (domId : Option Nat) (row : CtrlInput) (mj : Str) (old : ControlRow)
    (h : findControl db sid ccf = some old) :
    (upsertControl nfkc sid db ccf domId row mj).1 = old.id ∧
    findControl (upsertControl nfkc sid db ccf domId row mj).2 sid ccf =
      some (ctrlFields nfkc row domId mj old) ∧
    (upsertControl nfkc sid db ccf domId row mj).2.controls =
      db.controls.map (fun c => if c.id = old.id then ctrlFields nfkc row domId mj c else c) ∧
    (upsertControl nfkc sid db ccf domId row mj).2.controlEvidence =
      db.controlEvidence.filter (fun j => !(j.controlId == old.id)) ∧
    (upsertControl nfkc sid db ccf domId row mj).2.evidence = db.evidence ∧
    (upsertControl nfkc sid db ccf domId row mj).2.domains = db.domains ∧
    (upsertControl nfkc sid db ccf domId row mj).2.sources = db.sources ∧
    (upsertControl nfkc sid db ccf domId row mj).2.importHistory = db.importHistory ∧
    (upsertControl nfkc sid db ccf domId row mj).2.nextId = db.nextId := by
  unfold upsertControl
  rw [h]
  refine ⟨rfl, ?_, rfl, rfl, rfl, rfl, rfl, rfl, rfl⟩
  exact find?_map_ctrlUpdate nfkc row domId mj sid ccf old db.controls h

/-- Characterization of the control upsert when the key is new: a fresh
identifier is allotted and the row is appended; the junction table is
untouched. -/
theorem upsertControl_new (nfkc : Str → Str) (sid : Nat) (db : DB) (ccf : Str)
    (domId : Option Nat) (row : CtrlInput) (mj : Str)
    (h : findControl db sid ccf = none) :
    (upsertControl nfkc sid db ccf domId row mj).1 = db.nextId ∧
    (upsertControl nfkc sid db ccf domId row mj).2.controls =
      db.controls ++ [ctrlFields nfkc row domId mj
        ⟨db.nextId, sid, ccf, none, none, none, none, none, none, none, []⟩] ∧
    findControl (upsertControl nfkc sid db ccf domId row mj).2 sid ccf =
      some (ctrlFields nfkc row domId mj
        ⟨db.nextId, sid, ccf, none, none, none, none, none, none, none, []⟩) ∧
    (upsertControl nfkc sid db ccf domId row mj).2.controlEvidence = db.controlEvidence ∧
    (upsertControl nfkc sid db ccf domId row mj).2.evidence = db.evidence ∧
    (upsertControl nfkc sid db ccf domId row mj).2.domains = db.domains ∧
    (upsertControl nfkc sid db ccf domId row mj).2.sources = db.sources ∧
    (upsertControl nfkc sid db ccf domId row mj).2.importHistory = db.importHistory ∧
    (upsertControl nfkc sid db ccf domId row mj).2.nextId = db.nextId + 1 := by
  unfold upsertControl
  rw [h]
  refine ⟨rfl, rfl, ?_, rfl, rfl, rfl, rfl, rfl, rfl⟩
  show (db.controls ++ [ctrlFields nfkc row domId mj
    ⟨db.nextId, sid, ccf, none, none, none, none, none, none, none, []⟩]).find?
      (ctrlKey sid ccf) = _
  rw [List.find?_append]
  unfold findControl at h
  rw [h]
  rw [List.find?_cons_of_pos _ (by rw [ctrlKey_ctrlFields]; simp [ctrlKey])]
  rfl

/-- The junction rows produced for one control from its reference list:
insert-if-absent in order, starting from `acc`. -/
def dedupFrom (lookup : List (Str × Nat)) (cid : Nat) : List Str → List CERow → List CERow
| [], acc => acc
| ref :: rest, acc =>
  match lookupEvidence lookup ref with
  | some eid =>
    if acc.any (fun j => j.controlId == cid && j.evidenceId == eid) then
      dedupFrom lookup cid rest acc
    else dedupFrom lookup cid rest (acc ++ [⟨cid, eid⟩])
  | none => dedupFrom lookup cid rest acc

/-- The junction rows derived from a reference list: references resolved
through the evidence lookup, duplicate-free, in first-occurrence
order. -/
def dedupLinks (lookup : List (Str × Nat)) (cid : Nat) (refs : List Str) : List CERow :=
  dedupFrom lookup cid refs []

theorem dedupFrom_mono (lookup : List (Str × Nat)) (cid : Nat) :
    ∀ (refs : List Str) (acc : List CERow) (j : CERow), j ∈ acc →
    j ∈ dedupFrom lookup cid refs acc := by
  intro refs
  induction refs with
  | nil => intro acc j hj; exact hj
  | cons ref rest ih =>
    intro acc j hj
    cases hl : lookupEvidence lookup ref with
    | none => simpa [dedupFrom, hl] using ih acc j hj
    | some eid =>
      simp only [dedupFrom, hl]
      split
      · exact ih acc j hj
      · exact ih _ j (List.mem_append_left _ hj)

theorem mem_dedupFrom (lookup : List (Str × Nat)) (cid : Nat) :
    ∀ (refs : List Str) (acc : List CERow) (j : CERow), j ∈ dedupFrom lookup cid refs acc →
    j ∈ acc ∨ (j.controlId = cid ∧ ∃ ref ∈ refs, lookupEvidence lookup ref = some j.evidenceId) := by
  intro refs
  induction refs with
  | nil => intro acc j hj; exact Or.inl hj
  | cons ref rest ih =>
    intro acc j hj
    cases hl : lookupEvidence lookup ref with
    | none =>
      rw [show dedupFrom lookup cid (ref :: rest) acc = dedupFrom lookup cid rest acc by
        simp [dedupFrom, hl]] at hj
      rcases ih acc j hj with h | ⟨h1, r, hr, hr2⟩
      · exact Or.inl h
      · exact Or.inr ⟨h1, r, List.mem_cons_of_mem _ hr, hr2⟩
    | some eid =>
      simp only [dedupFrom, hl] at hj
      split at hj
      · rcases ih acc j hj with h | ⟨h1, r, hr, hr2⟩
        · exact Or.inl h
        · exact Or.inr ⟨h1, r, List.mem_cons_of_mem _ hr, hr2⟩
      · rcases ih _ j hj with h | ⟨h1, r, hr, hr2⟩
        · rcases List.mem_append.mp h with h' | h'
          · exact Or.inl h'
          · rcases List.mem_singleton.mp h' with rfl
            exact Or.inr ⟨rfl, ref, List.mem_cons_self _ _, hl⟩
        · exact Or.inr ⟨h1, r, List.mem_cons_of_mem _ hr, hr2⟩

theorem dedupFrom_complete (lookup : List (Str × Nat)) (cid : Nat) :
    ∀ (refs : List Str) (acc : List CERow) (ref : Str) (eid : Nat), ref ∈ refs →
    lookupEvidence lookup ref = some eid →
    (⟨cid, eid⟩ : CERow) ∈ dedupFrom lookup cid refs acc := by
  intro refs
  induction refs with
  | nil => intro acc ref eid h; simp at h
  | cons r0 rest ih =>
    intro acc ref eid hmem hl
    rcases List.mem_cons.mp hmem with rfl | hrest
    · simp only [dedupFrom, hl]
      split
      · rename_i hany
        rw [List.any_eq_true] at hany
        rcases hany with ⟨j, hj, hjp⟩
        simp only [Bool.and_eq_true, beq_iff_eq] at hjp
        have : j = (⟨cid, eid⟩ : CERow) := by
          cases j
          simp only [CERow.mk.injEq]
          exact ⟨hjp.1, hjp.2⟩
        exact dedupFrom_mono lookup cid rest acc _ (this ▸ hj)
      · exact dedupFrom_mono lookup cid rest _ _ (List.mem_append_right _ (by simp))
    · cases hl0 : lookupEvidence lookup r0 with
      | none =>
        rw [show dedupFrom lookup cid (r0 :: rest) acc = dedupFrom lookup cid rest acc by
          simp [dedupFrom, hl0]]
        exact ih acc ref eid hrest hl
      | some eid0 =>
        simp only [dedupFrom, hl0]
        split
        · exact ih acc ref eid hrest hl
        · exact ih _ ref eid hrest hl

/-- Effect of the junction-insertion loop on the junction table when the
table splits into rows of other controls (`base`) and rows of this
control (`acc`): the other controls' rows are untouched and this
control's rows grow by insert-if-absent. -/
theorem linkEvidence_ce (lookup : List (Str × Nat)) (cid : Nat) :
    ∀ (refs : List Str) (db : DB) (base acc : List CERow),
    db.controlEvidence = base ++ acc →
    (∀ j ∈ base, (j.controlId == cid) = false) →
    (∀ j ∈ acc, j.controlId = cid) →
    (linkEvidence lookup cid db refs).1.controlEvidence =
      base ++ dedupFrom lookup cid refs acc := by
  intro refs
  induction refs with
  | nil =>
    intro db base acc hsplit hbase hacc
    simpa [linkEvidence, dedupFrom] using hsplit
  | cons ref rest ih =>
    intro db base acc hsplit hbase hacc
    cases hl : lookupEvidence lookup ref with
    | none =>
      rw [show (linkEvidence lookup cid db (ref :: rest)) =
          linkEvidence lookup cid db rest by simp [linkEvidence, hl]]
      rw [show dedupFrom lookup cid (ref :: rest) acc = dedupFrom lookup cid rest acc by
        simp [dedupFrom, hl]]
      exact ih db base acc hsplit hbase hacc
    | some eid =>
      have hanysplit : db.controlEvidence.any (fun j => j.controlId == cid && j.evidenceId == eid) =
          acc.any (fun j => j.controlId == cid && j.evidenceId == eid) := by
        rw [hsplit, List.any_append]
        have : base.any (fun j => j.controlId == cid && j.evidenceId == eid) = false := by
          rw [List.any_eq_false]
          intro j hj
          simp [hbase j hj]
        rw [this]
        simp
      simp only [linkEvidence, hl, dedupFrom]
      cases hany : acc.any (fun j => j.controlId == cid && j.evidenceId == eid) with
      | true =>
        rw [if_pos rfl]
        have hins : insertCE db cid eid = db := by
          unfold insertCE
          rw [hanysplit, hany]
          simp
        have := ih (insertCE db cid eid) base acc (by rw [hins]; exact hsplit) hbase hacc
        exact this
      | false =>
        rw [if_neg (by simp)]
        have hins : (insertCE db cid eid).controlEvidence =
            base ++ (acc ++ [⟨cid, eid⟩]) := by
          unfold insertCE
          rw [hanysplit, hany]
          simp only [Bool.false_eq_true, if_false]
          rw [hsplit, List.append_assoc]
        have hacc' : ∀ j ∈ acc ++ [(⟨cid, eid⟩ : CERow)], j.controlId = cid := by
          intro j hj
          rcases List.mem_append.mp hj with h | h
          · exact hacc j h
          · rcases List.mem_singleton.mp h with rfl; rfl
        have := ih (insertCE db cid eid) base (acc ++ [⟨cid, eid⟩]) hins hbase hacc'
        exact this

theorem ctrlFields_mappings (nfkc : Str → Str) (row : CtrlInput) (domId : Option Nat)
    (mj : Str) (c : ControlRow) : (ctrlFields nfkc row domId mj c).mappings = mj := rfl

/-- Characterization of one controls-loop iteration on a row whose key
already exists: the control keeps its identifier, its scalar fields are
rewritten, its old junction rows are deleted, and the junction table
becomes the other controls' rows plus exactly the links derived from the
current artifacts value. -/
theorem ctrlStep_existing (nfkc : Str → Str) (sid : Nat) (lookup : List (Str × Nat))
    (st : SeedState) (row : CtrlInput) (ccf : Str) (old : ControlRow)
    (hccf : cleanTextWith nfkc row.ccfId = some ccf)
    (hold : findControl st.db sid ccf = some old) :
    ∃ domId : Option Nat,
    findControl (ctrlStep nfkc sid lookup st row).db sid ccf =
      some (ctrlFields nfkc row domId (normalizeMappings row.mappings) old) ∧
    (ctrlStep nfkc sid lookup st row).db.controlEvidence =
      (st.db.controlEvidence.filter (fun j => !(j.controlId == old.id))) ++
        dedupLinks lookup old.id (artifactRefs nfkc row.artifacts) := by
  have hstep : ctrlStep nfkc sid lookup st row =
      (let dres := resolveDomain sid st (cleanTextWith nfkc row.domain)
       let st1 := dres.2
       let mj := normalizeMappings row.mappings
       let ures := upsertControl nfkc sid st1.db ccf dres.1 row mj
       let lres := linkEvidence lookup ures.1 ures.2 (artifactRefs nfkc row.artifacts)
       let stats' := {st1.stats with
         controlsImported := st1.stats.controlsImported + 1,
         evidenceLinks := st1.stats.evidenceLinks + lres.2}
       {st1 with
         db := lres.1,
         stats := stats'}) := by
    unfold ctrlStep
    rw [hccf]
  set dres := resolveDomain sid st (cleanTextWith nfkc row.domain) with hdres
  refine ⟨dres.1, ?_⟩
  have hframe := resolveDomain_db_controls sid st (cleanTextWith nfkc row.domain)
  have hold1 : findControl dres.2.db sid ccf = some old := by
    unfold findControl
    rw [hframe.1]
    exact hold
  have hup := upsertControl_existing nfkc sid dres.2.db ccf dres.1 row
    (normalizeMappings row.mappings) old hold1
  set ures := upsertControl nfkc sid dres.2.db ccf dres.1 row
    (normalizeMappings row.mappings) with hures
  have hlframe := linkEvidence_frame lookup ures.1 (artifactRefs nfkc row.artifacts) ures.2
  have hbase : ∀ j ∈ dres.2.db.controlEvidence.filter (fun j => !(j.controlId == old.id)),
      (j.controlId == old.id) = false := by
    intro j hj
    have := (List.mem_filter.mp hj).2
    simpa using this
  have hcid : ures.1 = old.id := hup.1
  have hlframe2 := linkEvidence_frame lookup old.id (artifactRefs nfkc row.artifacts) ures.2
  have hce := linkEvidence_ce lookup old.id (artifactRefs nfkc row.artifacts) ures.2
    (dres.2.db.controlEvidence.filter (fun j => !(j.controlId == old.id))) []
    (by rw [List.append_nil]; exact hup.2.2.2.1)
    hbase (by intro j hj; simp at hj)
  constructor
  · rw [hstep]
    show (linkEvidence lookup ures.1 ures.2 (artifactRefs nfkc row.artifacts)).1.controls.find?
      (ctrlKey sid ccf) = _
    rw [hcid, hlframe2.1]
    exact hup.2.1
  · rw [hstep]
    show (linkEvidence lookup ures.1 ures.2 (artifactRefs nfkc row.artifacts)).1.controlEvidence = _
    rw [hcid, hce, hframe.2.1]
    rfl

/-- Every row with a non-null key is upserted, whatever its mappings
value: after the iteration a control with that key is stored and its
mappings column is the normalized value. -/
theorem ctrlStep_upserts (nfkc : Str → Str) (sid : Nat) (lookup : List (Str × Nat))
    (st : SeedState) (row : CtrlInput) (ccf : Str)
    (hccf : cleanTextWith nfkc row.ccfId = some ccf) :
    ∃ c : ControlRow, findControl (ctrlStep nfkc sid lookup st row).db sid ccf = some c ∧
      c.mappings = normalizeMappings row.mappings := by
  have hstep : ctrlStep nfkc sid lookup st row =
      (let dres := resolveDomain sid st (cleanTextWith nfkc row.domain)
       let st1 := dres.2
       let mj := normalizeMappings row.mappings
       let ures := upsertControl nfkc sid st1.db ccf dres.1 row mj
       let lres := linkEvidence lookup ures.1 ures.2 (artifactRefs nfkc row.artifacts)
       let stats' := {st1.stats with
         controlsImported := st1.stats.controlsImported + 1,
         evidenceLinks := st1.stats.evidenceLinks + lres.2}
       {st1 with
         db := lres.1,
         stats := stats'}) := by
    unfold ctrlStep
    rw [hccf]
  set dres := resolveDomain sid st (cleanTextWith nfkc row.domain) with hdres
  set ures := upsertControl nfkc sid dres.2.db ccf dres.1 row
    (normalizeMappings row.mappings) with hures
  have hlframe := linkEvidence_frame lookup ures.1 (artifactRefs nfkc row.artifacts) ures.2
  cases hold : findControl dres.2.db sid ccf with
  | some old =>
    have hup := upsertControl_existing nfkc sid dres.2.db ccf dres.1 row
      (normalizeMappings row.mappings) old hold
    refine ⟨ctrlFields nfkc row dres.1 (normalizeMappings row.mappings) old, ?_, rfl⟩
    rw [hstep]
    show (linkEvidence lookup ures.1 ures.2 (artifactRefs nfkc row.artifacts)).1.controls.find?
      (ctrlKey sid ccf) = _
    rw [hlframe.1]
    exact hup.2.1
  | none =>
    have hup := upsertControl_new nfkc sid dres.2.db ccf dres.1 row
      (normalizeMappings row.mappings) hold
    refine ⟨ctrlFields nfkc row dres.1 (normalizeMappings row.mappings)
      ⟨dres.2.db.nextId, sid, ccf, none, none, none, none, none, none, none, []⟩, ?_, rfl⟩
    rw [hstep]
    show (linkEvidence lookup ures.1 ures.2 (artifactRefs nfkc row.artifacts)).1.controls.find?
      (ctrlKey sid ccf) = _
    rw [hlframe.1]
    exact hup.2.2.1

-- ---------------------------------------------------------------------
-- Claim C4: re-import fully replaces evidence links
-- ---------------------------------------------------------------------

/-- C4: on a controls-frame row whose key already exists, the upsert
keeps the row identifier while rewriting all scalar fields, deletes all
of the control's junction rows, and inserts exactly the junction rows
derived from the current artifacts value (multi-delimiter split)
restricted to references resolving in the evidence lookup: links not
derivable from the current artifacts do not survive, every derivable
link is present, and other controls' links are untouched. -/
theorem c4_reimport_replaces_links (nfkc : Str → Str) (sid : Nat)
    (lookup : List (Str × Nat)) (st : SeedState) (row : CtrlInput) (ccf : Str)
    (old : ControlRow)
    (hccf : cleanTextWith nfkc row.ccfId = some ccf)
    (hold : findControl st.db sid ccf = some old) :
    ∃ domId : Option Nat,
    findControl (ctrlStep nfkc sid lookup st row).db sid ccf =
      some (ctrlFields nfkc row domId (normalizeMappings row.mappings) old) ∧
    (ctrlStep nfkc sid lookup st row).db.controlEvidence =
      (st.db.controlEvidence.filter (fun j => !(j.controlId == old.id))) ++
        dedupLinks lookup old.id (artifactRefs nfkc row.artifacts) ∧
    (∀ j ∈ (ctrlStep nfkc sid lookup st row).db.controlEvidence, j.controlId = old.id →
      ∃ ref ∈ artifactRefs nfkc row.artifacts, lookupEvidence lookup ref = some j.evidenceId) ∧
    (∀ ref ∈ artifactRefs nfkc row.artifacts, ∀ eid, lookupEvidence lookup ref = some eid →
      (⟨old.id, eid⟩ : CERow) ∈ (ctrlStep nfkc sid lookup st row).db.controlEvidence) ∧
    (∀ j ∈ st.db.controlEvidence, j.controlId ≠ old.id →
      j ∈ (ctrlStep nfkc sid lookup st row).db.controlEvidence) := by
  obtain ⟨domId, hfind, hce⟩ := ctrlStep_existing nfkc sid lookup st row ccf old hccf hold
  refine ⟨domId, hfind, hce, ?_, ?_, ?_⟩
  · intro j hj hjc
    rw [hce] at hj
    rcases List.mem_append.mp hj with h | h
    · have := (List.mem_filter.mp h).2
      rw [hjc] at this
      simp at this
    · rcases mem_dedupFrom lookup old.id (artifactRefs nfkc row.artifacts) [] j h with
        h' | ⟨_, ref, hr, hr2⟩
      · simp at h'
      · exact ⟨ref, hr, hr2⟩
  · intro ref hr eid hl
    rw [hce]
    exact List.mem_append_right _
      (dedupFrom_complete lookup old.id (artifactRefs nfkc row.artifacts) [] ref eid hr hl)
  · intro j hj hjc
    rw [hce]
    refine List.mem_append_left _ (List.mem_filter.mpr ⟨hj, by simpa using hjc⟩)

/-- Witness for C4: a source-1 control `AC-1` (id 5) with a stale link to
evidence 9; re-importing with artifacts `"E-1"` (resolving to evidence
10) drops the stale link. -/
theorem c4_reimport_replaces_links_witness :
    ∃ domId : Option Nat,
    findControl (ctrlStep asciiNFKC 1 [(S ("E-1"), 10)]
      ⟨{emptyDB with
          controls := [⟨5, 1, S ("AC-1"), none, none, none, none, none, none, none, S ("\x7b\x7d")⟩],
          controlEvidence := [⟨5, 9⟩],
          nextId := 11}, [], ⟨0, 0, 0, 0, some 1⟩⟩
      ⟨vStr (S ("AC-1")), vNull, vStr (S ("Limit access")), vNull, vNull, vNull, vNull, vNull,
        MVal.mNull, vStr (S ("E-1"))⟩).db 1 (S ("AC-1")) =
      some (ctrlFields asciiNFKC
        ⟨vStr (S ("AC-1")), vNull, vStr (S ("Limit access")), vNull, vNull, vNull, vNull, vNull,
          MVal.mNull, vStr (S ("E-1"))⟩ domId
        (normalizeMappings MVal.mNull)
        ⟨5, 1, S ("AC-1"), none, none, none, none, none, none, none, S ("\x7b\x7d")⟩) ∧
    (ctrlStep asciiNFKC 1 [(S ("E-1"), 10)]
      ⟨{emptyDB with
          controls := [⟨5, 1, S ("AC-1"), none, none, none, none, none, none, none, S ("\x7b\x7d")⟩],
          controlEvidence := [⟨5, 9⟩],
          nextId := 11}, [], ⟨0, 0, 0, 0, some 1⟩⟩
      ⟨vStr (S ("AC-1")), vNull, vStr (S ("Limit access")), vNull, vNull, vNull, vNull, vNull,
        MVal.mNull, vStr (S ("E-1"))⟩).db.controlEvidence =
      (([⟨5, 9⟩] : List CERow).filter (fun j => !(j.controlId == 5))) ++
        dedupLinks [(S ("E-1"), 10)] 5 (artifactRefs asciiNFKC (vStr (S ("E-1")))) ∧
    (∀ j ∈ (ctrlStep asciiNFKC 1 [(S ("E-1"), 10)]
      ⟨{emptyDB with
          controls := [⟨5, 1, S ("AC-1"), none, none, none, none, none, none, none, S ("\x7b\x7d")⟩],
          controlEvidence := [⟨5, 9⟩],
          nextId := 11}, [], ⟨0, 0, 0, 0, some 1⟩⟩
      ⟨vStr (S ("AC-1")), vNull, vStr (S ("Limit access")), vNull, vNull, vNull, vNull, vNull,
        MVal.mNull, vStr (S ("E-1"))⟩).db.controlEvidence, j.controlId = 5 →
      ∃ ref ∈ artifactRefs asciiNFKC (vStr (S ("E-1"))),
        lookupEvidence [(S ("E-1"), 10)] ref = some j.evidenceId) ∧
    (∀ ref ∈ artifactRefs asciiNFKC (vStr (S ("E-1"))), ∀ eid,
      lookupEvidence [(S ("E-1"), 10)] ref = some eid →
      (⟨5, eid⟩ : CERow) ∈ (ctrlStep asciiNFKC 1 [(S ("E-1"), 10)]
        ⟨{emptyDB with
            controls := [⟨5, 1, S ("AC-1"), none, none, none, none, none, none, none, S ("\x7b\x7d")⟩],
            controlEvidence := [⟨5, 9⟩],
            nextId := 11}, [], ⟨0, 0, 0, 0, some 1⟩⟩
        ⟨vStr (S ("AC-1")), vNull, vStr (S ("Limit access")), vNull, vNull, vNull, vNull, vNull,
          MVal.mNull, vStr (S ("E-1"))⟩).db.controlEvidence) ∧
    (∀ j ∈ ([⟨5, 9⟩] : List CERow), j.controlId ≠ 5 →
      j ∈ (ctrlStep asciiNFKC 1 [(S ("E-1"), 10)]
        ⟨{emptyDB with
            controls := [⟨5, 1, S ("AC-1"), none, none, none, none, none, none, none, S ("\x7b\x7d")⟩],
            controlEvidence := [⟨5, 9⟩],
            nextId := 11}, [], ⟨0, 0, 0, 0, some 1⟩⟩
        ⟨vStr (S ("AC-1")), vNull, vStr (S ("Limit access")), vNull, vNull, vNull, vNull, vNull,
          MVal.mNull, vStr (S ("E-1"))⟩).db.controlEvidence) :=
  c4_reimport_replaces_links asciiNFKC 1 [(S ("E-1"), 10)]
    ⟨{emptyDB with
        controls := [⟨5, 1, S ("AC-1"), none, none, none, none, none, none, none, S ("\x7b\x7d")⟩],
        controlEvidence := [⟨5, 9⟩],
        nextId := 11}, [], ⟨0, 0, 0, 0, some 1⟩⟩
    ⟨vStr (S ("AC-1")), vNull, vStr (S ("Limit access")), vNull, vNull, vNull, vNull, vNull,
      MVal.mNull, vStr (S ("E-1"))⟩
    (S ("AC-1"))
    ⟨5, 1, S ("AC-1"), none, none, none, none, none, none, none, S ("\x7b\x7d")⟩
    (by decide) (by decide)

-- ---------------------------------------------------------------------
-- Claim C7: mappings normalization is total and never aborts a row
-- ---------------------------------------------------------------------

/-- C7: the persisted mappings column is the JSON serialization of a
dict value, the string itself when it parses as JSON, and `'{}'` in
every other case (null, NaN, other floats, unparseable strings, other
types); and the control row is upserted whatever the mappings value
is. -/
theorem c7_mappings_normalization (nfkc : Str → Str) (sid : Nat)
    (lookup : List (Str × Nat)) (st : SeedState) (row : CtrlInput) (ccf : Str)
    (hccf : cleanTextWith nfkc row.ccfId = some ccf) :
    (row.mappings = MVal.mNull ∨ row.mappings = MVal.mNaN ∨ row.mappings = MVal.mFloat ∨
      row.mappings = MVal.mOther → normalizeMappings row.mappings = S ("\x7b\x7d")) ∧
    (∀ d, row.mappings = MVal.mDict d → normalizeMappings row.mappings = dumpsDict d) ∧
    (∀ s, row.mappings = MVal.mStr s →
      normalizeMappings row.mappings = (if jsonParses s then s else S ("\x7b\x7d"))) ∧
    (∃ c : ControlRow, findControl (ctrlStep nfkc sid lookup st row).db sid ccf = some c ∧
      c.mappings = normalizeMappings row.mappings) := by
  refine ⟨?_, ?_, ?_, ctrlStep_upserts nfkc sid lookup st row ccf hccf⟩
  · rintro (h | h | h | h) <;> rw [h] <;> rfl
  · intro d h; rw [h]; rfl
  · intro s h; rw [h]; rfl

/-- Witness for C7: a row whose mappings value is an unparseable string
is still upserted, with mappings persisted as the empty object. -/
theorem c7_mappings_normalization_witness :
    ((MVal.mStr (S ("not json")) = MVal.mNull ∨ MVal.mStr (S ("not json")) = MVal.mNaN ∨
      MVal.mStr (S ("not json")) = MVal.mFloat ∨ MVal.mStr (S ("not json")) = MVal.mOther →
      normalizeMappings (MVal.mStr (S ("not json"))) = S ("\x7b\x7d"))) ∧
    (∀ d, MVal.mStr (S ("not json")) = MVal.mDict d →
      normalizeMappings (MVal.mStr (S ("not json"))) = dumpsDict d) ∧
    (∀ s, MVal.mStr (S ("not json")) = MVal.mStr s →
      normalizeMappings (MVal.mStr (S ("not json"))) =
        (if jsonParses s then s else S ("\x7b\x7d"))) ∧
    (∃ c : ControlRow, findControl (ctrlStep asciiNFKC 1 []
      ⟨emptyDB, [], ⟨0, 0, 0, 0, some 1⟩⟩
      ⟨vStr (S ("AC-2")), vNull, vNull, vNull, vNull, vNull, vNull, vNull,
        MVal.mStr (S ("not json")), vNull⟩).db 1 (S ("AC-2")) = some c ∧
      c.mappings = normalizeMappings (MVal.mStr (S ("not json")))) := by
  have h := c7_mappings_normalization asciiNFKC 1 [] ⟨emptyDB, [], ⟨0, 0, 0, 0, some 1⟩⟩
    ⟨vStr (S ("AC-2")), vNull, vNull, vNull, vNull, vNull, vNull, vNull,
      MVal.mStr (S ("not json")), vNull⟩ (S ("AC-2")) (by decide)
  exact h

-- ---------------------------------------------------------------------
-- Excel adapter: the main-sheet row loop (claim C3)
-- ---------------------------------------------------------------------

/-- A row of the raw main sheet: column name to cell value. -/
abbrev DFRow := List (Str × Val)

/-- `row.get(col)`: `None` when the column is absent. -/
def dfGet (row : DFRow) (col : Str) : Val :=
  match row.find? (fun p => p.1 == col) with
  | some p => p.2
  | none => vNull

def cmGet (m : List (Str × Str)) (k : Str) : Option Str :=
  (m.find? (fun p => p.1 == k)).map (fun p => p.2)

/-- Greedy match of the pattern `\s*ref\s*#?\s*` (case-insensitive) at
the head of the string; the whitespace runs, the literal `ref` and the
optional `#` are disjoint, so the greedy deterministic scan agrees with
the regex engine. -/
def matchRefAt (s : Str) : Option Str :=
  match s.dropWhile pyIsSpace with
  | r :: e :: f :: rest =>
    if (r.toLower = 'r' && e.toLower = 'e' && f.toLower = 'f') then
      let s2 := rest.dropWhile pyIsSpace
      let s3 := match s2 with
        | '#' :: t => t
        | _ => s2
      some (s3.dropWhile pyIsSpace)
    else none
  | _ => none

/-- Model of `re.sub(r'\s*ref\s*#?\s*', '', col, flags=IGNORECASE)`:
leftmost non-overlapping matches removed. -/
def refSub : Nat → Str → Str
| 0, s => s
| _ + 1, [] => []
| fuel + 1, c :: t =>
  match matchRefAt (c :: t) with
  | some rest => refSub fuel rest
  | none => c :: refSub fuel t

/-- The framework key derived from a ref column header: the pattern
removed, stripped, spaces replaced by underscores. -/
def mapKey (col : Str) : Str :=
  replaceChar ' ' '_' (pyStrip (refSub col.length col))

def dictSetStrList (m : List (Str × List Str)) (k : Str) (v : List Str) :
    List (Str × List Str) :=
  if m.any (fun p => p.1 == k) then m.map (fun p => if p.1 == k then (p.1, v) else p)
  else m ++ [(k, v)]

/-- The per-row framework-mappings dict built from the unclaimed ref
columns: cells that are present and non-blank contribute their split
reference list under the header-derived key. -/
def buildRowMappings (nfkc : Str → Str) (row : DFRow) (mappingCols : List Str) :
    List (Str × List Str) :=
  mappingCols.foldl
    (fun acc col =>
      match dfGet row col with
      | vNull => acc
      | vNaN => acc
      | vStr s =>
        if (pyStrip s).isEmpty then acc
        else
          let key := mapKey col
          if key.isEmpty then acc else dictSetStrList acc key (splitListString nfkc s))
    []

/-- Per-control guidance-sheet values merged into the main row. -/
structure GuideEntry where
  gtype : Option Str
  gtheme : Option Str
  gguidance : Option Str
  gtesting : Option Str
  gartifacts : Option Str
deriving DecidableEq, Repr

def gGet (guidance : List (Str × GuideEntry)) (ccf : Str) : Option GuideEntry :=
  (guidance.find? (fun p => p.1 == ccf)).map (fun p => p.2)

/-- Python `a or b` on cleaned optional strings. -/
def orElseStr (a b : Option Str) : Option Str :=
  match a with
  | some s => if s.isEmpty then b else some s
  | none => b

def guideField (g : Option GuideEntry) (f : GuideEntry → Option Str) : Option Str :=
  match g with
  | some e => f e
  | none => none

/-- A canonical-field cell: present in the column map and cleaned, else
`None`. -/
def fieldFromMap (nfkc : Str → Str) (colMap : List (Str × Str)) (row : DFRow)
    (canonical : Str) : Option Str :=
  match cmGet colMap canonical with
  | some actual => cleanTextWith nfkc (dfGet row actual)
  | none => none

/-- The canonical controls row appended by the Excel main loop for a row
whose id cleaned to `ccf`. -/
def excelBuildRow (nfkc : Str → Str) (colMap : List (Str × Str)) (mappingCols : List Str)
    (guidance : List (Str × GuideEntry)) (row : DFRow) (ccf : Str) : CtrlInput :=
  let guide := gGet guidance ccf
  { ccfId := vStr ccf,
    domain := optToVal (fieldFromMap nfkc colMap row (S ("domain"))),
    title := optToVal (fieldFromMap nfkc colMap row (S ("title"))),
    description := optToVal (fieldFromMap nfkc colMap row (S ("description"))),
    ctype := optToVal (orElseStr (guideField guide (fun g => g.gtype))
      (fieldFromMap nfkc colMap row (S ("type")))),
    theme := optToVal (orElseStr (guideField guide (fun g => g.gtheme))
      (fieldFromMap nfkc colMap row (S ("theme")))),
    guidance := optToVal (orElseStr (guideField guide (fun g => g.gguidance))
      (fieldFromMap nfkc colMap row (S ("guidance")))),
    testing := optToVal (orElseStr (guideField guide (fun g => g.gtesting))
      (fieldFromMap nfkc colMap row (S ("testing")))),
    mappings := MVal.mDict (buildRowMappings nfkc row mappingCols),
    artifacts := optToVal (orElseStr (guideField guide (fun g => g.gartifacts))
      (fieldFromMap nfkc colMap row (S ("artifacts")))) }

/-- The id cell of a main-sheet row (`row.get(col_map['ccf_id'])`; the
loop is only reached when the id column resolved, the source raises
otherwise). -/
def excelRowId (colMap : List (Str × Str)) (row : DFRow) : Val :=
  dfGet row ((cmGet colMap (S ("ccf_id"))).getD [])

/-- Model of the main-controls row loop of `ExcelAdapter.load`: rows
whose natural id cleans to null are skipped entirely, the others are
normalized and appended in order. -/
def excelControlsRows (nfkc : Str → Str) (colMap : List (Str × Str))
    (mappingCols : List Str) (guidance : List (Str × GuideEntry)) :
    List DFRow → List CtrlInput
| [] => []
| row :: rest =>
  match cleanTextWith nfkc (excelRowId colMap row) with
  | none => excelControlsRows nfkc colMap mappingCols guidance rest
  | some ccf =>
    excelBuildRow nfkc colMap mappingCols guidance row ccf ::
      excelControlsRows nfkc colMap mappingCols guidance rest

-- ---------------------------------------------------------------------
-- Claim C3: key-drop invariant
-- ---------------------------------------------------------------------

/-- A successful `clean_text` never returns the empty string (for any
NFKC function). -/
theorem cleanTextWith_ne_nil (nfkc : Str → Str) (v : Val) (s : Str)
    (h : cleanTextWith nfkc v = some s) : s ≠ [] := by
  cases v with
  | vNull => simp [cleanTextWith] at h
  | vNaN => simp [cleanTextWith] at h
  | vStr s0 =>
    have h' : (if s0 = [] then (none : Option Str)
        else
          let s3 := pyStrip (nfkc (normCRLF (normSpecialSpaces s0)))
          if s3 = [] then none else some s3) = some s := h
    by_cases h0 : s0 = []
    · simp [h0] at h'
    rw [if_neg h0] at h'
    simp only [] at h'
    by_cases h3 : pyStrip (nfkc (normCRLF (normSpecialSpaces s0))) = []
    · rw [if_pos h3] at h'; simp at h'
    · rw [if_neg h3] at h'
      injection h' with h'
      exact h' ▸ h3

theorem excelControlsRows_filter (nfkc : Str → Str) (colMap : List (Str × Str))
    (mappingCols : List Str) (guidance : List (Str × GuideEntry)) (rows : List DFRow) :
    excelControlsRows nfkc colMap mappingCols guidance rows =
      excelControlsRows nfkc colMap mappingCols guidance
        (rows.filter (fun r => (cleanTextWith nfkc (excelRowId colMap r)).isSome)) := by
  induction rows with
  | nil => rfl
  | cons row rest ih =>
    cases hc : cleanTextWith nfkc (excelRowId colMap row) with
    | none =>
      rw [show excelControlsRows nfkc colMap mappingCols guidance (row :: rest) =
        excelControlsRows nfkc colMap mappingCols guidance rest by
          simp [excelControlsRows, hc]]
      rw [List.filter_cons]
      rw [if_neg (by simp [hc])]
      exact ih
    | some ccf =>
      rw [show excelControlsRows nfkc colMap mappingCols guidance (row :: rest) =
        excelBuildRow nfkc colMap mappingCols guidance row ccf ::
          excelControlsRows nfkc colMap mappingCols guidance rest by
          simp [excelControlsRows, hc]]
      rw [List.filter_cons, if_pos (by simp [hc])]
      rw [show excelControlsRows nfkc colMap mappingCols guidance
          (row :: rest.filter (fun r => (cleanTextWith nfkc (excelRowId colMap r)).isSome)) =
        excelBuildRow nfkc colMap mappingCols guidance row ccf ::
          excelControlsRows nfkc colMap mappingCols guidance
            (rest.filter (fun r => (cleanTextWith nfkc (excelRowId colMap r)).isSome)) by
          simp [excelControlsRows, hc]]
      rw [ih]

theorem excelControlsRows_length (nfkc : Str → Str) (colMap : List (Str × Str))
    (mappingCols : List Str) (guidance : List (Str × GuideEntry)) (rows : List DFRow) :
    (excelControlsRows nfkc colMap mappingCols guidance rows).length =
      rows.countP (fun r => (cleanTextWith nfkc (excelRowId colMap r)).isSome) := by
  induction rows with
  | nil => rfl
  | cons row rest ih =>
    cases hc : cleanTextWith nfkc (excelRowId colMap row) with
    | none =>
      rw [show excelControlsRows nfkc colMap mappingCols guidance (row :: rest) =
        excelControlsRows nfkc colMap mappingCols guidance rest by
          simp [excelControlsRows, hc]]
      rw [List.countP_cons]
      simp [hc, ih]
    | some ccf =>
      rw [show excelControlsRows nfkc colMap mappingCols guidance (row :: rest) =
        excelBuildRow nfkc colMap mappingCols guidance row ccf ::
          excelControlsRows nfkc colMap mappingCols guidance rest by
          simp [excelControlsRows, hc]]
      rw [List.length_cons, List.countP_cons]
      simp [hc, ih]

theorem excelControlsRows_keys (nfkc : Str → Str) (colMap : List (Str × Str))
    (mappingCols : List Str) (guidance : List (Str × GuideEntry)) (rows : List DFRow) :
    ∀ out ∈ excelControlsRows nfkc colMap mappingCols guidance rows,
      ∃ s : Str, out.ccfId = vStr s ∧ s ≠ [] := by
  induction rows with
  | nil => intro out h; simp [excelControlsRows] at h
  | cons row rest ih =>
    intro out hout
    cases hc : cleanTextWith nfkc (excelRowId colMap row) with
    | none =>
      rw [show excelControlsRows nfkc colMap mappingCols guidance (row :: rest) =
        excelControlsRows nfkc colMap mappingCols guidance rest by
          simp [excelControlsRows, hc]] at hout
      exact ih out hout
    | some ccf =>
      rw [show excelControlsRows nfkc colMap mappingCols guidance (row :: rest) =
        excelBuildRow nfkc colMap mappingCols guidance row ccf ::
          excelControlsRows nfkc colMap mappingCols guidance rest by
          simp [excelControlsRows, hc]] at hout
      rcases List.mem_cons.mp hout with rfl | h
      · exact ⟨ccf, rfl, cleanTextWith_ne_nil nfkc _ ccf hc⟩
      · exact ih out h

theorem ctrlStep_skip (nfkc : Str → Str) (sid : Nat) (lookup : List (Str × Nat))
    (st : SeedState) (row : CtrlInput) (h : cleanTextWith nfkc row.ccfId = none) :
    ctrlStep nfkc sid lookup st row = st := by
  unfold ctrlStep
  rw [h]

theorem evStep_skip (nfkc : Str → Str) (sid : Nat) (acc : DB × Nat) (row : EvInput)
    (h : cleanTextWith nfkc row.refId = none) :
    evStep nfkc sid acc row = acc := by
  unfold evStep
  rw [h]

theorem ctrlPass_filter (nfkc : Str → Str) (sid : Nat) (lookup : List (Str × Nat)) :
    ∀ (rows : List CtrlInput) (st : SeedState),
    ctrlPass nfkc sid lookup st rows =
      ctrlPass nfkc sid lookup st
        (rows.filter (fun r => (cleanTextWith nfkc r.ccfId).isSome)) := by
  intro rows
  induction rows with
  | nil => intro st; rfl
  | cons row rest ih =>
    intro st
    cases hc : cleanTextWith nfkc row.ccfId with
    | none =>
      show ctrlPass nfkc sid lookup (ctrlStep nfkc sid lookup st row) rest = _
      rw [ctrlStep_skip nfkc sid lookup st row hc, List.filter_cons, if_neg (by simp [hc])]
      exact ih st
    | some ccf =>
      show ctrlPass nfkc sid lookup (ctrlStep nfkc sid lookup st row) rest = _
      rw [List.filter_cons, if_pos (by simp [hc])]
      show _ = ctrlPass nfkc sid lookup (ctrlStep nfkc sid lookup st row) _
      exact ih (ctrlStep nfkc sid lookup st row)

theorem evPass_filter (nfkc : Str → Str) (sid : Nat) :
    ∀ (rows : List EvInput) (acc : DB × Nat),
    evPass nfkc sid acc rows =
      evPass nfkc sid acc (rows.filter (fun r => (cleanTextWith nfkc r.refId).isSome)) := by
  intro rows
  induction rows with
  | nil => intro acc; rfl
  | cons row rest ih =>
    intro acc
    cases hc : cleanTextWith nfkc row.refId with
    | none =>
      show evPass nfkc sid (evStep nfkc sid acc row) rest = _
      rw [evStep_skip nfkc sid acc row hc, List.filter_cons, if_neg (by simp [hc])]
      exact ih acc
    | some r =>
      show evPass nfkc sid (evStep nfkc sid acc row) rest = _
      rw [List.filter_cons, if_pos (by simp [hc])]
      show _ = evPass nfkc sid (evStep nfkc sid acc row) _
      exact ih (evStep nfkc sid acc row)

/-- No stored natural key is empty. -/
def keysNonEmpty (db : DB) : Prop :=
  (∀ c ∈ db.controls, c.ccfId ≠ []) ∧ (∀ e ∈ db.evidence, e.refId ≠ [])

theorem getOrCreate_tables (db : DB) (name : Str) (a b c d e : Option Str) :
    (getOrCreateComplianceSource db name a b c d e).2.controls = db.controls ∧
    (getOrCreateComplianceSource db name a b c d e).2.evidence = db.evidence ∧
    (getOrCreateComplianceSource db name a b c d e).2.domains = db.domains ∧
    (getOrCreateComplianceSource db name a b c d e).2.controlEvidence = db.controlEvidence ∧
    (getOrCreateComplianceSource db name a b c d e).2.importHistory = db.importHistory := by
  cases h : findSourceByName db name with
  | some row => simp [getOrCreateComplianceSource, h]
  | none => simp [getOrCreateComplianceSource, h]

theorem updateSourceCounts_tables (db : DB) (sid : Nat) :
    (updateSourceCounts db sid).controls = db.controls ∧
    (updateSourceCounts db sid).evidence = db.evidence ∧
    (updateSourceCounts db sid).domains = db.domains ∧
    (updateSourceCounts db sid).controlEvidence = db.controlEvidence ∧
    (updateSourceCounts db sid).importHistory = db.importHistory ∧
    (updateSourceCounts db sid).nextId = db.nextId :=
  ⟨rfl, rfl, rfl, rfl, rfl, rfl⟩

theorem evStep_controls (nfkc : Str → Str) (sid : Nat) (acc : DB × Nat) (row : EvInput) :
    (evStep nfkc sid acc row).1.controls = acc.1.controls ∧
    (evStep nfkc sid acc row).1.domains = acc.1.domains ∧
    (evStep nfkc sid acc row).1.controlEvidence = acc.1.controlEvidence ∧
    (evStep nfkc sid acc row).1.sources = acc.1.sources ∧
    (evStep nfkc sid acc row).1.importHistory = acc.1.importHistory := by
  cases hc : cleanTextWith nfkc row.refId with
  | none => simp [evStep, hc]
  | some r =>
    cases hf : findEvidence acc.1 sid r with
    | some e => simp [evStep, hc, hf]
    | none => simp [evStep, hc, hf]

theorem evStep_keys (nfkc : Str → Str) (sid : Nat) (acc : DB × Nat) (row : EvInput)
    (h : ∀ e ∈ acc.1.evidence, e.refId ≠ []) :
    ∀ e ∈ (evStep nfkc sid acc row).1.evidence, e.refId ≠ [] := by
  cases hc : cleanTextWith nfkc row.refId with
  | none => simpa [evStep, hc] using h
  | some r =>
    cases hf : findEvidence acc.1 sid r with
    | some e0 =>
      intro e he
      simp only [evStep, hc, hf] at he
      rcases List.mem_map.mp he with ⟨x, hx, hxe⟩
      subst hxe
      split
      · exact h x hx
      · exact h x hx
    | none =>
      intro e he
      simp only [evStep, hc, hf] at he
      rcases List.mem_append.mp he with hx | hx
      · exact h e hx
      · rcases List.mem_singleton.mp hx with rfl
        exact cleanTextWith_ne_nil nfkc row.refId r hc

theorem evPass_controls (nfkc : Str → Str) (sid : Nat) :
    ∀ (rows : List EvInput) (acc : DB × Nat),
    (evPass nfkc sid acc rows).1.controls = acc.1.controls := by
  intro rows
  induction rows with
  | nil => intro acc; rfl
  | cons row rest ih =>
    intro acc
    show (evPass nfkc sid (evStep nfkc sid acc row) rest).1.controls = acc.1.controls
    rw [ih (evStep nfkc sid acc row), (evStep_controls nfkc sid acc row).1]

theorem evPass_keys (nfkc : Str → Str) (sid : Nat) :
    ∀ (rows : List EvInput) (acc : DB × Nat),
    (∀ e ∈ acc.1.evidence, e.refId ≠ []) →
    ∀ e ∈ (evPass nfkc sid acc rows).1.evidence, e.refId ≠ [] := by
  intro rows
  induction rows with
  | nil => intro acc h; exact h
  | cons row rest ih =>
    intro acc h
    exact ih (evStep nfkc sid acc row) (evStep_keys nfkc sid acc row h)

theorem ctrlStep_keys (nfkc : Str → Str) (sid : Nat) (lookup : List (Str × Nat))
    (st : SeedState) (row : CtrlInput) (h : keysNonEmpty st.db) :
    keysNonEmpty (ctrlStep nfkc sid lookup st row).db := by
  cases hc : cleanTextWith nfkc row.ccfId with
  | none => rw [ctrlStep_skip nfkc sid lookup st row hc]; exact h
  | some ccf =>
    have hstep : ctrlStep nfkc sid lookup st row =
        (let dres := resolveDomain sid st (cleanTextWith nfkc row.domain)
         let st1 := dres.2
         let mj := normalizeMappings row.mappings
         let ures := upsertControl nfkc sid st1.db ccf dres.1 row mj
         let lres := linkEvidence lookup ures.1 ures.2 (artifactRefs nfkc row.artifacts)
         let stats' := {st1.stats with
           controlsImported := st1.stats.controlsImported + 1,
           evidenceLinks := st1.stats.evidenceLinks + lres.2}
         {st1 with
           db := lres.1,
           stats := stats'}) := by
      unfold ctrlStep
      rw [hc]
    rw [hstep]
    set dres := resolveDomain sid st (cleanTextWith nfkc row.domain) with hdres
    have hframe := resolveDomain_db_controls sid st (cleanTextWith nfkc row.domain)
    set ures := upsertControl nfkc sid dres.2.db ccf dres.1 row
      (normalizeMappings row.mappings) with hures
    have hlframe := linkEvidence_frame lookup ures.1 (artifactRefs nfkc row.artifacts) ures.2
    show keysNonEmpty (linkEvidence lookup ures.1 ures.2 (artifactRefs nfkc row.artifacts)).1
    have h1 : ∀ c ∈ dres.2.db.controls, c.ccfId ≠ [] := by
      rw [hframe.1]; exact h.1
    have h2 : ∀ e ∈ dres.2.db.evidence, e.refId ≠ [] := by
      rw [hframe.2.2.1]; exact h.2
    have hupc : ∀ c ∈ ures.2.controls, c.ccfId ≠ [] := by
      cases hold : findControl dres.2.db sid ccf with
      | some old =>
        have hup := upsertControl_existing nfkc sid dres.2.db ccf dres.1 row
          (normalizeMappings row.mappings) old hold
        rw [hup.2.2.1]
        intro c hc2
        rcases List.mem_map.mp hc2 with ⟨x, hx, hxe⟩
        subst hxe
        split
        · rw [ctrlFields_ccfId]; exact h1 x hx
        · exact h1 x hx
      | none =>
        have hup := upsertControl_new nfkc sid dres.2.db ccf dres.1 row
          (normalizeMappings row.mappings) hold
        rw [hup.2.1]
        intro c hc2
        rcases List.mem_append.mp hc2 with hx | hx
        · exact h1 c hx
        · rcases List.mem_singleton.mp hx with rfl
          rw [ctrlFields_ccfId]
          exact cleanTextWith_ne_nil nfkc row.ccfId ccf hc
    have hupe : ∀ e ∈ ures.2.evidence, e.refId ≠ [] := by
      cases hold : findControl dres.2.db sid ccf with
      | some old =>
        have hup := upsertControl_existing nfkc sid dres.2.db ccf dres.1 row
          (normalizeMappings row.mappings) old hold
        rw [hup.2.2.2.2.1]; exact h2
      | none =>
        have hup := upsertControl_new nfkc sid dres.2.db ccf dres.1 row
          (normalizeMappings row.mappings) hold
        rw [hup.2.2.2.2.1]; exact h2
    constructor
    · rw [hlframe.1]; exact hupc
    · rw [hlframe.2.1]; exact hupe

theorem ctrlPass_keys (nfkc : Str → Str) (sid : Nat) (lookup : List (Str × Nat)) :
    ∀ (rows : List CtrlInput) (st : SeedState), keysNonEmpty st.db →
    keysNonEmpty (ctrlPass nfkc sid lookup st rows).db := by
  intro rows
  induction rows with
  | nil => intro st h; exact h
  | cons row rest ih =>
    intro st h
    exact ih (ctrlStep nfkc sid lookup st row) (ctrlStep_keys nfkc sid lookup st row h)

/-- Seeding never stores an empty natural key. -/
theorem seed_keysNonEmpty (nfkc : Str → Str) (db : DB) (controls : List CtrlInput)
    (evidence : List EvInput) (name : Str) (a b c d : Option Str)
    (h : keysNonEmpty db) :
    keysNonEmpty (seedFromDataFrames nfkc db controls evidence name a b c d).1 := by
  have hg := getOrCreate_tables db name a b c d none
  set sid := (getOrCreateComplianceSource db name a b c d none).1 with hsid
  set db1 := (getOrCreateComplianceSource db name a b c d none).2 with hdb1
  have h1 : keysNonEmpty db1 := by
    constructor
    · rw [show db1.controls = db.controls from hg.1]; exact h.1
    · rw [show db1.evidence = db.evidence from hg.2.1]; exact h.2
  have h2 : keysNonEmpty (if evidence.isEmpty then (db1, 0)
      else evPass nfkc sid (db1, 0) evidence).1 := by
    by_cases hev : evidence.isEmpty
    · rw [if_pos hev]; exact h1
    · rw [if_neg hev]
      constructor
      · rw [evPass_controls nfkc sid evidence (db1, 0)]; exact h1.1
      · exact evPass_keys nfkc sid evidence (db1, 0) h1.2
  unfold seedFromDataFrames
  simp only []
  rw [← hsid, ← hdb1]
  by_cases hctrl : controls.isEmpty
  · rw [if_pos hctrl]
    exact h2
  · rw [if_neg hctrl]
    set lookup := if evidence.isEmpty then ([] : List (Str × Nat))
      else evidenceLookup (if evidence.isEmpty then (db1, 0)
        else evPass nfkc sid (db1, 0) evidence).1 sid with hlook
    set st := ctrlPass nfkc sid lookup
      ⟨(if evidence.isEmpty then (db1, 0) else evPass nfkc sid (db1, 0) evidence).1, [],
        ⟨0, (if evidence.isEmpty then (db1, 0) else evPass nfkc sid (db1, 0) evidence).2,
          0, 0, some sid⟩⟩ controls with hst
    have h3 : keysNonEmpty st.db :=
      ctrlPass_keys nfkc sid lookup controls _ h2
    have h4 := updateSourceCounts_tables st.db sid
    constructor
    · show ∀ c2 ∈ (updateSourceCounts st.db sid).controls, c2.ccfId ≠ []
      rw [h4.1]; exact h3.1
    · show ∀ e ∈ (updateSourceCounts st.db sid).evidence, e.refId ≠ []
      rw [h4.2.1]; exact h3.2

/-- C3: rows whose natural id cleans to null are dropped everywhere —
the Excel main loop skips them (its output is unchanged by removing
them, its length counts exactly the rows with a non-null cleaned id, and
every output row carries a non-empty id), the seeder's two passes skip
them (seeding a frame equals seeding the frame with null-key rows
removed), and seeding never stores a control or evidence row with an
empty natural key. -/
theorem c3_key_drop_invariant (nfkc : Str → Str) (colMap : List (Str × Str))
    (mappingCols : List Str) (guidance : List (Str × GuideEntry)) (rows : List DFRow)
    (sid : Nat) (lookup : List (Str × Nat)) (st : SeedState) (acc : DB × Nat)
    (crows : List CtrlInput) (erows : List EvInput) (db : DB) (sourceName : Str)
    (p1 p2 p3 p4 : Option Str) :
    (excelControlsRows nfkc colMap mappingCols guidance rows =
      excelControlsRows nfkc colMap mappingCols guidance
        (rows.filter (fun r => (cleanTextWith nfkc (excelRowId colMap r)).isSome))) ∧
    ((excelControlsRows nfkc colMap mappingCols guidance rows).length =
      rows.countP (fun r => (cleanTextWith nfkc (excelRowId colMap r)).isSome)) ∧
    (∀ out ∈ excelControlsRows nfkc colMap mappingCols guidance rows,
      ∃ s : Str, out.ccfId = vStr s ∧ s ≠ []) ∧
    (ctrlPass nfkc sid lookup st crows =
      ctrlPass nfkc sid lookup st (crows.filter (fun r => (cleanTextWith nfkc r.ccfId).isSome))) ∧
    (evPass nfkc sid acc erows =
      evPass nfkc sid acc (erows.filter (fun r => (cleanTextWith nfkc r.refId).isSome))) ∧
    (keysNonEmpty db →
      keysNonEmpty (seedFromDataFrames nfkc db crows erows sourceName p1 p2 p3 p4).1) :=
  ⟨excelControlsRows_filter nfkc colMap mappingCols guidance rows,
   excelControlsRows_length nfkc colMap mappingCols guidance rows,
   excelControlsRows_keys nfkc colMap mappingCols guidance rows,
   ctrlPass_filter nfkc sid lookup crows st,
   evPass_filter nfkc sid erows acc,
   seed_keysNonEmpty nfkc db crows erows sourceName p1 p2 p3 p4⟩

/-- Witness for C3: seeding a frame holding one null-keyed and one
proper row into the empty store leaves no empty natural key behind. -/
theorem c3_key_drop_invariant_witness :
    keysNonEmpty (seedFromDataFrames asciiNFKC emptyDB
      [⟨vNull, vNull, vNull, vNull, vNull, vNull, vNull, vNull, MVal.mNull, vNull⟩,
       ⟨vStr (S ("AC-1")), vNull, vNull, vNull, vNull, vNull, vNull, vNull, MVal.mNull, vNull⟩]
      [⟨vStr (S ("  ")), vNull, vNull⟩, ⟨vStr (S ("E-1")), vNull, vNull⟩]
      (S ("Frame")) none none none none).1 :=
  (c3_key_drop_invariant asciiNFKC [] [] [] [] 0 [] ⟨emptyDB, [], ⟨0, 0, 0, 0, none⟩⟩
    (emptyDB, 0)
    [⟨vNull, vNull, vNull, vNull, vNull, vNull, vNull, vNull, MVal.mNull, vNull⟩,
     ⟨vStr (S ("AC-1")), vNull, vNull, vNull, vNull, vNull, vNull, vNull, MVal.mNull, vNull⟩]
    [⟨vStr (S ("  ")), vNull, vNull⟩, ⟨vStr (S ("E-1")), vNull, vNull⟩]
    emptyDB (S ("Frame")) none none none none).2.2.2.2.2
    ⟨fun c hc => by simp [emptyDB] at hc, fun e he => by simp [emptyDB] at he⟩


-- ---------------------------------------------------------------------
-- Claim C1: seeding idempotence — infrastructure
-- ---------------------------------------------------------------------

/-- Identifier well-formedness of the controls table, the model of the
SQL primary key: distinct rows carry distinct identifiers, and the fresh
counter lies above all of them. -/
def wfIds (db : DB) : Prop :=
  db.controls.Pairwise (fun a b => a.id ≠ b.id) ∧ ∀ c ∈ db.controls, c.id < db.nextId

/-- Consistency of the per-run domain cache with the domain table: every
cached binding agrees with the stored row. -/
def cacheOK (sid : Nat) (st : SeedState) : Prop :=
  ∀ n i, cacheLookup st.cache n = some i →
    ∃ row, findDomain st.db sid n = some row ∧ row.id = i

theorem findDomain_append (db db' : DB) (sid : Nat) (n : Str) (ext : List DomainRow)
    (hext : db'.domains = db.domains ++ ext) (row : DomainRow)
    (h : findDomain db sid n = some row) : findDomain db' sid n = some row := by
  unfold findDomain at *
  rw [hext, List.find?_append, h]
  rfl

theorem cacheLookup_append (cache : List (Str × Nat)) (p : Str × Nat) (n : Str) :
    cacheLookup (cache ++ [p]) n =
      (match cacheLookup cache n with
       | some i => some i
       | none => if p.1 == n then some p.2 else none) := by
  unfold cacheLookup
  rw [List.find?_append]
  cases h : cache.find? (fun q => q.1 == n) with
  | some q => simp [h, Option.or]
  | none =>
    cases hp : (p.1 == n) with
    | true => simp [h, Option.or, List.find?, hp]
    | false => simp [h, Option.or, List.find?, hp]

/-- Domain resolution when the name is already stored: the stored row's
identifier is returned (through the cache or the table) and the store is
untouched. -/
theorem resolveDomain_hit (sid : Nat) (st : SeedState) (n : Str) (row0 : DomainRow)
    (hc : cacheOK sid st) (hf : findDomain st.db sid n = some row0) :
    (resolveDomain sid st (some n)).1 = some row0.id ∧
    (resolveDomain sid st (some n)).2.db = st.db ∧
    cacheOK sid (resolveDomain sid st (some n)).2 := by
  cases hcl : cacheLookup st.cache n with
  | some i =>
    obtain ⟨row, hrow, hid⟩ := hc n i hcl
    rw [hf] at hrow
    injection hrow with hrow
    subst hrow
    subst hid
    refine ⟨?_, ?_, ?_⟩
    · simp [resolveDomain, hcl]
    · simp [resolveDomain, hcl]
    · intro m j hm
      simp only [resolveDomain, hcl] at hm ⊢
      exact hc m j hm
  | none =>
    refine ⟨?_, ?_, ?_⟩
    · simp [resolveDomain, hcl, hf]
    · simp [resolveDomain, hcl, hf]
    · intro m j hm
      simp only [resolveDomain, hcl, hf] at hm ⊢
      rw [cacheLookup_append] at hm
      cases hm0 : cacheLookup st.cache m with
      | some j0 =>
        rw [hm0] at hm
        have hm' : some j0 = some j := hm
        injection hm' with hm'
        subst hm'
        exact hc m j0 hm0
      | none =>
        rw [hm0] at hm
        have hm' : (if (n == m) then some row0.id else none) = some j := hm
        by_cases hnm : n = m
        · subst hnm
          rw [if_pos (by simp)] at hm'
          injection hm' with hm'
          exact ⟨row0, hf, hm'⟩
        · rw [if_neg (by simpa using hnm)] at hm'
          exact absurd hm' (by simp)

/-- Domain resolution when the name is new: a fresh row is inserted and
its identifier returned. -/
theorem resolveDomain_miss (sid : Nat) (st : SeedState) (n : Str)
    (hc : cacheOK sid st) (hf : findDomain st.db sid n = none) :
    (resolveDomain sid st (some n)).1 = some st.db.nextId ∧
    (resolveDomain sid st (some n)).2.db.domains =
      st.db.domains ++ [⟨st.db.nextId, sid, n⟩] ∧
    (resolveDomain sid st (some n)).2.db.nextId = st.db.nextId + 1 ∧
    cacheOK sid (resolveDomain sid st (some n)).2 ∧
    findDomain (resolveDomain sid st (some n)).2.db sid n =
      some ⟨st.db.nextId, sid, n⟩ := by
  have hcl : cacheLookup st.cache n = none := by
    cases hcl : cacheLookup st.cache n with
    | none => rfl
    | some i =>
      obtain ⟨row, hrow, _⟩ := hc n i hcl
      rw [hf] at hrow
      exact absurd hrow (by simp)
  have hfindnew : findDomain (resolveDomain sid st (some n)).2.db sid n =
      some ⟨st.db.nextId, sid, n⟩ := by
    simp only [resolveDomain, hcl, hf]
    unfold findDomain at hf ⊢
    rw [List.find?_append, hf]
    simp [domKey, List.find?]
  refine ⟨by simp [resolveDomain, hcl, hf], by simp [resolveDomain, hcl, hf],
    by simp [resolveDomain, hcl, hf], ?_, hfindnew⟩
  intro m j hm
  simp only [resolveDomain, hcl, hf] at hm ⊢
  rw [cacheLookup_append] at hm
  cases hm0 : cacheLookup st.cache m with
  | some j0 =>
    rw [hm0] at hm
    have hm' : some j0 = some j := hm
    injection hm' with hm'
    subst hm'
    obtain ⟨row, hrow, hid⟩ := hc m j0 hm0
    refine ⟨row, ?_, hid⟩
    refine findDomain_append st.db _ sid m [⟨st.db.nextId, sid, n⟩] ?_ row hrow
    simp [resolveDomain, hcl, hf]
  | none =>
    rw [hm0] at hm
    have hm' : (if (n == m) then some st.db.nextId else none) = some j := hm
    by_cases hnm : n = m
    · subst hnm
      rw [if_pos (by simp)] at hm'
      injection hm' with hm'
      refine ⟨⟨st.db.nextId, sid, n⟩, ?_, hm'⟩
      have := hfindnew
      simpa only [resolveDomain, hcl, hf] using this
    · rw [if_neg (by simpa using hnm)] at hm'
      exact absurd hm' (by simp)

theorem resolveDomain_none (sid : Nat) (st : SeedState) :
    resolveDomain sid st none = (none, st) := rfl

/-- The domain id a row resolves to, read off the store: the id of the
stored `(source_id, name)` row, if any. -/
def domIdOf (db : DB) (sid : Nat) (dn : Option Str) : Option Nat :=
  dn.bind (fun n => (findDomain db sid n).map (fun row => row.id))

/-- The non-null cleaned keys of a controls frame, in order. -/
def keyList (nfkc : Str → Str) (C : List CtrlInput) : List Str :=
  C.filterMap (fun r => cleanTextWith nfkc r.ccfId)

/-- The last row of the frame carrying a given cleaned key. -/
def lastKeyed (nfkc : Str → Str) (c : Str) (C : List CtrlInput) : Option CtrlInput :=
  C.reverse.find? (fun r => cleanTextWith nfkc r.ccfId == some c)

theorem cacheOK_nil (sid : Nat) (st : SeedState) (h : st.cache = []) : cacheOK sid st := by
  intro n i hn
  rw [h] at hn
  simp [cacheLookup] at hn

theorem findDomain_congr (db db' : DB) (sid : Nat) (n : Str)
    (h : db'.domains = db.domains) : findDomain db' sid n = findDomain db sid n := by
  unfold findDomain
  rw [h]

theorem cacheOK_congr (sid : Nat) (st st' : SeedState) (hc : cacheOK sid st)
    (h1 : st'.cache = st.cache) (h2 : st'.db.domains = st.db.domains) :
    cacheOK sid st' := by
  intro n i hn
  rw [h1] at hn
  obtain ⟨row, hrow, hid⟩ := hc n i hn
  exact ⟨row, by rw [findDomain_congr st.db st'.db sid n h2]; exact hrow, hid⟩

theorem domIdOf_congr (db db' : DB) (sid : Nat) (dn : Option Str)
    (h : db'.domains = db.domains) : domIdOf db' sid dn = domIdOf db sid dn := by
  cases dn with
  | none => rfl
  | some n => simp [domIdOf, findDomain_congr db db' sid n h]

theorem resolveDomain_sound (sid : Nat) (st : SeedState) (dn : Option Str)
    (hc : cacheOK sid st) :
    (resolveDomain sid st dn).1 = domIdOf (resolveDomain sid st dn).2.db sid dn := by
  cases dn with
  | none => rfl
  | some n =>
    cases hf : findDomain st.db sid n with
    | some row0 =>
      obtain ⟨h1, h2, _⟩ := resolveDomain_hit sid st n row0 hc hf
      rw [h1]
      simp [domIdOf, h2, hf]
    | none =>
      obtain ⟨h1, _, _, _, h5⟩ := resolveDomain_miss sid st n hc hf
      rw [h1]
      simp [domIdOf, h5]

theorem resolveDomain_cacheOK (sid : Nat) (st : SeedState) (dn : Option Str)
    (hc : cacheOK sid st) : cacheOK sid (resolveDomain sid st dn).2 := by
  cases dn with
  | none => exact hc
  | some n =>
    cases hf : findDomain st.db sid n with
    | some row0 => exact (resolveDomain_hit sid st n row0 hc hf).2.2
    | none => exact (resolveDomain_miss sid st n hc hf).2.2.2.1

theorem resolveDomain_domains_ext (sid : Nat) (st : SeedState) (dn : Option Str) :
    ∃ ext, (resolveDomain sid st dn).2.db.domains = st.db.domains ++ ext := by
  cases dn with
  | none => exact ⟨[], by rw [resolveDomain_none]; simp⟩
  | some d =>
    cases hcl : cacheLookup st.cache d with
    | some did => exact ⟨[], by simp [resolveDomain, hcl]⟩
    | none =>
      cases hfd : findDomain st.db sid d with
      | some r => exact ⟨[], by simp [resolveDomain, hcl, hfd]⟩
      | none => exact ⟨[⟨st.db.nextId, sid, d⟩], by simp [resolveDomain, hcl, hfd]⟩

theorem resolveDomain_nextId_mono (sid : Nat) (st : SeedState) (dn : Option Str) :
    st.db.nextId ≤ (resolveDomain sid st dn).2.db.nextId := by
  cases dn with
  | none => exact Nat.le_refl _
  | some d =>
    cases hcl : cacheLookup st.cache d with
    | some did => simp [resolveDomain, hcl]
    | none =>
      cases hfd : findDomain st.db sid d with
      | some r => simp [resolveDomain, hcl, hfd]
      | none => simp [resolveDomain, hcl, hfd]

theorem ctrlStep_eq (nfkc : Str → Str) (sid : Nat) (lookup : List (Str × Nat))
    (st : SeedState) (row : CtrlInput) (ccf : Str)
    (hccf : cleanTextWith nfkc row.ccfId = some ccf) :
    ctrlStep nfkc sid lookup st row =
      (let dres := resolveDomain sid st (cleanTextWith nfkc row.domain)
       let ures := upsertControl nfkc sid dres.2.db ccf dres.1 row
         (normalizeMappings row.mappings)
       let lres := linkEvidence lookup ures.1 ures.2 (artifactRefs nfkc row.artifacts)
       {dres.2 with
         db := lres.1,
         stats := {dres.2.stats with
           controlsImported := dres.2.stats.controlsImported + 1,
           evidenceLinks := dres.2.stats.evidenceLinks + lres.2}}) := by
  unfold ctrlStep
  rw [hccf]

theorem ctrlFields_ext (nfkc : Str → Str) (row : CtrlInput) (domId : Option Nat)
    (mj : Str) (a b : ControlRow) (h1 : a.id = b.id) (h2 : a.sourceId = b.sourceId)
    (h3 : a.ccfId = b.ccfId) :
    ctrlFields nfkc row domId mj a = ctrlFields nfkc row domId mj b := by
  cases a
  cases b
  simp_all [ctrlFields]

theorem ctrlFields_absorb (nfkc : Str → Str) (row : CtrlInput) (domId : Option Nat)
    (mj : Str) (c : ControlRow) :
    ctrlFields nfkc row domId mj (ctrlFields nfkc row domId mj c) =
      ctrlFields nfkc row domId mj c :=
  ctrlFields_ext nfkc row domId mj _ c rfl rfl rfl

/-- An in-place update targeted at one identifier moves `find?` to the
image of the old result: the update never changes a row's key. -/
theorem findControl_map_upd (nfkc : Str → Str) (row : CtrlInput) (domId : Option Nat)
    (mj : Str) (i0 sid' : Nat) (c : Str) (l : List ControlRow) :
    (l.map (fun x => if x.id = i0 then ctrlFields nfkc row domId mj x else x)).find?
        (ctrlKey sid' c) =
      (l.find? (ctrlKey sid' c)).map
        (fun x => if x.id = i0 then ctrlFields nfkc row domId mj x else x) := by
  rw [List.find?_map]
  have hp : (ctrlKey sid' c ∘ fun x => if x.id = i0 then ctrlFields nfkc row domId mj x else x) =
      ctrlKey sid' c := by
    funext x
    show ctrlKey sid' c (if x.id = i0 then ctrlFields nfkc row domId mj x else x) =
      ctrlKey sid' c x
    split
    · exact ctrlKey_ctrlFields nfkc row domId mj sid' c x
    · rfl
  rw [hp]

theorem find?_decomp {α : Type} (p : α → Bool) : ∀ (l : List α) (x : α),
    l.find? p = some x →
    ∃ pre post, l = pre ++ x :: post ∧ ∀ y ∈ pre, p y = false := by
  intro l
  induction l with
  | nil => intro x h; simp at h
  | cons a t ih =>
    intro x h
    cases hp : p a with
    | true =>
      rw [List.find?_cons_of_pos _ hp] at h
      injection h with h
      subst h
      exact ⟨[], t, rfl, by simp⟩
    | false =>
      rw [List.find?_cons_of_neg _ (by simp [hp])] at h
      obtain ⟨pre, post, heq, hpre⟩ := ih x h
      refine ⟨a :: pre, post, by rw [heq]; rfl, ?_⟩
      intro y hy
      cases List.mem_cons.mp hy with
      | inl h0 => subst h0; exact hp
      | inr h0 => exact hpre y h0

theorem wfIds_congr (db db' : DB) (h : wfIds db) (hc : db'.controls = db.controls)
    (hn : db.nextId ≤ db'.nextId) : wfIds db' := by
  constructor
  · rw [hc]; exact h.1
  · intro c hcc
    rw [hc] at hcc
    exact lt_of_lt_of_le (h.2 c hcc) hn

theorem wfIds_map_upd (db db' : DB) (nfkc : Str → Str) (row : CtrlInput)
    (domId : Option Nat) (mj : Str) (i0 : Nat) (h : wfIds db)
    (hc : db'.controls =
      db.controls.map (fun x => if x.id = i0 then ctrlFields nfkc row domId mj x else x))
    (hn : db.nextId ≤ db'.nextId) : wfIds db' := by
  have hid : ∀ x : ControlRow,
      (if x.id = i0 then ctrlFields nfkc row domId mj x else x).id = x.id := by
    intro x
    split
    · exact ctrlFields_id nfkc row domId mj x
    · rfl
  constructor
  · rw [hc, List.pairwise_map]
    refine h.1.imp ?_
    intro a b hab
    rw [hid a, hid b]
    exact hab
  · intro c hcc
    rw [hc] at hcc
    rcases List.mem_map.mp hcc with ⟨x, hx, hxe⟩
    subst hxe
    rw [hid x]
    exact lt_of_lt_of_le (h.2 x hx) hn

theorem wfIds_append_fresh (db db' : DB) (x : ControlRow) (h : wfIds db)
    (hc : db'.controls = db.controls ++ [x]) (hx : x.id = db.nextId)
    (hn : db.nextId + 1 ≤ db'.nextId) : wfIds db' := by
  constructor
  · rw [hc, List.pairwise_append]
    refine ⟨h.1, by simp, ?_⟩
    intro a ha b hb
    rcases List.mem_singleton.mp hb with rfl
    rw [hx]
    exact Nat.ne_of_lt (h.2 a ha)
  · intro c hcc
    rw [hc] at hcc
    rcases List.mem_append.mp hcc with hcc | hcc
    · exact lt_of_lt_of_le (Nat.lt_succ_of_lt (h.2 c hcc)) hn
    · rcases List.mem_singleton.mp hcc with rfl
      rw [hx]
      exact lt_of_lt_of_le (Nat.lt_succ_self _) hn

theorem upsertControl_frame (nfkc : Str → Str) (sid : Nat) (db : DB) (ccf : Str)
    (domId : Option Nat) (row : CtrlInput) (mj : Str) :
    (upsertControl nfkc sid db ccf domId row mj).2.domains = db.domains ∧
    (upsertControl nfkc sid db ccf domId row mj).2.evidence = db.evidence ∧
    (upsertControl nfkc sid db ccf domId row mj).2.sources = db.sources ∧
    (upsertControl nfkc sid db ccf domId row mj).2.importHistory = db.importHistory ∧
    db.nextId ≤ (upsertControl nfkc sid db ccf domId row mj).2.nextId := by
  unfold upsertControl
  cases h : findControl db sid ccf with
  | some old => exact ⟨rfl, rfl, rfl, rfl, Nat.le_refl _⟩
  | none => exact ⟨rfl, rfl, rfl, rfl, Nat.le_succ _⟩

theorem ctrlStep_frame (nfkc : Str → Str) (sid : Nat) (L : List (Str × Nat))
    (st : SeedState) (row : CtrlInput) :
    (∃ ext, (ctrlStep nfkc sid L st row).db.domains = st.db.domains ++ ext) ∧
    st.db.nextId ≤ (ctrlStep nfkc sid L st row).db.nextId ∧
    (ctrlStep nfkc sid L st row).db.evidence = st.db.evidence ∧
    (ctrlStep nfkc sid L st row).db.sources = st.db.sources ∧
    (ctrlStep nfkc sid L st row).db.importHistory = st.db.importHistory := by
  cases hccf : cleanTextWith nfkc row.ccfId with
  | none =>
    rw [ctrlStep_skip nfkc sid L st row hccf]
    exact ⟨⟨[], by simp⟩, Nat.le_refl _, rfl, rfl, rfl⟩
  | some ccf =>
    rw [ctrlStep_eq nfkc sid L st row ccf hccf]
    set dres := resolveDomain sid st (cleanTextWith nfkc row.domain) with hdres
    set ures := upsertControl nfkc sid dres.2.db ccf dres.1 row
      (normalizeMappings row.mappings) with hures
    have hrext := resolveDomain_domains_ext sid st (cleanTextWith nfkc row.domain)
    have hrn := resolveDomain_nextId_mono sid st (cleanTextWith nfkc row.domain)
    have hrf := resolveDomain_db_controls sid st (cleanTextWith nfkc row.domain)
    have huf := upsertControl_frame nfkc sid dres.2.db ccf dres.1 row
      (normalizeMappings row.mappings)
    have hlf := linkEvidence_frame L ures.1 (artifactRefs nfkc row.artifacts) ures.2
    refine ⟨?_, ?_, ?_, ?_, ?_⟩
    · obtain ⟨ext, hext⟩ := hrext
      refine ⟨ext, ?_⟩
      show (linkEvidence L ures.1 ures.2 (artifactRefs nfkc row.artifacts)).1.domains = _
      rw [hlf.2.2.1, huf.1, hext]
    · show st.db.nextId ≤
        (linkEvidence L ures.1 ures.2 (artifactRefs nfkc row.artifacts)).1.nextId
      rw [hlf.2.2.2.2.2]
      exact le_trans hrn huf.2.2.2.2
    · show (linkEvidence L ures.1 ures.2 (artifactRefs nfkc row.artifacts)).1.evidence = _
      rw [hlf.2.1, huf.2.1, hrf.2.2.1]
    · show (linkEvidence L ures.1 ures.2 (artifactRefs nfkc row.artifacts)).1.sources = _
      rw [hlf.2.2.2.1, huf.2.2.1, hrf.2.2.2.1]
    · show (linkEvidence L ures.1 ures.2 (artifactRefs nfkc row.artifacts)).1.importHistory = _
      rw [hlf.2.2.2.2.1, huf.2.2.2.1, hrf.2.2.2.2]

theorem ctrlStep_cacheOK (nfkc : Str → Str) (sid : Nat) (L : List (Str × Nat))
    (st : SeedState) (row : CtrlInput) (hc : cacheOK sid st) :
    cacheOK sid (ctrlStep nfkc sid L st row) := by
  cases hccf : cleanTextWith nfkc row.ccfId with
  | none =>
    rw [ctrlStep_skip nfkc sid L st row hccf]
    exact hc
  | some ccf =>
    rw [ctrlStep_eq nfkc sid L st row ccf hccf]
    set dres := resolveDomain sid st (cleanTextWith nfkc row.domain) with hdres
    set ures := upsertControl nfkc sid dres.2.db ccf dres.1 row
      (normalizeMappings row.mappings) with hures
    have hrc := resolveDomain_cacheOK sid st (cleanTextWith nfkc row.domain) hc
    have huf := upsertControl_frame nfkc sid dres.2.db ccf dres.1 row
      (normalizeMappings row.mappings)
    have hlf := linkEvidence_frame L ures.1 (artifactRefs nfkc row.artifacts) ures.2
    refine cacheOK_congr sid dres.2 _ hrc rfl ?_
    show (linkEvidence L ures.1 ures.2 (artifactRefs nfkc row.artifacts)).1.domains =
      dres.2.db.domains
    rw [hlf.2.2.1, huf.1]

theorem ctrlStep_wfIds (nfkc : Str → Str) (sid : Nat) (L : List (Str × Nat))
    (st : SeedState) (row : CtrlInput) (h : wfIds st.db) :
    wfIds (ctrlStep nfkc sid L st row).db := by
  cases hccf : cleanTextWith nfkc row.ccfId with
  | none =>
    rw [ctrlStep_skip nfkc sid L st row hccf]
    exact h
  | some ccf =>
    rw [ctrlStep_eq nfkc sid L st row ccf hccf]
    set dres := resolveDomain sid st (cleanTextWith nfkc row.domain) with hdres
    set ures := upsertControl nfkc sid dres.2.db ccf dres.1 row
      (normalizeMappings row.mappings) with hures
    have hrf := resolveDomain_db_controls sid st (cleanTextWith nfkc row.domain)
    have hrn := resolveDomain_nextId_mono sid st (cleanTextWith nfkc row.domain)
    have hlf := linkEvidence_frame L ures.1 (artifactRefs nfkc row.artifacts) ures.2
    have h1 : wfIds dres.2.db := wfIds_congr st.db dres.2.db h hrf.1 hrn
    show wfIds (linkEvidence L ures.1 ures.2 (artifactRefs nfkc row.artifacts)).1
    cases hold : findControl dres.2.db sid ccf with
    | some old =>
      have hup := upsertControl_existing nfkc sid dres.2.db ccf dres.1 row
        (normalizeMappings row.mappings) old hold
      refine wfIds_map_upd dres.2.db _ nfkc row dres.1 (normalizeMappings row.mappings)
        old.id h1 ?_ ?_
      · rw [hlf.1]
        exact hup.2.2.1
      · rw [hlf.2.2.2.2.2, hup.2.2.2.2.2.2.2.2]
    | none =>
      have hup := upsertControl_new nfkc sid dres.2.db ccf dres.1 row
        (normalizeMappings row.mappings) hold
      refine wfIds_append_fresh dres.2.db _
        (ctrlFields nfkc row dres.1 (normalizeMappings row.mappings)
          ⟨dres.2.db.nextId, sid, ccf, none, none, none, none, none, none, none, []⟩)
        h1 ?_ (ctrlFields_id nfkc row dres.1 (normalizeMappings row.mappings) _) ?_
      · rw [hlf.1]
        exact hup.2.1
      · rw [hlf.2.2.2.2.2, hup.2.2.2.2.2.2.2.2]

theorem findControl_isSome_step (nfkc : Str → Str) (sid : Nat) (L : List (Str × Nat))
    (st : SeedState) (row : CtrlInput) (sid' : Nat) (c : Str)
    (h : findControl st.db sid' c ≠ none) :
    findControl (ctrlStep nfkc sid L st row).db sid' c ≠ none := by
  cases hccf : cleanTextWith nfkc row.ccfId with
  | none =>
    rw [ctrlStep_skip nfkc sid L st row hccf]
    exact h
  | some ccf =>
    rw [ctrlStep_eq nfkc sid L st row ccf hccf]
    set dres := resolveDomain sid st (cleanTextWith nfkc row.domain) with hdres
    set ures := upsertControl nfkc sid dres.2.db ccf dres.1 row
      (normalizeMappings row.mappings) with hures
    have hrf := resolveDomain_db_controls sid st (cleanTextWith nfkc row.domain)
    have hlf := linkEvidence_frame L ures.1 (artifactRefs nfkc row.artifacts) ures.2
    have h1 : findControl dres.2.db sid' c ≠ none := by
      unfold findControl
      rw [hrf.1]
      exact h
    show findControl (linkEvidence L ures.1 ures.2 (artifactRefs nfkc row.artifacts)).1 sid' c
      ≠ none
    have h2 : findControl (linkEvidence L ures.1 ures.2 (artifactRefs nfkc row.artifacts)).1
        sid' c = findControl ures.2 sid' c := by
      unfold findControl
      rw [hlf.1]
    rw [h2]
    cases hold : findControl dres.2.db sid ccf with
    | some old =>
      have hup := upsertControl_existing nfkc sid dres.2.db ccf dres.1 row
        (normalizeMappings row.mappings) old hold
      unfold findControl
      rw [hup.2.2.1, findControl_map_upd]
      unfold findControl at h1
      cases hf : dres.2.db.controls.find? (ctrlKey sid' c) with
      | none => exact absurd hf h1
      | some y => simp
    | none =>
      have hup := upsertControl_new nfkc sid dres.2.db ccf dres.1 row
        (normalizeMappings row.mappings) hold
      unfold findControl
      rw [hup.2.1, List.find?_append]
      unfold findControl at h1
      cases hf : dres.2.db.controls.find? (ctrlKey sid' c) with
      | none => exact absurd hf h1
      | some y => simp [Option.or]

theorem findDomain_stable_step (nfkc : Str → Str) (sid : Nat) (L : List (Str × Nat))
    (st : SeedState) (row : CtrlInput) (n : Str) (d : DomainRow)
    (h : findDomain st.db sid n = some d) :
    findDomain (ctrlStep nfkc sid L st row).db sid n = some d := by
  obtain ⟨ext, hext⟩ := (ctrlStep_frame nfkc sid L st row).1
  exact findDomain_append st.db _ sid n ext hext d h

theorem ctrlPass_cacheOK (nfkc : Str → Str) (sid : Nat) (L : List (Str × Nat)) :
    ∀ (C : List CtrlInput) (st : SeedState), cacheOK sid st →
    cacheOK sid (ctrlPass nfkc sid L st C) := by
  intro C
  induction C with
  | nil => intro st h; exact h
  | cons r rest ih =>
    intro st h
    exact ih (ctrlStep nfkc sid L st r) (ctrlStep_cacheOK nfkc sid L st r h)

theorem ctrlPass_wfIds (nfkc : Str → Str) (sid : Nat) (L : List (Str × Nat)) :
    ∀ (C : List CtrlInput) (st : SeedState), wfIds st.db →
    wfIds (ctrlPass nfkc sid L st C).db := by
  intro C
  induction C with
  | nil => intro st h; exact h
  | cons r rest ih =>
    intro st h
    exact ih (ctrlStep nfkc sid L st r) (ctrlStep_wfIds nfkc sid L st r h)

theorem ctrlPass_frame (nfkc : Str → Str) (sid : Nat) (L : List (Str × Nat)) :
    ∀ (C : List CtrlInput) (st : SeedState),
    (∃ ext, (ctrlPass nfkc sid L st C).db.domains = st.db.domains ++ ext) ∧
    st.db.nextId ≤ (ctrlPass nfkc sid L st C).db.nextId ∧
    (ctrlPass nfkc sid L st C).db.evidence = st.db.evidence ∧
    (ctrlPass nfkc sid L st C).db.sources = st.db.sources ∧
    (ctrlPass nfkc sid L st C).db.importHistory = st.db.importHistory := by
  intro C
  induction C with
  | nil => intro st; exact ⟨⟨[], (List.append_nil _).symm⟩, Nat.le_refl _, rfl, rfl, rfl⟩
  | cons r rest ih =>
    intro st
    have hs := ctrlStep_frame nfkc sid L st r
    have hp := ih (ctrlStep nfkc sid L st r)
    refine ⟨?_, ?_, ?_, ?_, ?_⟩
    · obtain ⟨e1, he1⟩ := hs.1
      obtain ⟨e2, he2⟩ := hp.1
      exact ⟨e1 ++ e2, by
        show (ctrlPass nfkc sid L (ctrlStep nfkc sid L st r) rest).db.domains = _
        rw [he2, he1, List.append_assoc]⟩
    · exact le_trans hs.2.1 hp.2.1
    · show (ctrlPass nfkc sid L (ctrlStep nfkc sid L st r) rest).db.evidence = _
      rw [hp.2.2.1, hs.2.2.1]
    · show (ctrlPass nfkc sid L (ctrlStep nfkc sid L st r) rest).db.sources = _
      rw [hp.2.2.2.1, hs.2.2.2.1]
    · show (ctrlPass nfkc sid L (ctrlStep nfkc sid L st r) rest).db.importHistory = _
      rw [hp.2.2.2.2, hs.2.2.2.2]

theorem findDomain_stable_pass (nfkc : Str → Str) (sid : Nat) (L : List (Str × Nat))
    (C : List CtrlInput) (st : SeedState) (n : Str) (d : DomainRow)
    (h : findDomain st.db sid n = some d) :
    findDomain (ctrlPass nfkc sid L st C).db sid n = some d := by
  obtain ⟨ext, hext⟩ := (ctrlPass_frame nfkc sid L C st).1
  exact findDomain_append st.db _ sid n ext hext d h

theorem findControl_isSome_pass (nfkc : Str → Str) (sid : Nat) (L : List (Str × Nat)) :
    ∀ (C : List CtrlInput) (st : SeedState) (sid' : Nat) (c : Str),
    findControl st.db sid' c ≠ none →
    findControl (ctrlPass nfkc sid L st C).db sid' c ≠ none := by
  intro C
  induction C with
  | nil => intro st sid' c h; exact h
  | cons r rest ih =>
    intro st sid' c h
    exact ih (ctrlStep nfkc sid L st r) sid' c
      (findControl_isSome_step nfkc sid L st r sid' c h)

/-- After the step on a keyed row, the row's domain name (if any) is
stored. -/
theorem ctrlStep_domSat_self (nfkc : Str → Str) (sid : Nat) (L : List (Str × Nat))
    (st : SeedState) (row : CtrlInput) (ccf n : Str) (hc : cacheOK sid st)
    (hccf : cleanTextWith nfkc row.ccfId = some ccf)
    (hdn : cleanTextWith nfkc row.domain = some n) :
    findDomain (ctrlStep nfkc sid L st row).db sid n ≠ none := by
  rw [ctrlStep_eq nfkc sid L st row ccf hccf, hdn]
  set dres := resolveDomain sid st (some n) with hdres
  set ures := upsertControl nfkc sid dres.2.db ccf dres.1 row
    (normalizeMappings row.mappings) with hures
  have huf := upsertControl_frame nfkc sid dres.2.db ccf dres.1 row
    (normalizeMappings row.mappings)
  have hlf := linkEvidence_frame L ures.1 (artifactRefs nfkc row.artifacts) ures.2
  have hdomeq : (linkEvidence L ures.1 ures.2 (artifactRefs nfkc row.artifacts)).1.domains =
      dres.2.db.domains := by
    rw [hlf.2.2.1, huf.1]
  show findDomain (linkEvidence L ures.1 ures.2 (artifactRefs nfkc row.artifacts)).1 sid n
    ≠ none
  rw [findDomain_congr dres.2.db _ sid n hdomeq]
  cases hf : findDomain st.db sid n with
  | some d =>
    obtain ⟨_, h2, _⟩ := resolveDomain_hit sid st n d hc hf
    rw [hdres, h2, hf]
    simp
  | none =>
    have hm := resolveDomain_miss sid st n hc hf
    rw [hdres, hm.2.2.2.2]
    simp

/-- Domain saturation: after the controls pass, the domain name of every
keyed frame row is stored. -/
theorem ctrlPass_domSat (nfkc : Str → Str) (sid : Nat) (L : List (Str × Nat)) :
    ∀ (C : List CtrlInput) (st : SeedState), cacheOK sid st →
    ∀ r ∈ C, ∀ ccf n, cleanTextWith nfkc r.ccfId = some ccf →
      cleanTextWith nfkc r.domain = some n →
      findDomain (ctrlPass nfkc sid L st C).db sid n ≠ none := by
  intro C
  induction C with
  | nil => intro st _ r hr; simp at hr
  | cons r0 rest ih =>
    intro st hc r hr ccf n hccf hdn
    cases List.mem_cons.mp hr with
    | inl h0 =>
      subst h0
      have h1 := ctrlStep_domSat_self nfkc sid L st r ccf n hc hccf hdn
      cases hfd : findDomain (ctrlStep nfkc sid L st r).db sid n with
      | none => exact absurd hfd h1
      | some d =>
        show findDomain (ctrlPass nfkc sid L (ctrlStep nfkc sid L st r) rest).db sid n ≠ none
        rw [findDomain_stable_pass nfkc sid L rest (ctrlStep nfkc sid L st r) n d hfd]
        simp
    | inr h0 =>
      exact ih (ctrlStep nfkc sid L st r0) (ctrlStep_cacheOK nfkc sid L st r0 hc)
        r h0 ccf n hccf hdn

/-- Key saturation: after the controls pass, every keyed frame row's
control is stored. -/
theorem ctrlPass_keySat (nfkc : Str → Str) (sid : Nat) (L : List (Str × Nat)) :
    ∀ (C : List CtrlInput) (st : SeedState),
    ∀ r ∈ C, ∀ ccf, cleanTextWith nfkc r.ccfId = some ccf →
      findControl (ctrlPass nfkc sid L st C).db sid ccf ≠ none := by
  intro C
  induction C with
  | nil => intro st r hr; simp at hr
  | cons r0 rest ih =>
    intro st r hr ccf hccf
    cases List.mem_cons.mp hr with
    | inl h0 =>
      subst h0
      obtain ⟨x, hx, _⟩ := ctrlStep_upserts nfkc sid L st r ccf hccf
      refine findControl_isSome_pass nfkc sid L rest (ctrlStep nfkc sid L st r) sid ccf ?_
      rw [hx]
      simp
    | inr h0 =>
      exact ih (ctrlStep nfkc sid L st r0) r h0 ccf hccf

/-- Characterization of the step on a keyed row whose control key is
already stored and whose domain name (if any) is already stored: the
controls table is updated in place at the stored row's identifier with
the values read off the store, and domains and the fresh counter are
untouched. -/
theorem ctrlStep_present (nfkc : Str → Str) (sid : Nat) (L : List (Str × Nat))
    (st : SeedState) (row : CtrlInput) (ccf : Str) (old : ControlRow)
    (hccf : cleanTextWith nfkc row.ccfId = some ccf)
    (hc : cacheOK sid st)
    (hdom : ∀ n, cleanTextWith nfkc row.domain = some n → findDomain st.db sid n ≠ none)
    (hold : findControl st.db sid ccf = some old) :
    (ctrlStep nfkc sid L st row).db.controls =
      st.db.controls.map (fun c => if c.id = old.id then
        ctrlFields nfkc row (domIdOf st.db sid (cleanTextWith nfkc row.domain))
          (normalizeMappings row.mappings) c else c) ∧
    (ctrlStep nfkc sid L st row).db.domains = st.db.domains ∧
    (ctrlStep nfkc sid L st row).db.nextId = st.db.nextId := by
  rw [ctrlStep_eq nfkc sid L st row ccf hccf]
  set dres := resolveDomain sid st (cleanTextWith nfkc row.domain) with hdres
  have hkey : dres.2.db = st.db ∧
      dres.1 = domIdOf st.db sid (cleanTextWith nfkc row.domain) := by
    cases hdn : cleanTextWith nfkc row.domain with
    | none =>
      rw [hdres, hdn, resolveDomain_none]
      exact ⟨rfl, rfl⟩
    | some n =>
      cases hfd : findDomain st.db sid n with
      | none => exact absurd hfd (hdom n hdn)
      | some d =>
        have hh := resolveDomain_hit sid st n d hc hfd
        rw [hdres, hdn]
        refine ⟨hh.2.1, ?_⟩
        rw [hh.1]
        simp [domIdOf, hfd]
  set ures := upsertControl nfkc sid dres.2.db ccf dres.1 row
    (normalizeMappings row.mappings) with hures
  have hold1 : findControl dres.2.db sid ccf = some old := by
    rw [hkey.1]
    exact hold
  have hup := upsertControl_existing nfkc sid dres.2.db ccf dres.1 row
    (normalizeMappings row.mappings) old hold1
  have hlf := linkEvidence_frame L ures.1 (artifactRefs nfkc row.artifacts) ures.2
  refine ⟨?_, ?_, ?_⟩
  · show (linkEvidence L ures.1 ures.2 (artifactRefs nfkc row.artifacts)).1.controls = _
    rw [hlf.1, hup.2.2.1, hkey.1, hkey.2]
  · show (linkEvidence L ures.1 ures.2 (artifactRefs nfkc row.artifacts)).1.domains = _
    rw [hlf.2.2.1, hup.2.2.2.2.2.1, hkey.1]
  · show (linkEvidence L ures.1 ures.2 (artifactRefs nfkc row.artifacts)).1.nextId = _
    rw [hlf.2.2.2.2.2, hup.2.2.2.2.2.2.2.2, hkey.1]

theorem ctrlPass_snoc (nfkc : Str → Str) (sid : Nat) (L : List (Str × Nat))
    (st : SeedState) (D : List CtrlInput) (r : CtrlInput) :
    ctrlPass nfkc sid L st (D ++ [r]) =
      ctrlStep nfkc sid L (ctrlPass nfkc sid L st D) r := by
  unfold ctrlPass
  rw [List.foldl_append]
  rfl

theorem lastKeyed_snoc_self (nfkc : Str → Str) (c : Str) (D : List CtrlInput)
    (r0 : CtrlInput) (h : cleanTextWith nfkc r0.ccfId = some c) :
    lastKeyed nfkc c (D ++ [r0]) = some r0 := by
  unfold lastKeyed
  rw [List.reverse_append]
  show (r0 :: D.reverse).find? _ = _
  rw [List.find?_cons_of_pos _ (by simp [h])]

theorem lastKeyed_snoc_other (nfkc : Str → Str) (c : Str) (D : List CtrlInput)
    (r0 : CtrlInput) (h : cleanTextWith nfkc r0.ccfId ≠ some c) :
    lastKeyed nfkc c (D ++ [r0]) = lastKeyed nfkc c D := by
  unfold lastKeyed
  rw [List.reverse_append]
  show (r0 :: D.reverse).find? _ = _
  rw [List.find?_cons_of_neg _ (by simp [h])]

theorem lastKeyed_mem_keyed (nfkc : Str → Str) (c : Str) (C : List CtrlInput)
    (r' : CtrlInput) (h : lastKeyed nfkc c C = some r') :
    r' ∈ C ∧ cleanTextWith nfkc r'.ccfId = some c := by
  unfold lastKeyed at h
  constructor
  · exact List.mem_reverse.mp (List.mem_of_find?_eq_some h)
  · have := List.find?_some h
    simpa using this

theorem pairwise_ne_ids : ∀ (l : List ControlRow),
    l.Pairwise (fun a b => a.id ≠ b.id) →
    ∀ x ∈ l, ∀ y ∈ l, x ≠ y → x.id ≠ y.id := by
  intro l
  induction l with
  | nil => intro _ x hx; simp at hx
  | cons a t ih =>
    intro hp x hx y hy hxy
    have hp' := List.pairwise_cons.mp hp
    cases List.mem_cons.mp hx with
    | inl h0 =>
      subst h0
      cases List.mem_cons.mp hy with
      | inl h1 => exact absurd h1.symm hxy
      | inr h1 => exact hp'.1 y h1
    | inr h0 =>
      cases List.mem_cons.mp hy with
      | inl h1 =>
        subst h1
        exact fun he => (hp'.1 x h0) he.symm
      | inr h1 => exact ih hp'.2 x h0 y h1 hxy

theorem findControl_mem_keyed (db : DB) (sid : Nat) (c : Str) (x : ControlRow)
    (h : findControl db sid c = some x) :
    x ∈ db.controls ∧ x.sourceId = sid ∧ x.ccfId = c := by
  unfold findControl at h
  have h1 := List.mem_of_find?_eq_some h
  have h2 := List.find?_some h
  unfold ctrlKey at h2
  simp at h2
  exact ⟨h1, h2.1, h2.2⟩

/-- The step on a keyed row stores a control under that key whose value
is a fixed point of the write the row prescribes, read off the resulting
store. -/
theorem ctrlStep_writes (nfkc : Str → Str) (sid : Nat) (L : List (Str × Nat))
    (st : SeedState) (row : CtrlInput) (ccf : Str)
    (hccf : cleanTextWith nfkc row.ccfId = some ccf) (hc : cacheOK sid st) :
    ∃ x, findControl (ctrlStep nfkc sid L st row).db sid ccf = some x ∧
      ctrlFields nfkc row
        (domIdOf (ctrlStep nfkc sid L st row).db sid (cleanTextWith nfkc row.domain))
        (normalizeMappings row.mappings) x = x := by
  rw [ctrlStep_eq nfkc sid L st row ccf hccf]
  set dres := resolveDomain sid st (cleanTextWith nfkc row.domain) with hdres
  set ures := upsertControl nfkc sid dres.2.db ccf dres.1 row
    (normalizeMappings row.mappings) with hures
  have hsound : dres.1 = domIdOf dres.2.db sid (cleanTextWith nfkc row.domain) :=
    resolveDomain_sound sid st (cleanTextWith nfkc row.domain) hc
  have huf := upsertControl_frame nfkc sid dres.2.db ccf dres.1 row
    (normalizeMappings row.mappings)
  have hlf := linkEvidence_frame L ures.1 (artifactRefs nfkc row.artifacts) ures.2
  have hdomeq : (linkEvidence L ures.1 ures.2 (artifactRefs nfkc row.artifacts)).1.domains =
      dres.2.db.domains := by
    rw [hlf.2.2.1, huf.1]
  have hdid : domIdOf (linkEvidence L ures.1 ures.2 (artifactRefs nfkc row.artifacts)).1 sid
      (cleanTextWith nfkc row.domain) = dres.1 := by
    rw [domIdOf_congr dres.2.db _ sid _ hdomeq]
    exact hsound.symm
  have hfc : findControl (linkEvidence L ures.1 ures.2 (artifactRefs nfkc row.artifacts)).1
      sid ccf = findControl ures.2 sid ccf := by
    unfold findControl
    rw [hlf.1]
  cases hold : findControl dres.2.db sid ccf with
  | some old =>
    have hup := upsertControl_existing nfkc sid dres.2.db ccf dres.1 row
      (normalizeMappings row.mappings) old hold
    refine ⟨ctrlFields nfkc row dres.1 (normalizeMappings row.mappings) old, ?_, ?_⟩
    · show findControl (linkEvidence L ures.1 ures.2 (artifactRefs nfkc row.artifacts)).1
        sid ccf = _
      rw [hfc]
      exact hup.2.1
    · show ctrlFields nfkc row
        (domIdOf (linkEvidence L ures.1 ures.2 (artifactRefs nfkc row.artifacts)).1 sid
          (cleanTextWith nfkc row.domain)) _ _ = _
      rw [hdid]
      exact ctrlFields_absorb nfkc row dres.1 (normalizeMappings row.mappings) old
  | none =>
    have hup := upsertControl_new nfkc sid dres.2.db ccf dres.1 row
      (normalizeMappings row.mappings) hold
    refine ⟨ctrlFields nfkc row dres.1 (normalizeMappings row.mappings)
      ⟨dres.2.db.nextId, sid, ccf, none, none, none, none, none, none, none, []⟩, ?_, ?_⟩
    · show findControl (linkEvidence L ures.1 ures.2 (artifactRefs nfkc row.artifacts)).1
        sid ccf = _
      rw [hfc]
      exact hup.2.2.1
    · show ctrlFields nfkc row
        (domIdOf (linkEvidence L ures.1 ures.2 (artifactRefs nfkc row.artifacts)).1 sid
          (cleanTextWith nfkc row.domain)) _ _ = _
      rw [hdid]
      exact ctrlFields_absorb nfkc row dres.1 (normalizeMappings row.mappings) _

/-- A step on a row keyed `c0` leaves the lookup of every other key of
the same source untouched (identifier uniqueness keeps the in-place
update away from other keys' rows). -/
theorem findControl_other_step (nfkc : Str → Str) (sid : Nat) (L : List (Str × Nat))
    (st : SeedState) (row : CtrlInput) (c0 c : Str)
    (hc0 : cleanTextWith nfkc row.ccfId = some c0) (hcc : c ≠ c0)
    (hw : wfIds st.db) :
    findControl (ctrlStep nfkc sid L st row).db sid c = findControl st.db sid c := by
  rw [ctrlStep_eq nfkc sid L st row c0 hc0]
  set dres := resolveDomain sid st (cleanTextWith nfkc row.domain) with hdres
  set ures := upsertControl nfkc sid dres.2.db c0 dres.1 row
    (normalizeMappings row.mappings) with hures
  have hrf := resolveDomain_db_controls sid st (cleanTextWith nfkc row.domain)
  have hlf := linkEvidence_frame L ures.1 (artifactRefs nfkc row.artifacts) ures.2
  have hstc : dres.2.db.controls = st.db.controls := hrf.1
  show findControl (linkEvidence L ures.1 ures.2 (artifactRefs nfkc row.artifacts)).1 sid c = _
  have hfc : findControl (linkEvidence L ures.1 ures.2 (artifactRefs nfkc row.artifacts)).1
      sid c = findControl ures.2 sid c := by
    unfold findControl
    rw [hlf.1]
  rw [hfc]
  cases hold : findControl dres.2.db sid c0 with
  | some old0 =>
    have hup := upsertControl_existing nfkc sid dres.2.db c0 dres.1 row
      (normalizeMappings row.mappings) old0 hold
    have hold' : findControl st.db sid c0 = some old0 := by
      unfold findControl at hold ⊢
      rw [← hstc]
      exact hold
    unfold findControl
    rw [hup.2.2.1, hstc, findControl_map_upd]
    cases hf : st.db.controls.find? (ctrlKey sid c) with
    | none => rfl
    | some x =>
      have hxf : findControl st.db sid c = some x := by
        unfold findControl
        exact hf
      have hx := findControl_mem_keyed st.db sid c x hxf
      have hmem0 := findControl_mem_keyed st.db sid c0 old0 hold'
      have hne : x ≠ old0 := by
        intro he
        rw [he] at hx
        exact hcc (hx.2.2.symm.trans hmem0.2.2)
      have hid : x.id ≠ old0.id :=
        pairwise_ne_ids st.db.controls hw.1 x hx.1 old0 hmem0.1 hne
      simp [hid]
  | none =>
    have hup := upsertControl_new nfkc sid dres.2.db c0 dres.1 row
      (normalizeMappings row.mappings) hold
    have hnew : ctrlKey sid c (ctrlFields nfkc row dres.1 (normalizeMappings row.mappings)
        ⟨dres.2.db.nextId, sid, c0, none, none, none, none, none, none, none, []⟩) = false := by
      rw [ctrlKey_ctrlFields]
      show ((sid == sid) && (c0 == c)) = false
      have hcf : (c0 == c) = false := by
        simp
        exact fun he => hcc he.symm
      rw [hcf, Bool.and_false]
    unfold findControl
    rw [hup.2.1, hstc, List.find?_append]
    cases hf : st.db.controls.find? (ctrlKey sid c) with
    | none => simp [Option.or, List.find?, hnew]
    | some x => simp [Option.or]

/-- After the controls pass, the control stored under any frame key is a
fixed point of the write prescribed by the key's last frame occurrence,
with the domain id read off the resulting store: re-running that write
would change nothing. -/
theorem ctrlPass_lastWrite (nfkc : Str → Str) (sid : Nat) (L : List (Str × Nat)) :
    ∀ (C : List CtrlInput) (st : SeedState), cacheOK sid st → wfIds st.db →
    ∀ (c : Str) (r' : CtrlInput), lastKeyed nfkc c C = some r' →
    ∃ x, findControl (ctrlPass nfkc sid L st C).db sid c = some x ∧
      ctrlFields nfkc r'
        (domIdOf (ctrlPass nfkc sid L st C).db sid (cleanTextWith nfkc r'.domain))
        (normalizeMappings r'.mappings) x = x := by
  intro C
  induction C using List.reverseRecOn with
  | nil =>
    intro st _ _ c r' h
    simp [lastKeyed] at h
  | append_singleton D r0 ih =>
    intro st hc hw c r' hlast
    rw [ctrlPass_snoc nfkc sid L st D r0]
    set T := ctrlPass nfkc sid L st D with hT
    have hcT : cacheOK sid T := ctrlPass_cacheOK nfkc sid L D st hc
    have hwT : wfIds T.db := ctrlPass_wfIds nfkc sid L D st hw
    cases hccf0 : cleanTextWith nfkc r0.ccfId with
    | none =>
      rw [ctrlStep_skip nfkc sid L T r0 hccf0]
      rw [lastKeyed_snoc_other nfkc c D r0 (by rw [hccf0]; simp)] at hlast
      exact ih st hc hw c r' hlast
    | some c0 =>
      by_cases hcc : c0 = c
      · subst hcc
        rw [lastKeyed_snoc_self nfkc c0 D r0 hccf0] at hlast
        injection hlast with hlast
        subst hlast
        exact ctrlStep_writes nfkc sid L T r0 c0 hccf0 hcT
      · rw [lastKeyed_snoc_other nfkc c D r0
          (by rw [hccf0]; simp; exact hcc)] at hlast
        obtain ⟨x, hfind, hfix⟩ := ih st hc hw c r' hlast
        have hmemk := lastKeyed_mem_keyed nfkc c D r' hlast
        refine ⟨x, ?_, ?_⟩
        · rw [findControl_other_step nfkc sid L T r0 c0 c hccf0
            (fun he => hcc he.symm) hwT]
          exact hfind
        · cases hdn : cleanTextWith nfkc r'.domain with
          | none =>
            rw [hdn] at hfix
            exact hfix
          | some n =>
            have hpres := ctrlPass_domSat nfkc sid L D st hc r' hmemk.1 c n hmemk.2 hdn
            cases hfd : findDomain T.db sid n with
            | none => exact absurd hfd hpres
            | some d =>
              have hstable := findDomain_stable_step nfkc sid L T r0 n d hfd
              rw [hdn] at hfix
              have h1 : domIdOf T.db sid (some n) = some d.id := by
                simp [domIdOf, hfd]
              have h2 : domIdOf (ctrlStep nfkc sid L T r0).db sid (some n) = some d.id := by
                simp [domIdOf, hstable]
              rw [h2, ← h1]
              exact hfix

/-- Two controls tables that agree everywhere except that the first
stored row of one key may carry different written fields (same
identifier, source and key). -/
def simCtl (sid : Nat) (c : Str) (lA lB : List ControlRow) : Prop :=
  ∃ pre xa xb post, lA = pre ++ xa :: post ∧ lB = pre ++ xb :: post ∧
    xa.id = xb.id ∧ xa.sourceId = xb.sourceId ∧ xa.ccfId = xb.ccfId ∧
    ctrlKey sid c xa = true ∧ ∀ y ∈ pre, ctrlKey sid c y = false

theorem ctrlKey_congr (s : Nat) (k : Str) (a b : ControlRow)
    (h1 : a.sourceId = b.sourceId) (h2 : a.ccfId = b.ccfId) :
    ctrlKey s k a = ctrlKey s k b := by
  unfold ctrlKey
  rw [h1, h2]

theorem ctrlKey_fields (sid : Nat) (c : Str) (x : ControlRow)
    (h : ctrlKey sid c x = true) : x.sourceId = sid ∧ x.ccfId = c := by
  unfold ctrlKey at h
  simp at h
  exact h

theorem keyList_cons_some (nfkc : Str → Str) (r : CtrlInput) (D : List CtrlInput)
    (c1 : Str) (h : cleanTextWith nfkc r.ccfId = some c1) :
    keyList nfkc (r :: D) = c1 :: keyList nfkc D := by
  unfold keyList
  rw [List.filterMap_cons, h]

theorem keyList_cons_none (nfkc : Str → Str) (r : CtrlInput) (D : List CtrlInput)
    (h : cleanTextWith nfkc r.ccfId = none) :
    keyList nfkc (r :: D) = keyList nfkc D := by
  unfold keyList
  rw [List.filterMap_cons, h]

theorem pairwise_decomp (pre post : List ControlRow) (x : ControlRow)
    (h : (pre ++ x :: post).Pairwise (fun a b => a.id ≠ b.id)) :
    (∀ y ∈ pre, y.id ≠ x.id) ∧ (∀ z ∈ post, x.id ≠ z.id) := by
  rw [List.pairwise_append] at h
  obtain ⟨h1, h2, h3⟩ := h
  constructor
  · intro y hy
    exact h3 y hy x (List.mem_cons_self x post)
  · exact (List.pairwise_cons.mp h2).1

/-- Any one key lookup agrees across a `simCtl` pair: either both fail,
or both succeed at the same position with agreeing identifier, source
and key. -/
theorem simCtl_find (sid : Nat) (c : Str) (lA lB : List ControlRow)
    (h : simCtl sid c lA lB) (sid' : Nat) (c1 : Str) :
    (lA.find? (ctrlKey sid' c1) = none ∧ lB.find? (ctrlKey sid' c1) = none) ∨
    (∃ ya yb, lA.find? (ctrlKey sid' c1) = some ya ∧ lB.find? (ctrlKey sid' c1) = some yb ∧
      ya.id = yb.id ∧ ya.sourceId = yb.sourceId ∧ ya.ccfId = yb.ccfId) := by
  obtain ⟨pre, xa, xb, post, hA, hB, hid, hsrc, hccf, hkey, hpre⟩ := h
  rw [hA, hB, List.find?_append, List.find?_append]
  cases hf : pre.find? (ctrlKey sid' c1) with
  | some y =>
    right
    exact ⟨y, y, by simp [Option.or], by simp [Option.or], rfl, rfl, rfl⟩
  | none =>
    have hk : ctrlKey sid' c1 xb = ctrlKey sid' c1 xa :=
      (ctrlKey_congr sid' c1 xa xb hsrc hccf).symm
    cases hxa : ctrlKey sid' c1 xa with
    | true =>
      right
      refine ⟨xa, xb, ?_, ?_, hid, hsrc, hccf⟩
      · rw [List.find?_cons_of_pos _ hxa]
        simp [Option.or]
      · rw [List.find?_cons_of_pos _ (hk.trans hxa)]
        simp [Option.or]
    | false =>
      rw [List.find?_cons_of_neg _ (by simp [hxa]),
        List.find?_cons_of_neg _ (by simp [hk, hxa])]
      cases hp : post.find? (ctrlKey sid' c1) with
      | none => left; simp [Option.or]
      | some y =>
        right
        exact ⟨y, y, by simp [Option.or], by simp [Option.or], rfl, rfl, rfl⟩

theorem ctrlStep_domains_noInsert (nfkc : Str → Str) (sid : Nat) (L : List (Str × Nat))
    (st : SeedState) (row : CtrlInput) (c1 : Str)
    (hccf : cleanTextWith nfkc row.ccfId = some c1) (hc : cacheOK sid st)
    (hdom : ∀ n, cleanTextWith nfkc row.domain = some n → findDomain st.db sid n ≠ none) :
    (ctrlStep nfkc sid L st row).db.domains = st.db.domains := by
  rw [ctrlStep_eq nfkc sid L st row c1 hccf]
  set dres := resolveDomain sid st (cleanTextWith nfkc row.domain) with hdres
  set ures := upsertControl nfkc sid dres.2.db c1 dres.1 row
    (normalizeMappings row.mappings) with hures
  have huf := upsertControl_frame nfkc sid dres.2.db c1 dres.1 row
    (normalizeMappings row.mappings)
  have hlf := linkEvidence_frame L ures.1 (artifactRefs nfkc row.artifacts) ures.2
  have hkey : dres.2.db = st.db := by
    cases hdn : cleanTextWith nfkc row.domain with
    | none =>
      rw [hdres, hdn, resolveDomain_none]
    | some n =>
      cases hfd : findDomain st.db sid n with
      | none => exact absurd hfd (hdom n hdn)
      | some d =>
        rw [hdres, hdn]
        exact (resolveDomain_hit sid st n d hc hfd).2.1
  show (linkEvidence L ures.1 ures.2 (artifactRefs nfkc row.artifacts)).1.domains = _
  rw [hlf.2.2.1, huf.1, hkey]

theorem map_upd_id (l : List ControlRow) (i0 : Nat) (g : ControlRow → ControlRow)
    (h : ∀ y ∈ l, y.id ≠ i0) :
    l.map (fun x => if x.id = i0 then g x else x) = l := by
  have h1 : ∀ y ∈ l, (fun x => if x.id = i0 then g x else x) y = id y := by
    intro y hy
    simp [h y hy]
  rw [List.map_congr_left h1, List.map_id]

/-- Parallel-run simulation: two stores over the same saturated key and
domain sets whose controls tables agree up to the written fields of one
key that the remaining frame still writes end the pass with equal
controls tables. -/
theorem simPass (nfkc : Str → Str) (sid : Nat) (L : List (Str × Nat)) :
    ∀ (D : List CtrlInput) (A B : SeedState),
    A.db.domains = B.db.domains →
    cacheOK sid A → cacheOK sid B →
    wfIds A.db → wfIds B.db →
    (∀ r ∈ D, ∀ ccf, cleanTextWith nfkc r.ccfId = some ccf →
      findControl A.db sid ccf ≠ none ∧
      ∀ n, cleanTextWith nfkc r.domain = some n → findDomain A.db sid n ≠ none) →
    (A.db.controls = B.db.controls ∨
      ∃ c, simCtl sid c A.db.controls B.db.controls ∧ c ∈ keyList nfkc D) →
    (ctrlPass nfkc sid L A D).db.controls = (ctrlPass nfkc sid L B D).db.controls := by
  intro D
  induction D with
  | nil =>
    intro A B hdom hcA hcB hwA hwB hpres hsim
    cases hsim with
    | inl h => exact h
    | inr h =>
      obtain ⟨c, _, hc⟩ := h
      simp [keyList] at hc
  | cons r1 D' ih =>
    intro A B hdom hcA hcB hwA hwB hpres hsim
    show (ctrlPass nfkc sid L (ctrlStep nfkc sid L A r1) D').db.controls =
      (ctrlPass nfkc sid L (ctrlStep nfkc sid L B r1) D').db.controls
    cases hccf : cleanTextWith nfkc r1.ccfId with
    | none =>
      rw [ctrlStep_skip nfkc sid L A r1 hccf, ctrlStep_skip nfkc sid L B r1 hccf]
      refine ih A B hdom hcA hcB hwA hwB
        (fun r hr => hpres r (List.mem_cons_of_mem r1 hr)) ?_
      cases hsim with
      | inl h => exact Or.inl h
      | inr h =>
        obtain ⟨c, hs, hmem⟩ := h
        exact Or.inr ⟨c, hs, by rwa [keyList_cons_none nfkc r1 D' hccf] at hmem⟩
    | some c1 =>
      have hp1 := hpres r1 (List.mem_cons_self r1 D') c1 hccf
      have hdomB : ∀ n, cleanTextWith nfkc r1.domain = some n →
          findDomain B.db sid n ≠ none := by
        intro n hn
        rw [findDomain_congr A.db B.db sid n hdom.symm]
        exact hp1.2 n hn
      have hdA' : (ctrlStep nfkc sid L A r1).db.domains = A.db.domains :=
        ctrlStep_domains_noInsert nfkc sid L A r1 c1 hccf hcA hp1.2
      have hdB' : (ctrlStep nfkc sid L B r1).db.domains = B.db.domains :=
        ctrlStep_domains_noInsert nfkc sid L B r1 c1 hccf hcB hdomB
      have hdom' : (ctrlStep nfkc sid L A r1).db.domains =
          (ctrlStep nfkc sid L B r1).db.domains := by
        rw [hdA', hdB', hdom]
      have hcA' := ctrlStep_cacheOK nfkc sid L A r1 hcA
      have hcB' := ctrlStep_cacheOK nfkc sid L B r1 hcB
      have hwA' := ctrlStep_wfIds nfkc sid L A r1 hwA
      have hwB' := ctrlStep_wfIds nfkc sid L B r1 hwB
      have hpres' : ∀ r ∈ D', ∀ ccf, cleanTextWith nfkc r.ccfId = some ccf →
          findControl (ctrlStep nfkc sid L A r1).db sid ccf ≠ none ∧
          ∀ n, cleanTextWith nfkc r.domain = some n →
            findDomain (ctrlStep nfkc sid L A r1).db sid n ≠ none := by
        intro r hr ccf hrc
        have h0 := hpres r (List.mem_cons_of_mem r1 hr) ccf hrc
        refine ⟨findControl_isSome_step nfkc sid L A r1 sid ccf h0.1, ?_⟩
        intro n hn
        have h1 := h0.2 n hn
        cases hfd : findDomain A.db sid n with
        | none => exact absurd hfd h1
        | some d =>
          rw [findDomain_stable_step nfkc sid L A r1 n d hfd]
          simp
      cases holdA : findControl A.db sid c1 with
      | none => exact absurd holdA hp1.1
      | some oldA =>
        have hstepA := ctrlStep_present nfkc sid L A r1 c1 oldA hccf hcA hp1.2 holdA
        have hdid : domIdOf B.db sid (cleanTextWith nfkc r1.domain) =
            domIdOf A.db sid (cleanTextWith nfkc r1.domain) :=
          domIdOf_congr A.db B.db sid (cleanTextWith nfkc r1.domain) hdom.symm
        cases hsim with
        | inl heq =>
          have holdB : findControl B.db sid c1 = some oldA := by
            unfold findControl at holdA ⊢
            rw [← heq]
            exact holdA
          have hstepB := ctrlStep_present nfkc sid L B r1 c1 oldA hccf hcB hdomB holdB
          refine ih _ _ hdom' hcA' hcB' hwA' hwB' hpres' (Or.inl ?_)
          rw [hstepA.1, hstepB.1, hdid, heq]
        | inr hsimr =>
          obtain ⟨c, hs, hmem⟩ := hsimr
          rw [keyList_cons_some nfkc r1 D' c1 hccf] at hmem
          have hagree := simCtl_find sid c A.db.controls B.db.controls hs sid c1
          cases hagree with
          | inl hl =>
            unfold findControl at holdA
            rw [holdA] at hl
            exact absurd hl.1 (by simp)
          | inr hr =>
            obtain ⟨ya, yb, hya, hyb, hyid, hysrc, hyccf⟩ := hr
            have hyaA : ya = oldA := by
              unfold findControl at holdA
              rw [holdA] at hya
              injection hya with h
              exact h.symm
            subst hyaA
            have holdB : findControl B.db sid c1 = some yb := hyb
            have hstepB := ctrlStep_present nfkc sid L B r1 c1 yb hccf hcB hdomB holdB
            rw [hdid, ← hyid] at hstepB
            obtain ⟨pre, xa, xb, post, hA, hB, hid, hsrc, hccf2, hkey, hpre⟩ := hs
            have hmemya := findControl_mem_keyed A.db sid c1 ya holdA
            by_cases hc1c : c1 = c
            · subst hc1c
              have hfa : A.db.controls.find? (ctrlKey sid c1) = some xa := by
                rw [hA, List.find?_append, List.find?_eq_none.mpr
                  (fun y hy => by simp [hpre y hy]), List.find?_cons_of_pos _ hkey]
                simp [Option.or]
              have hxaA : xa = ya := by
                have h' := holdA
                unfold findControl at h'
                rw [hfa] at h'
                injection h' with h'
              have hkeyb : ctrlKey sid c1 xb = true := by
                rw [← ctrlKey_congr sid c1 xa xb hsrc hccf2]
                exact hkey
              have hfb : B.db.controls.find? (ctrlKey sid c1) = some xb := by
                rw [hB, List.find?_append, List.find?_eq_none.mpr
                  (fun y hy => by simp [hpre y hy]), List.find?_cons_of_pos _ hkeyb]
                simp [Option.or]
              have hpdA := pairwise_decomp pre post xa (by rw [← hA]; exact hwA.1)
              have hpdB := pairwise_decomp pre post xb (by rw [← hB]; exact hwB.1)
              have hstA : (ctrlStep nfkc sid L A r1).db.controls =
                  pre ++ ctrlFields nfkc r1
                    (domIdOf A.db sid (cleanTextWith nfkc r1.domain))
                    (normalizeMappings r1.mappings) xa :: post := by
                rw [hstepA.1, hA, List.map_append, List.map_cons]
                rw [map_upd_id pre ya.id _ (by
                  intro y hy
                  rw [← hxaA]
                  exact hpdA.1 y hy)]
                rw [map_upd_id post ya.id _ (by
                  intro z hz
                  rw [← hxaA]
                  exact fun he => (hpdA.2 z hz) he.symm)]
                rw [if_pos (by rw [← hxaA])]
              have hstB : (ctrlStep nfkc sid L B r1).db.controls =
                  pre ++ ctrlFields nfkc r1
                    (domIdOf A.db sid (cleanTextWith nfkc r1.domain))
                    (normalizeMappings r1.mappings) xb :: post := by
                rw [hstepB.1, hB, List.map_append, List.map_cons]
                rw [map_upd_id pre ya.id _ (by
                  intro y hy
                  rw [← hxaA]
                  exact hpdA.1 y hy)]
                rw [map_upd_id post ya.id _ (by
                  intro z hz
                  rw [← hxaA, hid]
                  exact fun he => (hpdB.2 z hz) he.symm)]
                rw [if_pos (by rw [← hxaA, ← hid])]
              refine ih _ _ hdom' hcA' hcB' hwA' hwB' hpres' (Or.inl ?_)
              rw [hstA, hstB,
                ctrlFields_ext nfkc r1 _ _ xa xb hid hsrc hccf2]
            · have hmem' : c ∈ keyList nfkc D' := by
                cases List.mem_cons.mp hmem with
                | inl h0 => exact absurd h0.symm hc1c
                | inr h0 => exact h0
              have hxak := ctrlKey_fields sid c xa hkey
              have hxamem : xa ∈ A.db.controls := by
                rw [hA]
                exact List.mem_append.mpr (Or.inr (List.mem_cons_self xa post))
              have hne : xa ≠ ya := by
                intro he
                apply hc1c
                rw [← hmemya.2.2, ← he, hxak.2]
              have hxaid : xa.id ≠ ya.id :=
                pairwise_ne_ids A.db.controls hwA.1 xa hxamem ya hmemya.1 hne
              have hstA : (ctrlStep nfkc sid L A r1).db.controls =
                  (pre.map (fun x => if x.id = ya.id then ctrlFields nfkc r1
                    (domIdOf A.db sid (cleanTextWith nfkc r1.domain))
                    (normalizeMappings r1.mappings) x else x)) ++ xa ::
                  (post.map (fun x => if x.id = ya.id then ctrlFields nfkc r1
                    (domIdOf A.db sid (cleanTextWith nfkc r1.domain))
                    (normalizeMappings r1.mappings) x else x)) := by
                rw [hstepA.1, hA, List.map_append, List.map_cons, if_neg hxaid]
              have hstB : (ctrlStep nfkc sid L B r1).db.controls =
                  (pre.map (fun x => if x.id = ya.id then ctrlFields nfkc r1
                    (domIdOf A.db sid (cleanTextWith nfkc r1.domain))
                    (normalizeMappings r1.mappings) x else x)) ++ xb ::
                  (post.map (fun x => if x.id = ya.id then ctrlFields nfkc r1
                    (domIdOf A.db sid (cleanTextWith nfkc r1.domain))
                    (normalizeMappings r1.mappings) x else x)) := by
                rw [hstepB.1, hB, List.map_append, List.map_cons,
                  if_neg (by rw [← hid]; exact hxaid)]
              refine ih _ _ hdom' hcA' hcB' hwA' hwB' hpres'
                (Or.inr ⟨c, ⟨_, xa, xb, _, hstA, hstB, hid, hsrc, hccf2, hkey, ?_⟩, hmem'⟩)
              intro y hy
              rcases List.mem_map.mp hy with ⟨z, hz, hze⟩
              subst hze
              show ctrlKey sid c (if z.id = ya.id then _ else z) = false
              split
              · rw [ctrlKey_ctrlFields]
                exact hpre z hz
              · exact hpre z hz

theorem keyList_not_mem (nfkc : Str → Str) (c : Str) (D : List CtrlInput)
    (h : c ∉ keyList nfkc D) :
    ∀ r ∈ D, cleanTextWith nfkc r.ccfId ≠ some c := by
  intro r hr hrc
  exact h (List.mem_filterMap.mpr ⟨r, hr, hrc⟩)

theorem lastKeyed_cons_of_not_mem (nfkc : Str → Str) (c0 : Str) (r0 : CtrlInput)
    (D : List CtrlInput) (hccf : cleanTextWith nfkc r0.ccfId = some c0)
    (h : c0 ∉ keyList nfkc D) :
    lastKeyed nfkc c0 (r0 :: D) = some r0 := by
  unfold lastKeyed
  rw [List.reverse_cons, List.find?_append, List.find?_eq_none.mpr ?hfail]
  case hfail =>
    intro r hr
    simp
    exact keyList_not_mem nfkc c0 D h r (List.mem_reverse.mp hr)
  rw [List.find?_cons_of_pos _ (by simp [hccf])]
  simp [Option.or]

/-- Absorption: replaying the frame over any store carrying the final
controls and domain tables of a previous run of the frame reproduces
those controls exactly. -/
theorem absPass (nfkc : Str → Str) (sid : Nat) (L : List (Str × Nat)) :
    ∀ (C : List CtrlInput) (St B : SeedState),
    cacheOK sid St → wfIds St.db →
    cacheOK sid B → wfIds B.db →
    B.db.controls = (ctrlPass nfkc sid L St C).db.controls →
    B.db.domains = (ctrlPass nfkc sid L St C).db.domains →
    (ctrlPass nfkc sid L B C).db.controls = (ctrlPass nfkc sid L St C).db.controls := by
  intro C
  induction C with
  | nil =>
    intro St B _ _ _ _ hctl _
    exact hctl
  | cons r0 D ih =>
    intro St B hcS hwS hcB hwB hctl hdomm
    cases hccf : cleanTextWith nfkc r0.ccfId with
    | none =>
      have hstep0 : ctrlPass nfkc sid L St (r0 :: D) = ctrlPass nfkc sid L St D := by
        show ctrlPass nfkc sid L (ctrlStep nfkc sid L St r0) D = _
        rw [ctrlStep_skip nfkc sid L St r0 hccf]
      rw [hstep0] at hctl hdomm ⊢
      show (ctrlPass nfkc sid L (ctrlStep nfkc sid L B r0) D).db.controls = _
      rw [ctrlStep_skip nfkc sid L B r0 hccf]
      exact ih St B hcS hwS hcB hwB hctl hdomm
    | some c0 =>
      have hkeySat : ∀ r ∈ (r0 :: D), ∀ ccf, cleanTextWith nfkc r.ccfId = some ccf →
          findControl B.db sid ccf ≠ none := by
        intro r hr ccf hrc
        have h0 := ctrlPass_keySat nfkc sid L (r0 :: D) St r hr ccf hrc
        unfold findControl at h0 ⊢
        rw [hctl]
        exact h0
      have hdomSat : ∀ r ∈ (r0 :: D), ∀ ccf n, cleanTextWith nfkc r.ccfId = some ccf →
          cleanTextWith nfkc r.domain = some n → findDomain B.db sid n ≠ none := by
        intro r hr ccf n hrc hrd
        have h0 := ctrlPass_domSat nfkc sid L (r0 :: D) St hcS r hr ccf n hrc hrd
        rw [findDomain_congr (ctrlPass nfkc sid L St (r0 :: D)).db B.db sid n hdomm]
        exact h0
      have hpresB : ∀ r ∈ (r0 :: D), ∀ ccf, cleanTextWith nfkc r.ccfId = some ccf →
          findControl B.db sid ccf ≠ none ∧
          ∀ n, cleanTextWith nfkc r.domain = some n → findDomain B.db sid n ≠ none := by
        intro r hr ccf hrc
        exact ⟨hkeySat r hr ccf hrc, fun n hn => hdomSat r hr ccf n hrc hn⟩
      have hp0 := hpresB r0 (List.mem_cons_self r0 D) c0 hccf
      cases holdB : findControl B.db sid c0 with
      | none => exact absurd holdB hp0.1
      | some old =>
        have hstepB := ctrlStep_present nfkc sid L B r0 c0 old hccf hcB hp0.2 holdB
        have hT : (ctrlPass nfkc sid L B D).db.controls =
            (ctrlPass nfkc sid L (ctrlStep nfkc sid L St r0) D).db.controls :=
          ih (ctrlStep nfkc sid L St r0) B
            (ctrlStep_cacheOK nfkc sid L St r0 hcS)
            (ctrlStep_wfIds nfkc sid L St r0 hwS) hcB hwB hctl hdomm
        show (ctrlPass nfkc sid L (ctrlStep nfkc sid L B r0) D).db.controls =
          (ctrlPass nfkc sid L (ctrlStep nfkc sid L St r0) D).db.controls
        rw [← hT]
        have hpresA : ∀ r ∈ D, ∀ ccf, cleanTextWith nfkc r.ccfId = some ccf →
            findControl (ctrlStep nfkc sid L B r0).db sid ccf ≠ none ∧
            ∀ n, cleanTextWith nfkc r.domain = some n →
              findDomain (ctrlStep nfkc sid L B r0).db sid n ≠ none := by
          intro r hr ccf hrc
          have h0 := hpresB r (List.mem_cons_of_mem r0 hr) ccf hrc
          refine ⟨findControl_isSome_step nfkc sid L B r0 sid ccf h0.1, ?_⟩
          intro n hn
          have h1 := h0.2 n hn
          cases hfd : findDomain B.db sid n with
          | none => exact absurd hfd h1
          | some d =>
            rw [findDomain_stable_step nfkc sid L B r0 n d hfd]
            simp
        refine simPass nfkc sid L D (ctrlStep nfkc sid L B r0) B hstepB.2.1
          (ctrlStep_cacheOK nfkc sid L B r0 hcB) hcB
          (ctrlStep_wfIds nfkc sid L B r0 hwB) hwB hpresA ?_
        obtain ⟨pre, post, hdecomp, hprefail⟩ :=
          find?_decomp (ctrlKey sid c0) B.db.controls old (by
            have h' := holdB
            unfold findControl at h'
            exact h')
        have hpd := pairwise_decomp pre post old (by rw [← hdecomp]; exact hwB.1)
        have hmk := findControl_mem_keyed B.db sid c0 old holdB
        have hkeyold : ctrlKey sid c0 old = true := by
          unfold ctrlKey
          simp [hmk.2.1, hmk.2.2]
        have hstB' : (ctrlStep nfkc sid L B r0).db.controls =
            pre ++ ctrlFields nfkc r0
              (domIdOf B.db sid (cleanTextWith nfkc r0.domain))
              (normalizeMappings r0.mappings) old :: post := by
          rw [hstepB.1, hdecomp, List.map_append, List.map_cons]
          rw [map_upd_id pre old.id _ hpd.1]
          rw [map_upd_id post old.id _ (fun z hz he => (hpd.2 z hz) he.symm)]
          rw [if_pos rfl]
        by_cases hmemk : c0 ∈ keyList nfkc D
        · refine Or.inr ⟨c0, ⟨pre, _, old, post, hstB', hdecomp,
            ctrlFields_id nfkc r0 _ _ old, ctrlFields_sourceId nfkc r0 _ _ old,
            ctrlFields_ccfId nfkc r0 _ _ old, ?_, hprefail⟩, hmemk⟩
          rw [ctrlKey_ctrlFields]
          exact hkeyold
        · have hlast : lastKeyed nfkc c0 (r0 :: D) = some r0 :=
            lastKeyed_cons_of_not_mem nfkc c0 r0 D hccf hmemk
          obtain ⟨x, hxfind, hxfix⟩ :=
            ctrlPass_lastWrite nfkc sid L (r0 :: D) St hcS hwS c0 r0 hlast
          have hxB : findControl B.db sid c0 = some x := by
            unfold findControl at hxfind ⊢
            rw [hctl]
            exact hxfind
          have hxold : x = old := by
            rw [holdB] at hxB
            injection hxB with h
            exact h.symm
          subst hxold
          have hdid2 : domIdOf B.db sid (cleanTextWith nfkc r0.domain) =
              domIdOf (ctrlPass nfkc sid L St (r0 :: D)).db sid
                (cleanTextWith nfkc r0.domain) :=
            domIdOf_congr (ctrlPass nfkc sid L St (r0 :: D)).db B.db sid
              (cleanTextWith nfkc r0.domain) hdomm
          refine Or.inl ?_
          rw [hstB', hdid2, hxfix, ← hdecomp]

theorem evUpd_key (i0 : Nat) (t u : Option Str) (sid : Nat) (r : Str) (x : EvidenceRow) :
    evKey sid r (if x.id = i0 then {x with title := t, domain := u} else x) =
      evKey sid r x := by
  split
  · rfl
  · rfl

theorem find?_map_evUpd (i0 : Nat) (t u : Option Str) (sid : Nat) (r : Str)
    (l : List EvidenceRow) :
    (l.map (fun x => if x.id = i0 then {x with title := t, domain := u} else x)).find?
        (evKey sid r) =
      (l.find? (evKey sid r)).map
        (fun x => if x.id = i0 then {x with title := t, domain := u} else x) := by
  rw [List.find?_map]
  have hp : (evKey sid r ∘ fun x => if x.id = i0 then {x with title := t, domain := u}
      else x) = evKey sid r := by
    funext x
    exact evUpd_key i0 t u sid r x
  rw [hp]

theorem evStep_stable (nfkc : Str → Str) (sid : Nat) (acc : DB × Nat) (row : EvInput)
    (r : Str) (h : findEvidence acc.1 sid r ≠ none) :
    findEvidence (evStep nfkc sid acc row).1 sid r ≠ none := by
  cases hc : cleanTextWith nfkc row.refId with
  | none =>
    rw [evStep_skip nfkc sid acc row hc]
    exact h
  | some r0 =>
    cases hf : findEvidence acc.1 sid r0 with
    | some e =>
      show findEvidence (evStep nfkc sid acc row).1 sid r ≠ none
      unfold findEvidence at h ⊢
      simp only [evStep, hc, hf]
      rw [find?_map_evUpd]
      cases hfr : acc.1.evidence.find? (evKey sid r) with
      | none => exact absurd hfr h
      | some y => simp
    | none =>
      unfold findEvidence at h ⊢
      simp only [evStep, hc, hf]
      rw [List.find?_append]
      cases hfr : acc.1.evidence.find? (evKey sid r) with
      | none => exact absurd hfr h
      | some y => simp [Option.or]

theorem evStep_sat_self (nfkc : Str → Str) (sid : Nat) (acc : DB × Nat) (row : EvInput)
    (r : Str) (h : cleanTextWith nfkc row.refId = some r) :
    findEvidence (evStep nfkc sid acc row).1 sid r ≠ none := by
  cases hf : findEvidence acc.1 sid r with
  | some e =>
    unfold findEvidence
    simp only [evStep, h, hf]
    rw [find?_map_evUpd]
    have hf' : acc.1.evidence.find? (evKey sid r) = some e := hf
    rw [hf']
    simp
  | none =>
    unfold findEvidence
    simp only [evStep, h, hf]
    rw [List.find?_append]
    have hf' : acc.1.evidence.find? (evKey sid r) = none := hf
    rw [hf']
    have hk : evKey sid r (⟨acc.1.nextId, sid, r, cleanTextWith nfkc row.title,
        cleanTextWith nfkc row.domain⟩ : EvidenceRow) = true := by
      unfold evKey
      simp
    simp [Option.or, List.find?, hk]

theorem evPass_stable (nfkc : Str → Str) (sid : Nat) :
    ∀ (rows : List EvInput) (acc : DB × Nat) (r : Str),
    findEvidence acc.1 sid r ≠ none →
    findEvidence (evPass nfkc sid acc rows).1 sid r ≠ none := by
  intro rows
  induction rows with
  | nil => intro acc r h; exact h
  | cons r0 rest ih =>
    intro acc r h
    exact ih (evStep nfkc sid acc r0) r (evStep_stable nfkc sid acc r0 r h)

theorem evPass_sat (nfkc : Str → Str) (sid : Nat) :
    ∀ (rows : List EvInput) (acc : DB × Nat), ∀ row ∈ rows, ∀ r,
    cleanTextWith nfkc row.refId = some r →
    findEvidence (evPass nfkc sid acc rows).1 sid r ≠ none := by
  intro rows
  induction rows with
  | nil => intro acc row hrow; simp at hrow
  | cons r0 rest ih =>
    intro acc row hrow r hclean
    cases List.mem_cons.mp hrow with
    | inl h0 =>
      subst h0
      exact evPass_stable nfkc sid rest (evStep nfkc sid acc row) r
        (evStep_sat_self nfkc sid acc row r hclean)
    | inr h0 =>
      exact ih (evStep nfkc sid acc r0) row h0 r hclean

theorem lookup_map_evUpd (sid i0 : Nat) (t u : Option Str) : ∀ l : List EvidenceRow,
    ((l.map (fun x => if x.id = i0 then {x with title := t, domain := u} else x)).filter
      (fun e => e.sourceId == sid)).map (fun e => (e.refId, e.id)) =
    (l.filter (fun e => e.sourceId == sid)).map (fun e => (e.refId, e.id)) := by
  intro l
  induction l with
  | nil => rfl
  | cons x tl ih =>
    rw [List.map_cons, List.filter_cons, List.filter_cons]
    have hsrc : (if x.id = i0 then {x with title := t, domain := u} else x).sourceId =
        x.sourceId := by
      split
      · rfl
      · rfl
    rw [hsrc]
    cases hx : (x.sourceId == sid) with
    | true =>
      rw [if_pos rfl, if_pos rfl, List.map_cons, List.map_cons, ih]
      have hpair : ((if x.id = i0 then {x with title := t, domain := u} else x).refId,
          (if x.id = i0 then {x with title := t, domain := u} else x).id) =
          (x.refId, x.id) := by
        split
        · rfl
        · rfl
      rw [hpair]
    | false =>
      rw [if_neg (by simp), if_neg (by simp), ih]

/-- The evidence pass over rows whose references are all already stored
only rewrites rows in place: the evidence lookup is unchanged. -/
theorem evStep_lookup (nfkc : Str → Str) (sid : Nat) (acc : DB × Nat) (row : EvInput)
    (hpres : ∀ r, cleanTextWith nfkc row.refId = some r →
      findEvidence acc.1 sid r ≠ none) :
    evidenceLookup (evStep nfkc sid acc row).1 sid = evidenceLookup acc.1 sid := by
  cases hc : cleanTextWith nfkc row.refId with
  | none =>
    rw [evStep_skip nfkc sid acc row hc]
  | some r =>
    cases hf : findEvidence acc.1 sid r with
    | none => exact absurd hf (hpres r hc)
    | some e =>
      unfold evidenceLookup
      simp only [evStep, hc, hf]
      exact lookup_map_evUpd sid e.id (cleanTextWith nfkc row.title)
        (cleanTextWith nfkc row.domain) acc.1.evidence

theorem evPass_lookup (nfkc : Str → Str) (sid : Nat) :
    ∀ (rows : List EvInput) (acc : DB × Nat),
    (∀ row ∈ rows, ∀ r, cleanTextWith nfkc row.refId = some r →
      findEvidence acc.1 sid r ≠ none) →
    evidenceLookup (evPass nfkc sid acc rows).1 sid = evidenceLookup acc.1 sid := by
  intro rows
  induction rows with
  | nil => intro acc _; rfl
  | cons r0 rest ih =>
    intro acc hpres
    show evidenceLookup (evPass nfkc sid (evStep nfkc sid acc r0) rest).1 sid = _
    rw [ih (evStep nfkc sid acc r0) ?hrest,
      evStep_lookup nfkc sid acc r0 (hpres r0 (List.mem_cons_self r0 rest))]
    case hrest =>
      intro row hrow r hclean
      exact evStep_stable nfkc sid acc r0 r
        (hpres row (List.mem_cons_of_mem r0 hrow) r hclean)

theorem evPass_tables (nfkc : Str → Str) (sid : Nat) :
    ∀ (rows : List EvInput) (acc : DB × Nat),
    (evPass nfkc sid acc rows).1.controls = acc.1.controls ∧
    (evPass nfkc sid acc rows).1.domains = acc.1.domains ∧
    (evPass nfkc sid acc rows).1.controlEvidence = acc.1.controlEvidence ∧
    (evPass nfkc sid acc rows).1.sources = acc.1.sources ∧
    (evPass nfkc sid acc rows).1.importHistory = acc.1.importHistory := by
  intro rows
  induction rows with
  | nil => intro acc; exact ⟨rfl, rfl, rfl, rfl, rfl⟩
  | cons r0 rest ih =>
    intro acc
    have hs := evStep_controls nfkc sid acc r0
    have hp := ih (evStep nfkc sid acc r0)
    exact ⟨hp.1.trans hs.1, hp.2.1.trans hs.2.1, hp.2.2.1.trans hs.2.2.1,
      hp.2.2.2.1.trans hs.2.2.2.1, hp.2.2.2.2.trans hs.2.2.2.2⟩

theorem evStep_nextId (nfkc : Str → Str) (sid : Nat) (acc : DB × Nat) (row : EvInput) :
    acc.1.nextId ≤ (evStep nfkc sid acc row).1.nextId := by
  cases hc : cleanTextWith nfkc row.refId with
  | none => rw [evStep_skip nfkc sid acc row hc]
  | some r =>
    cases hf : findEvidence acc.1 sid r with
    | some e => simp [evStep, hc, hf]
    | none => simp [evStep, hc, hf]

theorem evPass_nextId (nfkc : Str → Str) (sid : Nat) :
    ∀ (rows : List EvInput) (acc : DB × Nat),
    acc.1.nextId ≤ (evPass nfkc sid acc rows).1.nextId := by
  intro rows
  induction rows with
  | nil => intro acc; exact Nat.le_refl _
  | cons r0 rest ih =>
    intro acc
    exact le_trans (evStep_nextId nfkc sid acc r0) (ih (evStep nfkc sid acc r0))

theorem getOrCreate_post (db : DB) (name : Str) (a b c d e : Option Str) :
    ∃ row, findSourceByName (getOrCreateComplianceSource db name a b c d e).2 name =
      some row ∧ row.id = (getOrCreateComplianceSource db name a b c d e).1 := by
  cases h : findSourceByName db name with
  | some row =>
    refine ⟨row, ?_, ?_⟩
    · simp [getOrCreateComplianceSource, h]
    · simp [getOrCreateComplianceSource, h]
  | none =>
    obtain ⟨X, hsrc, hn, hid⟩ : ∃ X : SourceRow,
        (getOrCreateComplianceSource db name a b c d e).2.sources =
          db.sources ++ [X] ∧ X.name = name ∧ X.id = db.nextId := by
      refine ⟨⟨db.nextId, name,
          some (match a with
            | some s => if s.isEmpty then name.take 15 else s
            | none => name.take 15),
          b, c, d, 0, 0, true,
          if (match e with
            | none => true
            | some cl => cl.isEmpty) then
            sourceColors.getD (db.sources.length % sourceColors.length) (S ("#667eea"))
          else e.getD []⟩, ?_, rfl, rfl⟩
      simp only [getOrCreateComplianceSource, h]
    have hfst : (getOrCreateComplianceSource db name a b c d e).1 = db.nextId := by
      simp [getOrCreateComplianceSource, h]
    refine ⟨X, ?_, by rw [hid, hfst]⟩
    unfold findSourceByName
    rw [hsrc, List.find?_append]
    unfold findSourceByName at h
    rw [h, List.find?_cons_of_pos _ (by simp [hn])]
    simp [Option.or]

theorem getOrCreate_nextId (db : DB) (name : Str) (a b c d e : Option Str) :
    db.nextId ≤ (getOrCreateComplianceSource db name a b c d e).2.nextId := by
  cases h : findSourceByName db name with
  | some row => simp [getOrCreateComplianceSource, h]
  | none => simp [getOrCreateComplianceSource, h]

theorem findSource_map_pres (l : List SourceRow) (f : SourceRow → SourceRow)
    (hf : ∀ s, (f s).name = s.name ∧ (f s).id = s.id) (name : Str) (row : SourceRow)
    (h : l.find? (fun s => s.name == name) = some row) :
    ∃ row', (l.map f).find? (fun s => s.name == name) = some row' ∧ row'.id = row.id := by
  rw [List.find?_map]
  have hp : ((fun s => s.name == name) ∘ f) = fun s => s.name == name := by
    funext s
    show ((f s).name == name) = _
    rw [(hf s).1]
  rw [hp, h]
  exact ⟨f row, rfl, (hf row).2⟩

theorem findSource_updateCounts (db : DB) (sid : Nat) (name : Str) (row : SourceRow)
    (h : findSourceByName db name = some row) :
    ∃ row', findSourceByName (updateSourceCounts db sid) name = some row' ∧
      row'.id = row.id := by
  exact findSource_map_pres db.sources _
    (fun s => ⟨by split <;> rfl, by split <;> rfl⟩) name row h

theorem resolveDomain_sourceId (sid : Nat) (st : SeedState) (dn : Option Str) :
    (resolveDomain sid st dn).2.stats.sourceId = st.stats.sourceId := by
  cases dn with
  | none => rfl
  | some d =>
    cases hcl : cacheLookup st.cache d with
    | some did => simp [resolveDomain, hcl]
    | none =>
      cases hfd : findDomain st.db sid d with
      | some r => simp [resolveDomain, hcl, hfd]
      | none => simp [resolveDomain, hcl, hfd]

theorem ctrlStep_sourceId (nfkc : Str → Str) (sid : Nat) (L : List (Str × Nat))
    (st : SeedState) (row : CtrlInput) :
    (ctrlStep nfkc sid L st row).stats.sourceId = st.stats.sourceId := by
  cases hccf : cleanTextWith nfkc row.ccfId with
  | none => rw [ctrlStep_skip nfkc sid L st row hccf]
  | some ccf =>
    rw [ctrlStep_eq nfkc sid L st row ccf hccf]
    exact resolveDomain_sourceId sid st (cleanTextWith nfkc row.domain)

theorem ctrlPass_sourceId (nfkc : Str → Str) (sid : Nat) (L : List (Str × Nat)) :
    ∀ (C : List CtrlInput) (st : SeedState),
    (ctrlPass nfkc sid L st C).stats.sourceId = st.stats.sourceId := by
  intro C
  induction C with
  | nil => intro st; rfl
  | cons r rest ih =>
    intro st
    show (ctrlPass nfkc sid L (ctrlStep nfkc sid L st r) rest).stats.sourceId = _
    rw [ih (ctrlStep nfkc sid L st r), ctrlStep_sourceId nfkc sid L st r]

/-- Seeding preserves identifier well-formedness of the controls
table. -/
theorem seed_wfIds (nfkc : Str → Str) (db : DB) (controls : List CtrlInput)
    (evidence : List EvInput) (name : Str) (a b c d : Option Str) (h : wfIds db) :
    wfIds (seedFromDataFrames nfkc db controls evidence name a b c d).1 := by
  have hg := getOrCreate_tables db name a b c d none
  have hgn := getOrCreate_nextId db name a b c d none
  set sid := (getOrCreateComplianceSource db name a b c d none).1 with hsid
  set db1 := (getOrCreateComplianceSource db name a b c d none).2 with hdb1
  have h1 : wfIds db1 := wfIds_congr db db1 h hg.1 hgn
  set eres := if evidence.isEmpty then (db1, 0) else evPass nfkc sid (db1, 0) evidence
    with heres
  have h2 : wfIds eres.1 := by
    by_cases hev : evidence.isEmpty
    · rw [heres, if_pos hev]
      exact h1
    · rw [heres, if_neg hev]
      exact wfIds_congr db1 _ h1 (evPass_tables nfkc sid evidence (db1, 0)).1
        (evPass_nextId nfkc sid evidence (db1, 0))
  unfold seedFromDataFrames
  simp only []
  rw [← hsid, ← hdb1, ← heres]
  by_cases hctrl : controls.isEmpty
  · rw [if_pos hctrl]
    exact h2
  · rw [if_neg hctrl]
    set lookup := if evidence.isEmpty then ([] : List (Str × Nat))
      else evidenceLookup eres.1 sid with hlook
    set st := ctrlPass nfkc sid lookup ⟨eres.1, [], ⟨0, eres.2, 0, 0, some sid⟩⟩ controls
      with hst
    have h3 : wfIds st.db :=
      ctrlPass_wfIds nfkc sid lookup controls ⟨eres.1, [], ⟨0, eres.2, 0, 0, some sid⟩⟩ h2
    have h4 := updateSourceCounts_tables st.db sid
    refine wfIds_congr (updateSourceCounts st.db sid) _
      (wfIds_congr st.db _ h3 h4.1 (le_of_eq h4.2.2.2.2.2.symm)) rfl ?_
    exact Nat.le_succ _

/-- After seeding, the named source resolves to a stored row carrying the
id the run used, and the run statistics report that id. -/
theorem seed_source (nfkc : Str → Str) (db : DB) (controls : List CtrlInput)
    (evidence : List EvInput) (name : Str) (a b c d : Option Str) :
    ∃ row, findSourceByName (seedFromDataFrames nfkc db controls evidence name a b c d).1
        name = some row ∧
      row.id = (getOrCreateComplianceSource db name a b c d none).1 ∧
      (seedFromDataFrames nfkc db controls evidence name a b c d).2.sourceId =
        some (getOrCreateComplianceSource db name a b c d none).1 := by
  obtain ⟨row0, hrow0, hid0⟩ := getOrCreate_post db name a b c d none
  set sid := (getOrCreateComplianceSource db name a b c d none).1 with hsid
  set db1 := (getOrCreateComplianceSource db name a b c d none).2 with hdb1
  set eres := if evidence.isEmpty then (db1, 0) else evPass nfkc sid (db1, 0) evidence
    with heres
  have hev : eres.1.sources = db1.sources := by
    by_cases hevE : evidence.isEmpty
    · rw [heres, if_pos hevE]
    · rw [heres, if_neg hevE]
      exact (evPass_tables nfkc sid evidence (db1, 0)).2.2.2.1
  have hrow1 : findSourceByName eres.1 name = some row0 := by
    unfold findSourceByName at hrow0 ⊢
    rw [hev]
    exact hrow0
  unfold seedFromDataFrames
  simp only []
  rw [← hsid, ← hdb1, ← heres]
  by_cases hctrl : controls.isEmpty
  · rw [if_pos hctrl]
    exact ⟨row0, hrow1, hid0, rfl⟩
  · rw [if_neg hctrl]
    set lookup := if evidence.isEmpty then ([] : List (Str × Nat))
      else evidenceLookup eres.1 sid with hlook
    set st := ctrlPass nfkc sid lookup ⟨eres.1, [], ⟨0, eres.2, 0, 0, some sid⟩⟩ controls
      with hst
    have hsrc2 : st.db.sources = eres.1.sources :=
      (ctrlPass_frame nfkc sid lookup controls _).2.2.2.1
    have hrow2 : findSourceByName st.db name = some row0 := by
      unfold findSourceByName at hrow1 ⊢
      rw [hsrc2]
      exact hrow1
    obtain ⟨row', hrow', hid'⟩ := findSource_updateCounts st.db sid name row0 hrow2
    refine ⟨row', hrow', hid'.trans hid0, ?_⟩
    show st.stats.sourceId = some sid
    rw [hst, ctrlPass_sourceId nfkc sid lookup controls _]

/-- The source id a seeding run resolves (abbreviation of the first
stage of `seed_from_dataframes`). -/
def seedSid (db : DB) (name : Str) (a b c d : Option Str) : Nat :=
  (getOrCreateComplianceSource db name a b c d none).1

/-- The store and count after the evidence pass of a seeding run. -/
def seedEvRes (nfkc : Str → Str) (db : DB) (evidence : List EvInput) (name : Str)
    (a b c d : Option Str) : DB × Nat :=
  if evidence.isEmpty then ((getOrCreateComplianceSource db name a b c d none).2, 0)
  else evPass nfkc (seedSid db name a b c d)
    ((getOrCreateComplianceSource db name a b c d none).2, 0) evidence

/-- The evidence lookup a seeding run builds. -/
def seedLookup (nfkc : Str → Str) (db : DB) (evidence : List EvInput) (name : Str)
    (a b c d : Option Str) : List (Str × Nat) :=
  if evidence.isEmpty then []
  else evidenceLookup (seedEvRes nfkc db evidence name a b c d).1
    (seedSid db name a b c d)

/-- The state in which the controls pass of a seeding run starts. -/
def seedStartState (nfkc : Str → Str) (db : DB) (evidence : List EvInput) (name : Str)
    (a b c d : Option Str) : SeedState :=
  ⟨(seedEvRes nfkc db evidence name a b c d).1, [],
    ⟨0, (seedEvRes nfkc db evidence name a b c d).2, 0, 0,
      some (seedSid db name a b c d)⟩⟩

/-- The state after the controls pass of a seeding run. -/
def seedCtrlState (nfkc : Str → Str) (db : DB) (controls : List CtrlInput)
    (evidence : List EvInput) (name : Str) (a b c d : Option Str) : SeedState :=
  ctrlPass nfkc (seedSid db name a b c d) (seedLookup nfkc db evidence name a b c d)
    (seedStartState nfkc db evidence name a b c d) controls

theorem seed_eq_empty (nfkc : Str → Str) (db : DB) (controls : List CtrlInput)
    (evidence : List EvInput) (name : Str) (a b c d : Option Str)
    (hctrl : controls.isEmpty = true) :
    seedFromDataFrames nfkc db controls evidence name a b c d =
      ((seedEvRes nfkc db evidence name a b c d).1,
        ⟨0, (seedEvRes nfkc db evidence name a b c d).2, 0, 0,
          some (seedSid db name a b c d)⟩) := by
  unfold seedFromDataFrames seedEvRes seedSid
  simp only []
  rw [if_pos hctrl]

theorem seed_eq_main (nfkc : Str → Str) (db : DB) (controls : List CtrlInput)
    (evidence : List EvInput) (name : Str) (a b c d : Option Str)
    (hctrl : controls.isEmpty = false) :
    seedFromDataFrames nfkc db controls evidence name a b c d =
      ({updateSourceCounts (seedCtrlState nfkc db controls evidence name a b c d).db
          (seedSid db name a b c d) with
         importHistory :=
           (updateSourceCounts (seedCtrlState nfkc db controls evidence name a b c d).db
             (seedSid db name a b c d)).importHistory ++
           [⟨(updateSourceCounts (seedCtrlState nfkc db controls evidence name a b c d).db
               (seedSid db name a b c d)).nextId,
             seedSid db name a b c d, d.getD (S ("unknown")), S ("seed"),
             (seedCtrlState nfkc db controls evidence name a b c d).stats.controlsImported,
             (seedCtrlState nfkc db controls evidence name a b c d).stats.evidenceImported,
             (seedCtrlState nfkc db controls evidence name a b c d).stats.domainsCreated,
             notesStr (seedCtrlState nfkc db controls evidence name a b c d).stats.evidenceLinks⟩],
         nextId :=
           (updateSourceCounts (seedCtrlState nfkc db controls evidence name a b c d).db
             (seedSid db name a b c d)).nextId + 1},
       (seedCtrlState nfkc db controls evidence name a b c d).stats) := by
  unfold seedFromDataFrames seedCtrlState seedStartState seedLookup seedEvRes seedSid
  simp only []
  rw [if_neg (by rw [hctrl]; simp)]

theorem seed_main_controls (nfkc : Str → Str) (db : DB) (controls : List CtrlInput)
    (evidence : List EvInput) (name : Str) (a b c d : Option Str)
    (hctrl : controls.isEmpty = false) :
    (seedFromDataFrames nfkc db controls evidence name a b c d).1.controls =
      (seedCtrlState nfkc db controls evidence name a b c d).db.controls ∧
    (seedFromDataFrames nfkc db controls evidence name a b c d).1.domains =
      (seedCtrlState nfkc db controls evidence name a b c d).db.domains ∧
    (seedFromDataFrames nfkc db controls evidence name a b c d).1.evidence =
      (seedCtrlState nfkc db controls evidence name a b c d).db.evidence ∧
    (seedFromDataFrames nfkc db controls evidence name a b c d).2 =
      (seedCtrlState nfkc db controls evidence name a b c d).stats := by
  rw [seed_eq_main nfkc db controls evidence name a b c d hctrl]
  have h := updateSourceCounts_tables
    (seedCtrlState nfkc db controls evidence name a b c d).db
    (seedSid db name a b c d)
  exact ⟨h.1, h.2.2.1, h.2.1, rfl⟩

/-- A second run against the store of a first run resolves the same
source id and leaves the store untouched. -/
theorem seed_resolves_again (nfkc : Str → Str) (db : DB) (controls : List CtrlInput)
    (evidence : List EvInput) (name : Str) (a b c d : Option Str) :
    getOrCreateComplianceSource
        (seedFromDataFrames nfkc db controls evidence name a b c d).1 name a b c d none =
      (seedSid db name a b c d,
        (seedFromDataFrames nfkc db controls evidence name a b c d).1) := by
  obtain ⟨row, hrow, hid, _⟩ := seed_source nfkc db controls evidence name a b c d
  simp only [getOrCreateComplianceSource, hrow]
  rw [hid]
  rfl

theorem seedSid_replay (nfkc : Str → Str) (db : DB) (controls : List CtrlInput)
    (evidence : List EvInput) (name : Str) (a b c d : Option Str) :
    seedSid (seedFromDataFrames nfkc db controls evidence name a b c d).1 name a b c d =
      seedSid db name a b c d := by
  unfold seedSid
  rw [seed_resolves_again nfkc db controls evidence name a b c d]
  rfl

theorem seedEvRes_replay (nfkc : Str → Str) (db : DB) (controls : List CtrlInput)
    (evidence : List EvInput) (name : Str) (a b c d : Option Str) :
    seedEvRes nfkc (seedFromDataFrames nfkc db controls evidence name a b c d).1
        evidence name a b c d =
      (if evidence.isEmpty
        then ((seedFromDataFrames nfkc db controls evidence name a b c d).1, 0)
        else evPass nfkc (seedSid db name a b c d)
          ((seedFromDataFrames nfkc db controls evidence name a b c d).1, 0) evidence) := by
  unfold seedEvRes
  rw [seed_resolves_again nfkc db controls evidence name a b c d,
    seedSid_replay nfkc db controls evidence name a b c d]

theorem seed_evidence_table (nfkc : Str → Str) (db : DB) (controls : List CtrlInput)
    (evidence : List EvInput) (name : Str) (a b c d : Option Str) :
    (seedFromDataFrames nfkc db controls evidence name a b c d).1.evidence =
      (seedEvRes nfkc db evidence name a b c d).1.evidence := by
  cases hctrl : controls.isEmpty with
  | true => rw [seed_eq_empty nfkc db controls evidence name a b c d hctrl]
  | false =>
    rw [(seed_main_controls nfkc db controls evidence name a b c d hctrl).2.2.1]
    exact (ctrlPass_frame nfkc (seedSid db name a b c d)
      (seedLookup nfkc db evidence name a b c d) controls
      (seedStartState nfkc db evidence name a b c d)).2.2.1

theorem seedEvRes_wfIds (nfkc : Str → Str) (db : DB) (evidence : List EvInput)
    (name : Str) (a b c d : Option Str) (h : wfIds db) :
    wfIds (seedEvRes nfkc db evidence name a b c d).1 := by
  have h1 : wfIds (getOrCreateComplianceSource db name a b c d none).2 :=
    wfIds_congr db _ h (getOrCreate_tables db name a b c d none).1
      (getOrCreate_nextId db name a b c d none)
  unfold seedEvRes
  by_cases hev : evidence.isEmpty
  · rw [if_pos hev]
    exact h1
  · rw [if_neg hev]
    exact wfIds_congr _ _ h1
      (evPass_tables nfkc (seedSid db name a b c d) evidence
        ((getOrCreateComplianceSource db name a b c d none).2, 0)).1
      (evPass_nextId nfkc (seedSid db name a b c d) evidence
        ((getOrCreateComplianceSource db name a b c d none).2, 0))

theorem seed_ev_sat (nfkc : Str → Str) (db : DB) (controls : List CtrlInput)
    (evidence : List EvInput) (name : Str) (a b c d : Option Str)
    (hev : evidence.isEmpty = false) :
    ∀ row ∈ evidence, ∀ r, cleanTextWith nfkc row.refId = some r →
    findEvidence (seedFromDataFrames nfkc db controls evidence name a b c d).1
      (seedSid db name a b c d) r ≠ none := by
  intro row hrow r hclean
  have h0 : findEvidence (seedEvRes nfkc db evidence name a b c d).1
      (seedSid db name a b c d) r ≠ none := by
    unfold seedEvRes
    rw [if_neg (by rw [hev]; simp)]
    exact evPass_sat nfkc (seedSid db name a b c d) evidence _ row hrow r hclean
  unfold findEvidence at h0 ⊢
  rw [seed_evidence_table nfkc db controls evidence name a b c d]
  exact h0

theorem evidenceLookup_congr (db db' : DB) (h : db'.evidence = db.evidence) (sid : Nat) :
    evidenceLookup db' sid = evidenceLookup db sid := by
  unfold evidenceLookup
  rw [h]

theorem seedLookup_replay (nfkc : Str → Str) (db : DB) (controls : List CtrlInput)
    (evidence : List EvInput) (name : Str) (a b c d : Option Str) :
    seedLookup nfkc (seedFromDataFrames nfkc db controls evidence name a b c d).1
        evidence name a b c d =
      seedLookup nfkc db evidence name a b c d := by
  by_cases hev : evidence.isEmpty
  · unfold seedLookup
    rw [if_pos hev, if_pos hev]
  · unfold seedLookup
    rw [if_neg hev, if_neg hev,
      seedSid_replay nfkc db controls evidence name a b c d,
      seedEvRes_replay nfkc db controls evidence name a b c d,
      if_neg hev]
    rw [evPass_lookup nfkc (seedSid db name a b c d) evidence
      ((seedFromDataFrames nfkc db controls evidence name a b c d).1, 0) (by
        intro row hrow r hclean
        exact seed_ev_sat nfkc db controls evidence name a b c d
          (Bool.eq_false_iff.mpr hev) row hrow r hclean)]
    exact evidenceLookup_congr (seedEvRes nfkc db evidence name a b c d).1 _
      (seed_evidence_table nfkc db controls evidence name a b c d)
      (seedSid db name a b c d)

theorem seedEvRes_tables (nfkc : Str → Str) (db : DB) (evidence : List EvInput)
    (name : Str) (a b c d : Option Str) :
    (seedEvRes nfkc db evidence name a b c d).1.controls = db.controls ∧
    (seedEvRes nfkc db evidence name a b c d).1.domains = db.domains := by
  have hg := getOrCreate_tables db name a b c d none
  unfold seedEvRes
  by_cases hev : evidence.isEmpty
  · rw [if_pos hev]
    exact ⟨hg.1, hg.2.2.1⟩
  · rw [if_neg hev]
    have he := evPass_tables nfkc (seedSid db name a b c d) evidence
      ((getOrCreateComplianceSource db name a b c d none).2, 0)
    exact ⟨he.1.trans hg.1, he.2.1.trans hg.2.2.1⟩

theorem seed_sourceId_stats (nfkc : Str → Str) (db : DB) (controls : List CtrlInput)
    (evidence : List EvInput) (name : Str) (a b c d : Option Str) :
    (seedFromDataFrames nfkc db controls evidence name a b c d).2.sourceId =
      some (seedSid db name a b c d) := by
  obtain ⟨_, _, _, h3⟩ := seed_source nfkc db controls evidence name a b c d
  exact h3

/-- The controls table is unchanged by a second identical seeding run. -/
theorem seed_controls_replay (nfkc : Str → Str) (db : DB) (controls : List CtrlInput)
    (evidence : List EvInput) (name : Str) (a b c d : Option Str) (hwf : wfIds db) :
    (seedFromDataFrames nfkc
        (seedFromDataFrames nfkc db controls evidence name a b c d).1
        controls evidence name a b c d).1.controls =
      (seedFromDataFrames nfkc db controls evidence name a b c d).1.controls := by
  cases hctrl : controls.isEmpty with
  | true =>
    rw [seed_eq_empty nfkc (seedFromDataFrames nfkc db controls evidence name a b c d).1
      controls evidence name a b c d hctrl]
    exact (seedEvRes_tables nfkc
      (seedFromDataFrames nfkc db controls evidence name a b c d).1
      evidence name a b c d).1
  | false =>
    have hsidr := seedSid_replay nfkc db controls evidence name a b c d
    have hlookr := seedLookup_replay nfkc db controls evidence name a b c d
    have hst2 : seedCtrlState nfkc
        (seedFromDataFrames nfkc db controls evidence name a b c d).1
        controls evidence name a b c d =
        ctrlPass nfkc (seedSid db name a b c d)
          (seedLookup nfkc db evidence name a b c d)
          (seedStartState nfkc
            (seedFromDataFrames nfkc db controls evidence name a b c d).1
            evidence name a b c d) controls := by
      unfold seedCtrlState
      rw [hsidr, hlookr]
    have hwfST : wfIds (seedStartState nfkc db evidence name a b c d).db :=
      seedEvRes_wfIds nfkc db evidence name a b c d hwf
    have hwfB : wfIds (seedStartState nfkc
        (seedFromDataFrames nfkc db controls evidence name a b c d).1
        evidence name a b c d).db :=
      seedEvRes_wfIds nfkc _ evidence name a b c d
        (seed_wfIds nfkc db controls evidence name a b c d hwf)
    have hm1 := seed_main_controls nfkc db controls evidence name a b c d hctrl
    have hB := seedEvRes_tables nfkc
      (seedFromDataFrames nfkc db controls evidence name a b c d).1
      evidence name a b c d
    have hBctl : (seedStartState nfkc
        (seedFromDataFrames nfkc db controls evidence name a b c d).1
        evidence name a b c d).db.controls =
        (ctrlPass nfkc (seedSid db name a b c d)
          (seedLookup nfkc db evidence name a b c d)
          (seedStartState nfkc db evidence name a b c d) controls).db.controls := by
      show (seedEvRes nfkc
        (seedFromDataFrames nfkc db controls evidence name a b c d).1
        evidence name a b c d).1.controls = _
      rw [hB.1]
      exact hm1.1
    have hBdom : (seedStartState nfkc
        (seedFromDataFrames nfkc db controls evidence name a b c d).1
        evidence name a b c d).db.domains =
        (ctrlPass nfkc (seedSid db name a b c d)
          (seedLookup nfkc db evidence name a b c d)
          (seedStartState nfkc db evidence name a b c d) controls).db.domains := by
      show (seedEvRes nfkc
        (seedFromDataFrames nfkc db controls evidence name a b c d).1
        evidence name a b c d).1.domains = _
      rw [hB.2]
      exact hm1.2.1
    have habs := absPass nfkc (seedSid db name a b c d)
      (seedLookup nfkc db evidence name a b c d) controls
      (seedStartState nfkc db evidence name a b c d)
      (seedStartState nfkc
        (seedFromDataFrames nfkc db controls evidence name a b c d).1
        evidence name a b c d)
      (cacheOK_nil _ _ rfl) hwfST (cacheOK_nil _ _ rfl) hwfB hBctl hBdom
    rw [(seed_main_controls nfkc
        (seedFromDataFrames nfkc db controls evidence name a b c d).1
        controls evidence name a b c d hctrl).1, hst2]
    rw [habs]
    exact hm1.1.symm

-- ---------------------------------------------------------------------
-- Claim C1: seeding idempotence over (source_id, ccf_id)
-- ---------------------------------------------------------------------

/-- C1: seeding is idempotent over the natural key `(source_id,
ccf_id)`: for every controls frame and every source, running
`seed_from_dataframes` twice with the same frames into the same named
source resolves the same source id, leaves the controls table literally
unchanged — in particular the same number of the source's control rows
and, for every control that existed after the first run, a control with
the same row identifier and the same scalar fields (title, description,
type, theme, guidance, testing, mappings) after the second run. -/
theorem c1_seed_idempotent (nfkc : Str → Str) (db : DB) (controls : List CtrlInput)
    (evidence : List EvInput) (name : Str) (a b c d : Option Str) (hwf : wfIds db) :
    ∃ sid,
      (seedFromDataFrames nfkc db controls evidence name a b c d).2.sourceId = some sid ∧
      (seedFromDataFrames nfkc
        (seedFromDataFrames nfkc db controls evidence name a b c d).1
        controls evidence name a b c d).2.sourceId = some sid ∧
      (seedFromDataFrames nfkc
        (seedFromDataFrames nfkc db controls evidence name a b c d).1
        controls evidence name a b c d).1.controls =
        (seedFromDataFrames nfkc db controls evidence name a b c d).1.controls ∧
      ((seedFromDataFrames nfkc
        (seedFromDataFrames nfkc db controls evidence name a b c d).1
        controls evidence name a b c d).1.controls.filter
          (fun x => x.sourceId == sid)).length =
        ((seedFromDataFrames nfkc db controls evidence name a b c d).1.controls.filter
          (fun x => x.sourceId == sid)).length ∧
      ∀ x ∈ (seedFromDataFrames nfkc db controls evidence name a b c d).1.controls,
        ∃ y ∈ (seedFromDataFrames nfkc
          (seedFromDataFrames nfkc db controls evidence name a b c d).1
          controls evidence name a b c d).1.controls,
          y.id = x.id ∧ y.sourceId = x.sourceId ∧ y.ccfId = x.ccfId ∧
          y.title = x.title ∧ y.description = x.description ∧ y.ctype = x.ctype ∧
          y.theme = x.theme ∧ y.guidance = x.guidance ∧ y.testing = x.testing ∧
          y.mappings = x.mappings := by
  refine ⟨seedSid db name a b c d,
    seed_sourceId_stats nfkc db controls evidence name a b c d, ?_, ?_, ?_, ?_⟩
  · rw [seed_sourceId_stats nfkc
      (seedFromDataFrames nfkc db controls evidence name a b c d).1
      controls evidence name a b c d,
      seedSid_replay nfkc db controls evidence name a b c d]
  · exact seed_controls_replay nfkc db controls evidence name a b c d hwf
  · rw [seed_controls_replay nfkc db controls evidence name a b c d hwf]
  · intro x hx
    refine ⟨x, ?_, rfl, rfl, rfl, rfl, rfl, rfl, rfl, rfl, rfl, rfl⟩
    rw [seed_controls_replay nfkc db controls evidence name a b c d hwf]
    exact hx

/-- Witness for C1: seeding a frame with a duplicated key and a linked
evidence row into the empty store twice keeps the controls table, the
counts, the identifiers and all scalar fields of the first run. -/
theorem c1_seed_idempotent_witness :
    ∃ sid,
      (seedFromDataFrames asciiNFKC emptyDB
        [⟨vStr (S ("AC-1")), vStr (S ("Gov")), vStr (S ("First title")), vNull, vNull,
          vNull, vNull, vNull, MVal.mNull, vStr (S ("E-1"))⟩,
         ⟨vStr (S ("AC-1")), vStr (S ("Gov")), vStr (S ("Second title")), vNull, vNull,
          vNull, vNull, vNull, MVal.mNull, vNull⟩]
        [⟨vStr (S ("E-1")), vNull, vNull⟩]
        (S ("Frame")) none none none none).2.sourceId = some sid ∧
      (seedFromDataFrames asciiNFKC
        (seedFromDataFrames asciiNFKC emptyDB
          [⟨vStr (S ("AC-1")), vStr (S ("Gov")), vStr (S ("First title")), vNull, vNull,
            vNull, vNull, vNull, MVal.mNull, vStr (S ("E-1"))⟩,
           ⟨vStr (S ("AC-1")), vStr (S ("Gov")), vStr (S ("Second title")), vNull, vNull,
            vNull, vNull, vNull, MVal.mNull, vNull⟩]
          [⟨vStr (S ("E-1")), vNull, vNull⟩]
          (S ("Frame")) none none none none).1
        [⟨vStr (S ("AC-1")), vStr (S ("Gov")), vStr (S ("First title")), vNull, vNull,
          vNull, vNull, vNull, MVal.mNull, vStr (S ("E-1"))⟩,
         ⟨vStr (S ("AC-1")), vStr (S ("Gov")), vStr (S ("Second title")), vNull, vNull,
          vNull, vNull, vNull, MVal.mNull, vNull⟩]
        [⟨vStr (S ("E-1")), vNull, vNull⟩]
        (S ("Frame")) none none none none).2.sourceId = some sid ∧
      (seedFromDataFrames asciiNFKC
        (seedFromDataFrames asciiNFKC emptyDB
          [⟨vStr (S ("AC-1")), vStr (S ("Gov")), vStr (S ("First title")), vNull, vNull,
            vNull, vNull, vNull, MVal.mNull, vStr (S ("E-1"))⟩,
           ⟨vStr (S ("AC-1")), vStr (S ("Gov")), vStr (S ("Second title")), vNull, vNull,
            vNull, vNull, vNull, MVal.mNull, vNull⟩]
          [⟨vStr (S ("E-1")), vNull, vNull⟩]
          (S ("Frame")) none none none none).1
        [⟨vStr (S ("AC-1")), vStr (S ("Gov")), vStr (S ("First title")), vNull, vNull,
          vNull, vNull, vNull, MVal.mNull, vStr (S ("E-1"))⟩,
         ⟨vStr (S ("AC-1")), vStr (S ("Gov")), vStr (S ("Second title")), vNull, vNull,
          vNull, vNull, vNull, MVal.mNull, vNull⟩]
        [⟨vStr (S ("E-1")), vNull, vNull⟩]
        (S ("Frame")) none none none none).1.controls =
        (seedFromDataFrames asciiNFKC emptyDB
          [⟨vStr (S ("AC-1")), vStr (S ("Gov")), vStr (S ("First title")), vNull, vNull,
            vNull, vNull, vNull, MVal.mNull, vStr (S ("E-1"))⟩,
           ⟨vStr (S ("AC-1")), vStr (S ("Gov")), vStr (S ("Second title")), vNull, vNull,
            vNull, vNull, vNull, MVal.mNull, vNull⟩]
          [⟨vStr (S ("E-1")), vNull, vNull⟩]
          (S ("Frame")) none none none none).1.controls ∧
      ((seedFromDataFrames asciiNFKC
        (seedFromDataFrames asciiNFKC emptyDB
          [⟨vStr (S ("AC-1")), vStr (S ("Gov")), vStr (S ("First title")), vNull, vNull,
            vNull, vNull, vNull, MVal.mNull, vStr (S ("E-1"))⟩,
           ⟨vStr (S ("AC-1")), vStr (S ("Gov")), vStr (S ("Second title")), vNull, vNull,
            vNull, vNull, vNull, MVal.mNull, vNull⟩]
          [⟨vStr (S ("E-1")), vNull, vNull⟩]
          (S ("Frame")) none none none none).1
        [⟨vStr (S ("AC-1")), vStr (S ("Gov")), vStr (S ("First title")), vNull, vNull,
          vNull, vNull, vNull, MVal.mNull, vStr (S ("E-1"))⟩,
         ⟨vStr (S ("AC-1")), vStr (S ("Gov")), vStr (S ("Second title")), vNull, vNull,
          vNull, vNull, vNull, MVal.mNull, vNull⟩]
        [⟨vStr (S ("E-1")), vNull, vNull⟩]
        (S ("Frame")) none none none none).1.controls.filter
          (fun x => x.sourceId == sid)).length =
        ((seedFromDataFrames asciiNFKC emptyDB
          [⟨vStr (S ("AC-1")), vStr (S ("Gov")), vStr (S ("First title")), vNull, vNull,
            vNull, vNull, vNull, MVal.mNull, vStr (S ("E-1"))⟩,
           ⟨vStr (S ("AC-1")), vStr (S ("Gov")), vStr (S ("Second title")), vNull, vNull,
            vNull, vNull, vNull, MVal.mNull, vNull⟩]
          [⟨vStr (S ("E-1")), vNull, vNull⟩]
          (S ("Frame")) none none none none).1.controls.filter
          (fun x => x.sourceId == sid)).length ∧
      ∀ x ∈ (seedFromDataFrames asciiNFKC emptyDB
          [⟨vStr (S ("AC-1")), vStr (S ("Gov")), vStr (S ("First title")), vNull, vNull,
            vNull, vNull, vNull, MVal.mNull, vStr (S ("E-1"))⟩,
           ⟨vStr (S ("AC-1")), vStr (S ("Gov")), vStr (S ("Second title")), vNull, vNull,
            vNull, vNull, vNull, MVal.mNull, vNull⟩]
          [⟨vStr (S ("E-1")), vNull, vNull⟩]
          (S ("Frame")) none none none none).1.controls,
        ∃ y ∈ (seedFromDataFrames asciiNFKC
          (seedFromDataFrames asciiNFKC emptyDB
            [⟨vStr (S ("AC-1")), vStr (S ("Gov")), vStr (S ("First title")), vNull, vNull,
              vNull, vNull, vNull, MVal.mNull, vStr (S ("E-1"))⟩,
             ⟨vStr (S ("AC-1")), vStr (S ("Gov")), vStr (S ("Second title")), vNull, vNull,
              vNull, vNull, vNull, MVal.mNull, vNull⟩]
            [⟨vStr (S ("E-1")), vNull, vNull⟩]
            (S ("Frame")) none none none none).1
          [⟨vStr (S ("AC-1")), vStr (S ("Gov")), vStr (S ("First title")), vNull, vNull,
            vNull, vNull, vNull, MVal.mNull, vStr (S ("E-1"))⟩,
           ⟨vStr (S ("AC-1")), vStr (S ("Gov")), vStr (S ("Second title")), vNull, vNull,
            vNull, vNull, vNull, MVal.mNull, vNull⟩]
          [⟨vStr (S ("E-1")), vNull, vNull⟩]
          (S ("Frame")) none none none none).1.controls,
          y.id = x.id ∧ y.sourceId = x.sourceId ∧ y.ccfId = x.ccfId ∧
          y.title = x.title ∧ y.description = x.description ∧ y.ctype = x.ctype ∧
          y.theme = x.theme ∧ y.guidance = x.guidance ∧ y.testing = x.testing ∧
          y.mappings = x.mappings :=
  c1_seed_idempotent asciiNFKC emptyDB
    [⟨vStr (S ("AC-1")), vStr (S ("Gov")), vStr (S ("First title")), vNull, vNull,
      vNull, vNull, vNull, MVal.mNull, vStr (S ("E-1"))⟩,
     ⟨vStr (S ("AC-1")), vStr (S ("Gov")), vStr (S ("Second title")), vNull, vNull,
      vNull, vNull, vNull, MVal.mNull, vNull⟩]
    [⟨vStr (S ("E-1")), vNull, vNull⟩]
    (S ("Frame")) none none none none
    ⟨List.Pairwise.nil, fun x hx => by simp [emptyDB] at hx⟩
